import Mathlib

/-!
# Frame-diff and partial-update engine of the ST7789 console mirror

A shallow embedding of `partial.c`: the interlace filter, the diff of the captured
frame against the retained previous frame, the bounding-box scan, the region
copy, the SPI traffic that `set_window` / `write_data_len` produce, one pass of
the body of the `while (keep_running)` loop of
`display_framebuffer_smart_update`, and the loop itself.

Conventions.
* A `uint16_t *` buffer is an `Array Nat` of 16-bit words; `rd` and `wr` are the
  C subscript read and write.
* `int` variables are `Nat` where the program keeps them non-negative; the two
  differences `max_x - min_x` and `max_y - min_y` are taken in `Int`, as in C.
* `float` is IEEE-754 binary32 with round-to-nearest-even, modelled on `ℚ`.
* What reaches the panel is a list of `Ev`: command bytes, single data bytes and
  data bursts.  `printf` output is not part of the model.
* `malloc` is an argument: `none` for `NULL`, otherwise the arbitrary initial
  contents of the block.

The theorems state the sizes of the buffers they rely on; a read outside a buffer
yields 0 in the model and plays no part in them.
-/

namespace St7789

/-! ## Configuration (the `#define`s of `partial.c`) -/

def WIDTH : Nat := 320
def HEIGHT : Nat := 170
def DISPLAY_SIZE : Nat := WIDTH * HEIGHT
def DISPLAY_BYTES : Nat := DISPLAY_SIZE * 2
def COL_OFFSET : Nat := 0
def ROW_OFFSET : Nat := 35
def INTERLACE_ENABLED : Bool := false
def INTERLACE_EVERY : Nat := 2
def CHANGE_THRESHOLD : Nat := 5
def MIN_UPDATE_REGION : Nat := 10

/-! ## Buffers and loops -/

/-- The C read `a[i]` of a `uint16_t` buffer. -/
def rd (a : Array Nat) (i : Nat) : Nat := a.getD i 0

/-- The C write `a[i] = v` of a `uint16_t` buffer.  Every right-hand side stored
by this program is already a `uint16_t` (a buffer word, the constants 0 and 1, or
the result of `fix_color_format`), so no store truncates.  A write outside the
buffer leaves it unchanged. -/
def wr (a : Array Nat) (i v : Nat) : Array Nat := a.setD i v

/-- The loop `for (int i = lo; i < hi; i++) body`, as a state transformer. -/
def forLoop {σ : Type} (lo hi : Nat) (body : Nat → σ → σ) (s : σ) : σ :=
  (List.range' lo (hi - lo)).foldl (fun acc i => body i acc) s

/-! ## SPI traffic -/

/-- One transfer on the SPI bus: a command byte (DC low), a single data byte
(DC high), or a burst of `len` data bytes, recorded as the 16-bit words that
occupy those bytes in the source buffer. -/
inductive Ev where
  | cmd (b : Nat)
  | data (b : Nat)
  | data_len (words : List Nat) (len : Nat)
  deriving DecidableEq, Repr

/-- Function `write_command(uint8_t cmd)`. -/
def write_command (c : Nat) : List Ev := [Ev.cmd (c % 256)]

/-- Function `write_data(uint8_t data)`. -/
def write_data (d : Nat) : List Ev := [Ev.data (d % 256)]

/-- Function `write_data_len(const uint8_t *data, uint32_t len)`: one burst of
the first `len` bytes of the buffer, i.e. its first `len / 2` words. -/
def write_data_len (buf : Array Nat) (len : Nat) : List Ev :=
  [Ev.data_len ((List.range (len / 2)).map (rd buf)) len]

/-- Function `set_window(uint16_t x_start, y_start, x_end, y_end)`: the
arguments are converted to `uint16_t`, the offsets added in 16 bits, and the
column-address, row-address and memory-write commands issued. -/
def set_window (x_start y_start x_end y_end : Nat) : List Ev :=
  let x_start := (x_start % 65536 + COL_OFFSET) % 65536
  let x_end := (x_end % 65536 + COL_OFFSET) % 65536
  let y_start := (y_start % 65536 + ROW_OFFSET) % 65536
  let y_end := (y_end % 65536 + ROW_OFFSET) % 65536
  write_command 0x2A
    ++ write_data (x_start >>> 8) ++ write_data (x_start &&& 0xFF)
    ++ write_data (x_end >>> 8) ++ write_data (x_end &&& 0xFF)
    ++ write_command 0x2B
    ++ write_data (y_start >>> 8) ++ write_data (y_start &&& 0xFF)
    ++ write_data (y_end >>> 8) ++ write_data (y_end &&& 0xFF)
    ++ write_command 0x2C

/-! ## Binary32 arithmetic -/

/-- Nearest integer to a rational, ties going to the even neighbour. -/
def roundHalfEven (q : ℚ) : ℤ :=
  let f := ⌊q⌋
  if q - f < 1 / 2 then f
  else if 1 / 2 < q - f then f + 1
  else if f % 2 = 0 then f else f + 1

/-- The binary32 value nearest to `q` (24-bit significand, round to nearest
even), for magnitudes in the normal range; every value computed here lies
between 0 and 10000. -/
def f32 (q : ℚ) : ℚ :=
  if q = 0 then 0
  else
    let e := Int.log 2 |q|
    (if q < 0 then -1 else 1) * (roundHalfEven (|q| * 2 ^ (23 - e)) : ℚ) * 2 ^ (e - 23)

/-- Conversion `int → float`. -/
def f32_of_int (n : Int) : ℚ := f32 n

/-- Product of two `float`s. -/
def f32_mul (a b : ℚ) : ℚ := f32 (a * b)

/-- Quotient of two `float`s. -/
def f32_div (a b : ℚ) : ℚ := f32 (a / b)

/-! ## Colour correction and interlacing -/

/-- Function `fix_color_format`: swap the two bytes of a pixel. -/
def fix_color_format (color : Nat) : Nat :=
  (((color &&& 0xFF) <<< 8) ||| (color >>> 8)) % 65536

/-- Body of `apply_interlacing` under `#if INTERLACE_ENABLED`, with the two
macros as arguments. -/
def apply_interlacing_with (enabled : Bool) (every : Nat) (frame : Array Nat) : Array Nat :=
  if enabled then
    forLoop 0 HEIGHT (fun y frame =>
      if y % every = 1 then
        forLoop 0 WIDTH (fun x frame => wr frame (y * WIDTH + x) 0x0000) frame
      else frame) frame
  else frame

/-- Function `apply_interlacing` as compiled. -/
def apply_interlacing (frame : Array Nat) : Array Nat :=
  apply_interlacing_with INTERLACE_ENABLED INTERLACE_EVERY frame

/-! ## The diff -/

/-- Loop of `detect_changed_regions` (lines 280-287): the state is
`(update_mask, changed_pixels)`. -/
def detect_loop (prev_frame current_frame update_mask : Array Nat) : Array Nat × Nat :=
  forLoop 0 DISPLAY_SIZE (fun i s =>
    if rd current_frame i ≠ rd prev_frame i then (wr s.1 i 1, s.2 + 1)
    else (wr s.1 i 0, s.2)) (update_mask, 0)

/-- The `float change_percent` of `detect_changed_regions` (line 290). -/
def change_percent (changed_pixels : Nat) : ℚ :=
  f32_div (f32_mul (f32_of_int changed_pixels) 100) (f32_of_int DISPLAY_SIZE)

/-- Function `detect_changed_regions`, reading the global `prev_frame`: returns
the filled `update_mask` and the `int` result (1 = full update). -/
def detect_changed_regions (prev_frame current_frame update_mask : Array Nat) :
    Array Nat × Nat :=
  let s := detect_loop prev_frame current_frame update_mask
  if change_percent s.2 > f32_of_int CHANGE_THRESHOLD then (s.1, 1) else (s.1, 0)

/-! ## Bounding box, region copy and transmit -/

/-- The locals `min_x, max_x, min_y, max_y, changed_areas`. -/
structure BBox where
  min_x : Nat
  max_x : Nat
  min_y : Nat
  max_y : Nat
  changed_areas : Nat
  deriving DecidableEq, Repr

/-- Body of the inner loop of the scan (lines 312-319). -/
def bbox_step (update_mask : Array Nat) (y x : Nat) (b : BBox) : BBox :=
  let idx := y * WIDTH + x
  if rd update_mask idx ≠ 0 then
    let b := if x < b.min_x then { b with min_x := x } else b
    let b := if x > b.max_x then { b with max_x := x } else b
    let b := if y < b.min_y then { b with min_y := y } else b
    let b := if y > b.max_y then { b with max_y := y } else b
    { b with changed_areas := b.changed_areas + 1 }
  else b

/-- Bounding-box scan of `update_changed_regions` (lines 305-321). -/
def find_bounding_box (update_mask : Array Nat) : BBox :=
  forLoop 0 HEIGHT (fun y b => forLoop 0 WIDTH (fun x b => bbox_step update_mask y x b) b)
    { min_x := WIDTH, max_x := 0, min_y := HEIGHT, max_y := 0, changed_areas := 0 }

/-- Bounding-box scan of `update_interlaced_regions` under
`#if INTERLACE_ENABLED` (lines 370-389): rows with `y % every == 1` are skipped. -/
def find_bounding_box_interlaced (every : Nat) (update_mask : Array Nat) : BBox :=
  forLoop 0 HEIGHT (fun y b =>
    if y % every = 1 then b
    else forLoop 0 WIDTH (fun x b => bbox_step update_mask y x b) b)
    { min_x := WIDTH, max_x := 0, min_y := HEIGHT, max_y := 0, changed_areas := 0 }

/-- The copy loop (lines 344-350) into `region_buffer`. -/
def copy_region (current_frame : Array Nat) (min_x max_x min_y max_y : Nat)
    (region_buffer : Array Nat) : Array Nat :=
  let region_width := max_x - min_x + 1
  forLoop min_y (max_y + 1) (fun y buf =>
    forLoop min_x (max_x + 1) (fun x buf =>
      let src_idx := y * WIDTH + x
      let dst_idx := (y - min_y) * region_width + (x - min_x)
      wr buf dst_idx (rd current_frame src_idx)) buf) region_buffer

/-- The index pairs `(src_idx, dst_idx)` of the copy loop (lines 344-350), in the
order in which the loop computes them. -/
def copy_accesses (min_x max_x min_y max_y : Nat) : List (Nat × Nat) :=
  let region_width := max_x - min_x + 1
  forLoop min_y (max_y + 1) (fun y acc =>
    forLoop min_x (max_x + 1) (fun x acc =>
      let src_idx := y * WIDTH + x
      let dst_idx := (y - min_y) * region_width + (x - min_x)
      acc ++ [(src_idx, dst_idx)]) acc) []

/-- A block returned by `malloc(bytes)`, seen as `uint16_t *`: `bytes / 2` words
whose initial contents `garbage` are arbitrary. -/
def fresh_block (bytes : Nat) (garbage : Nat → Nat) : Array Nat :=
  Array.ofFn (fun (i : Fin (bytes / 2)) => garbage i.val)

/-- The condition of the `if` at lines 324-325 (and 392-393). -/
def partial_guard (b : BBox) : Prop :=
  b.changed_areas > MIN_UPDATE_REGION ∧ (b.max_x : Int) - b.min_x > 2
    ∧ (b.max_y : Int) - b.min_y > 2

instance (b : BBox) : Decidable (partial_guard b) := by
  unfold partial_guard; infer_instance

/-- Lines 323-363 (and 391-431): what is sent once the bounding box is known.
`malloc bytes` is `none` for `NULL`, otherwise the initial contents of the
block. -/
def send_bounding_box (malloc : Nat → Option (Nat → Nat)) (current_frame : Array Nat)
    (b : BBox) : List Ev :=
  if partial_guard b then
    let w := set_window b.min_x b.min_y b.max_x b.max_y
    let region_width := b.max_x - b.min_x + 1
    let region_height := b.max_y - b.min_y + 1
    let region_size := region_width * region_height
    match malloc (region_size * 2) with
    | none =>
      w ++ set_window 0 0 (WIDTH - 1) (HEIGHT - 1) ++ write_data_len current_frame DISPLAY_BYTES
    | some garbage =>
      let region_buffer := fresh_block (region_size * 2) garbage
      let region_buffer := copy_region current_frame b.min_x b.max_x b.min_y b.max_y region_buffer
      w ++ write_data_len region_buffer (region_size * 2)
  else if b.changed_areas > 0 then
    set_window 0 0 (WIDTH - 1) (HEIGHT - 1) ++ write_data_len current_frame DISPLAY_BYTES
  else []

/-- Function `update_changed_regions`. -/
def update_changed_regions (malloc : Nat → Option (Nat → Nat))
    (current_frame update_mask : Array Nat) : List Ev :=
  send_bounding_box malloc current_frame (find_bounding_box update_mask)

/-- Function `update_interlaced_regions`, both arms of its `#if`. -/
def update_interlaced_regions (malloc : Nat → Option (Nat → Nat))
    (current_frame update_mask : Array Nat) : List Ev :=
  if INTERLACE_ENABLED then
    send_bounding_box malloc current_frame
      (find_bounding_box_interlaced INTERLACE_EVERY update_mask)
  else update_changed_regions malloc current_frame update_mask

/-! ## One pass of the loop of `display_framebuffer_smart_update` -/

/-- The buffers the loop works on (the global `prev_frame` and the two locals)
and the SPI traffic produced so far. -/
structure Engine where
  prev_frame : Array Nat
  current_frame : Array Nat
  update_mask : Array Nat
  spi : List Ev

/-- What the two dispmanx calls of one pass return: their status codes and the
pixels that `vc_dispmanx_resource_read_data` stores in `current_frame`. -/
structure Capture where
  snapshot : Nat
  read_data : Nat
  pixels : Array Nat

/-- The call `memcpy(dst, src, bytes)` on two `uint16_t` buffers. -/
def memcpy (dst src : Array Nat) (bytes : Nat) : Array Nat :=
  forLoop 0 (bytes / 2) (fun i d => wr d i (rd src i)) dst

/-- State after `init_gpu_resources` (lines 264-270) and the two `malloc`s of
lines 451-452: `prev_frame` is zero-filled, nothing has been sent. -/
def init_engine (current_frame update_mask : Array Nat) : Engine :=
  { prev_frame := Array.mkArray DISPLAY_SIZE 0
    current_frame := current_frame
    update_mask := update_mask
    spi := [] }

/-- Lines 474-480: colour correction of every pixel, then interlacing. -/
def prepare_frame (current_frame : Array Nat) : Array Nat :=
  apply_interlacing
    (forLoop 0 DISPLAY_SIZE (fun i f => wr f i (fix_color_format (rd f i))) current_frame)

/-- Lines 485-493: the transmit selected by the result of the diff. -/
def select_transmit (malloc : Nat → Option (Nat → Nat))
    (current_frame update_mask : Array Nat) (full_update : Nat) : List Ev :=
  if full_update ≠ 0 then
    set_window 0 0 (WIDTH - 1) (HEIGHT - 1) ++ write_data_len current_frame DISPLAY_BYTES
  else update_interlaced_regions malloc current_frame update_mask

/-- What lines 482-493 send for a given previous frame, current frame and
(stale) mask buffer. -/
def cycle_traffic (malloc : Nat → Option (Nat → Nat))
    (prev_frame current_frame update_mask : Array Nat) : List Ev :=
  let r := detect_changed_regions prev_frame current_frame update_mask
  select_transmit malloc current_frame r.1 r.2

/-- Lines 482-493: the diff fills `update_mask`, and the transmit it selects is
appended to the SPI traffic; the two frame buffers are only read. -/
def diff_and_transmit (malloc : Nat → Option (Nat → Nat)) (st : Engine) : Engine :=
  { prev_frame := st.prev_frame
    current_frame := st.current_frame
    update_mask := (detect_changed_regions st.prev_frame st.current_frame st.update_mask).1
    spi := st.spi ++ cycle_traffic malloc st.prev_frame st.current_frame st.update_mask }

/-- Line 496: `memcpy(prev_frame, current_frame, DISPLAY_BYTES)`. -/
def commit (st : Engine) : Engine :=
  { prev_frame := memcpy st.prev_frame st.current_frame DISPLAY_BYTES
    current_frame := st.current_frame
    update_mask := st.update_mask
    spi := st.spi }

/-- Lines 462-480: the state once the captured pixels have been stored in
`current_frame`, colour-corrected and interlaced. -/
def load_frame (cap : Capture) (st : Engine) : Engine :=
  { prev_frame := st.prev_frame
    current_frame := prepare_frame cap.pixels
    update_mask := st.update_mask
    spi := st.spi }

/-- One pass of the body of `while (keep_running)` (lines 462-496); `none` is
the `break` taken when a dispmanx call fails. -/
def loop_body (malloc : Nat → Option (Nat → Nat)) (cap : Capture) (st : Engine) :
    Option Engine :=
  if cap.snapshot ≠ 0 then none
  else if cap.read_data ≠ 0 then none
  else some (commit (diff_and_transmit malloc (load_frame cap st)))

/-- What one evaluation of the loop condition and one pass consume: the value of
`keep_running` read at the top of the loop, the allocator, and the capture. -/
structure Pass where
  keep_running : Nat
  malloc : Nat → Option (Nat → Nat)
  cap : Capture

/-- The loop `while (keep_running) { .. }` of `display_framebuffer_smart_update`
(lines 461-517) over the passes the environment offers: it ends when
`keep_running` is 0 or a dispmanx call fails (`break`).  Nothing else ends it:
`write_data_len` returns `void` and the outcome of a write is never inspected. -/
def smart_update_loop : List Pass → Engine → Engine
  | [], st => st
  | p :: rest, st =>
    if p.keep_running = 0 then st
    else
      match loop_body p.malloc p.cap st with
      | none => st
      | some st' => smart_update_loop rest st'

/-! ## Specification-side notions

The definitions below are not translated from the program: they state what the
design document says about it, and the theorems compare the two. -/

/-- Number of pixels at which the current frame differs from the previous one. -/
def changed_pixel_count (prev_frame current_frame : Array Nat) : Nat :=
  ((Finset.range DISPLAY_SIZE).filter
    (fun i => rd current_frame i ≠ rd prev_frame i)).card

/-- Pixel `(x, y)` differs between the two frames. -/
def differs (prev_frame current_frame : Array Nat) (x y : Nat) : Prop :=
  rd current_frame (y * WIDTH + x) ≠ rd prev_frame (y * WIDTH + x)

/-- Pixel `(x, y)` is marked in an update mask. -/
def marked (update_mask : Array Nat) (x y : Nat) : Prop :=
  rd update_mask (y * WIDTH + x) ≠ 0

/-- A rectangle with inclusive corners. -/
structure Rect where
  min_x : Nat
  max_x : Nat
  min_y : Nat
  max_y : Nat
  deriving DecidableEq, Repr

/-- The rectangle lies on the screen: `min ≤ max < dimension` on both axes. -/
def Rect.valid (r : Rect) : Prop :=
  r.min_x ≤ r.max_x ∧ r.max_x < WIDTH ∧ r.min_y ≤ r.max_y ∧ r.max_y < HEIGHT

instance (r : Rect) : Decidable r.valid := by
  unfold Rect.valid; infer_instance

/-- Width of a rectangle in pixels. -/
def Rect.width (r : Rect) : Nat := r.max_x - r.min_x + 1

/-- Height of a rectangle in pixels. -/
def Rect.height (r : Rect) : Nat := r.max_y - r.min_y + 1

/-- The rectangle `r` is the smallest axis-aligned rectangle enclosing the pixels
selected by `p`: it is on the screen, contains every selected pixel, and each
of its four sides carries a selected pixel. -/
def IsBoundingRect (p : Nat → Nat → Prop) (r : Rect) : Prop :=
  r.valid
  ∧ (∀ y, y < HEIGHT → ∀ x, x < WIDTH → p x y →
      r.min_x ≤ x ∧ x ≤ r.max_x ∧ r.min_y ≤ y ∧ y ≤ r.max_y)
  ∧ (∃ y, y < HEIGHT ∧ p r.min_x y) ∧ (∃ y, y < HEIGHT ∧ p r.max_x y)
  ∧ (∃ x, x < WIDTH ∧ p x r.min_y) ∧ (∃ x, x < WIDTH ∧ p x r.max_y)

/-- The rectangle held in the locals of the scan. -/
def BBox.rect (b : BBox) : Rect :=
  { min_x := b.min_x, max_x := b.max_x, min_y := b.min_y, max_y := b.max_y }

/-- Row-major packed copy of the rectangle `r` of a frame: word `k` is the pixel
in row `min_y + k / width`, column `min_x + k % width`. -/
def region_words (frame : Array Nat) (r : Rect) : List Nat :=
  (List.range (r.width * r.height)).map
    (fun k => rd frame ((r.min_y + k / r.width) * WIDTH + (r.min_x + k % r.width)))

/-- Traffic of a full update: window `(0, 0, WIDTH-1, HEIGHT-1)`, then all
`WIDTH * HEIGHT` pixels of the frame. -/
def full_transmit (frame : Array Nat) : List Ev :=
  set_window 0 0 319 169 ++ [Ev.data_len ((List.range 54400).map (rd frame)) 108800]

/-- Traffic of a partial update of rectangle `r`: window `r`, then the packed
pixels of `r`. -/
def partial_transmit (frame : Array Nat) (r : Rect) : List Ev :=
  set_window r.min_x r.min_y r.max_x r.max_y
    ++ [Ev.data_len (region_words frame r) (r.width * r.height * 2)]

/-- The pass reaches the partial arm (line 326): the diff returned 0 and the
guard of line 324 holds for the scanned box. -/
def reaches_partial_arm (prev_frame current_frame update_mask : Array Nat) : Prop :=
  (detect_changed_regions prev_frame current_frame update_mask).2 = 0
  ∧ partial_guard
      (find_bounding_box (detect_changed_regions prev_frame current_frame update_mask).1)

/-- Re-insertion of packed words into a frame at rectangle `r`, row by row: the
inverse of the region copy, and the effect of a memory write on the panel. -/
def insert_region (frame : Array Nat) (r : Rect) (words : List Nat) : Array Nat :=
  forLoop r.min_y (r.max_y + 1) (fun y f =>
    forLoop r.min_x (r.max_x + 1) (fun x f =>
      wr f (y * WIDTH + x) (words.getD ((y - r.min_y) * r.width + (x - r.min_x)) 0)) f) frame

/-- The panel controller: the last command, the data bytes received since, the
address window in controller coordinates, and the visible `WIDTH × HEIGHT`
pixels in row-major order. -/
structure Panel where
  command : Nat
  args : List Nat
  xs : Nat
  xe : Nat
  ys : Nat
  ye : Nat
  mem : Array Nat

/-- Reaction of the panel to one SPI transfer: `0x2A` and `0x2B` latch the
column and row window from four data bytes, and a data burst after `0x2C`
overwrites the window row-major.  The visible pixel `(x, y)` sits at controller
address `(x + COL_OFFSET, y + ROW_OFFSET)`. -/
def panel_step (p : Panel) : Ev → Panel
  | Ev.cmd c => { p with command := c, args := [] }
  | Ev.data b =>
    let args := p.args ++ [b]
    if p.command = 0x2A ∧ args.length = 4 then
      { p with args := args, xs := args.getD 0 0 * 256 + args.getD 1 0,
               xe := args.getD 2 0 * 256 + args.getD 3 0 }
    else if p.command = 0x2B ∧ args.length = 4 then
      { p with args := args, ys := args.getD 0 0 * 256 + args.getD 1 0,
               ye := args.getD 2 0 * 256 + args.getD 3 0 }
    else { p with args := args }
  | Ev.data_len words _ =>
    if p.command = 0x2C then
      let window : Rect :=
        { min_x := p.xs - COL_OFFSET, max_x := p.xe - COL_OFFSET,
          min_y := p.ys - ROW_OFFSET, max_y := p.ye - ROW_OFFSET }
      { p with mem := insert_region p.mem window words }
    else p

/-- The panel after a sequence of transfers. -/
def panel_run (evs : List Ev) (p : Panel) : Panel := evs.foldl panel_step p

/-- The panel after `init_display` has cleared it: every visible pixel is 0. -/
def panel_init : Panel :=
  { command := 0, args := [], xs := 0, xe := 0, ys := 0, ye := 0,
    mem := Array.mkArray DISPLAY_SIZE 0 }

/-- The data bursts of a trace, in order: the pixel payloads that were sent. -/
def bursts (evs : List Ev) : List Ev :=
  evs.filter (fun e => match e with
    | Ev.data_len _ _ => true
    | _ => false)

/-- One transfer on a bus that may lose bursts: the state carries the number of
bursts seen so far, and burst number `k` reaches the panel only if
`delivered k`.  The program cannot observe `delivered`. -/
def panel_step_lossy (delivered : Nat → Bool) (s : Panel × Nat) (e : Ev) : Panel × Nat :=
  match e with
  | Ev.data_len _ _ =>
    if delivered s.2 then (panel_step s.1 e, s.2 + 1) else (s.1, s.2 + 1)
  | _ => (panel_step s.1 e, s.2)

/-- The panel after a sequence of transfers on a bus that may lose bursts. -/
def panel_run_lossy (delivered : Nat → Bool) (evs : List Ev) (p : Panel) : Panel :=
  (evs.foldl (panel_step_lossy delivered) (p, 0)).1

/-- A frame given by its pixel function. -/
def frame_of (f : Nat → Nat) : Array Nat :=
  Array.ofFn (fun (i : Fin DISPLAY_SIZE) => f i.val)

/-- An allocator that always succeeds and hands out zeroed blocks. -/
def malloc_ok : Nat → Option (Nat → Nat) := fun _ => some (fun _ => 0)

/-- An allocator that always fails. -/
def malloc_null : Nat → Option (Nat → Nat) := fun _ => none

/-- The words of the region buffer that lines 331-350 build for rectangle `r`:
a fresh block of `width * height` words, filled by the copy loop. -/
def region_payload (frame : Array Nat) (r : Rect) (garbage : Nat → Nat) : List Nat :=
  (List.range (r.width * r.height)).map
    (rd (copy_region frame r.min_x r.max_x r.min_y r.max_y
      (fresh_block (r.width * r.height * 2) garbage)))

/-! ## Sample frames -/

/-- The all-black frame. -/
def zero_frame : Array Nat := frame_of (fun _ => 0)

/-- Black except for pixel `(40, 3)`, linear index 1000. -/
def one_pixel_frame : Array Nat := frame_of (fun i => if i = 1000 then 7 else 0)

/-- Black except for columns 0-9 of rows 0 and 9: twenty pixels that reach all
four sides of the 10×10 block at the origin. -/
def rows_0_9_frame : Array Nat :=
  frame_of (fun i => if i % 320 < 10 ∧ (i / 320 = 0 ∨ i / 320 = 9) then 1 else 0)

/-- Black except for columns 0-9 of rows 0 and 1: twenty pixels inside the 10×10
block at the origin that leave its lower eight rows untouched. -/
def rows_0_1_frame : Array Nat :=
  frame_of (fun i => if i % 320 < 10 ∧ i / 320 < 2 then 1 else 0)

/-- Black except for the first 3000 pixels in row-major order. -/
def first_3000_frame : Array Nat := frame_of (fun i => if i < 3000 then 1 else 0)

/-- A mask with the single entry 1000, pixel `(40, 3)`, set. -/
def one_mark_mask : Array Nat := frame_of (fun i => if i = 1000 then 1 else 0)

/-- A capture that succeeds and delivers the frame with lit rows 0 and 9. -/
def sample_capture : Capture := { snapshot := 0, read_data := 0, pixels := rows_0_9_frame }

/-- A frame whose pixel at linear index `i` is `i % 7 + 1`, so that no pixel is 0. -/
def ramp_frame : Array Nat := frame_of (fun i => i % 7 + 1)

/-- What the scan has established after visiting the pixels of linear index
below `k`. -/
def ScanInv (mask : Array Nat) (k : Nat) (b : BBox) : Prop :=
  b.changed_areas = ((Finset.range k).filter (fun i => rd mask i ≠ 0)).card
  ∧ (∀ i, i < k → rd mask i ≠ 0 →
      b.min_x ≤ i % 320 ∧ i % 320 ≤ b.max_x ∧ b.min_y ≤ i / 320 ∧ i / 320 ≤ b.max_y)
  ∧ (b.changed_areas = 0 → b.min_x = 320 ∧ b.max_x = 0 ∧ b.min_y = 170 ∧ b.max_y = 0)
  ∧ (0 < b.changed_areas →
      (∃ i, i < k ∧ rd mask i ≠ 0 ∧ i % 320 = b.min_x)
      ∧ (∃ i, i < k ∧ rd mask i ≠ 0 ∧ i % 320 = b.max_x)
      ∧ (∃ i, i < k ∧ rd mask i ≠ 0 ∧ i / 320 = b.min_y)
      ∧ (∃ i, i < k ∧ rd mask i ≠ 0 ∧ i / 320 = b.max_y))

/-! ## Loops -/

theorem forLoop_zero_succ {σ : Type} (n : Nat) (body : Nat → σ → σ) (s : σ) :
    forLoop 0 (n + 1) body s = body n (forLoop 0 n body s) := by
  simp [forLoop, ← List.range_eq_range', List.range_succ, List.foldl_append]

theorem forLoop_zero_zero {σ : Type} (body : Nat → σ → σ) (s : σ) :
    forLoop 0 0 body s = s := by
  simp [forLoop]

theorem forLoop_shift {σ : Type} (lo hi : Nat) (body : Nat → σ → σ) (s : σ) :
    forLoop lo hi body s = forLoop 0 (hi - lo) (fun i => body (lo + i)) s := by
  simp only [forLoop, Nat.sub_zero]
  rw [List.range'_eq_map_range, List.foldl_map, ← List.range_eq_range']

theorem forLoop_add {σ : Type} (a b : Nat) (body : Nat → σ → σ) (s : σ) :
    forLoop 0 (a + b) body s = forLoop 0 b (fun i => body (a + i)) (forLoop 0 a body s) := by
  induction b with
  | zero => simp [forLoop_zero_zero]
  | succ b ih => rw [← Nat.add_assoc, forLoop_zero_succ, forLoop_zero_succ, ih]

/-- Invariant rule for a counting loop. -/
theorem forLoop_invariant {σ : Type} (P : Nat → σ → Prop) (n : Nat) (body : Nat → σ → σ)
    (s : σ) (h0 : P 0 s) (hstep : ∀ i t, i < n → P i t → P (i + 1) (body i t)) :
    P n (forLoop 0 n body s) := by
  induction n with
  | zero => simpa [forLoop_zero_zero] using h0
  | succ n ih =>
    rw [forLoop_zero_succ]
    exact hstep n _ (Nat.lt_succ_self n)
      (ih (fun i t hi hP => hstep i t (Nat.lt_succ_of_lt hi) hP))

theorem forLoop_congr {σ : Type} (n : Nat) (f g : Nat → σ → σ) (s : σ)
    (h : ∀ i t, i < n → f i t = g i t) : forLoop 0 n f s = forLoop 0 n g s := by
  induction n with
  | zero => simp [forLoop_zero_zero]
  | succ n ih =>
    rw [forLoop_zero_succ, forLoop_zero_succ, ih (fun i t hi => h i t (Nat.lt_succ_of_lt hi)),
      h n _ (Nat.lt_succ_self n)]

/-- Two nested counting loops visit the pairs `(k / w, k % w)` in the order of
`k`: they are one loop over `h * w` steps. -/
theorem forLoop_nested {σ : Type} (h w : Nat) (body : Nat → Nat → σ → σ) (s : σ) :
    forLoop 0 h (fun y t => forLoop 0 w (fun x u => body y x u) t) s
      = forLoop 0 (h * w) (fun k t => body (k / w) (k % w) t) s := by
  induction h with
  | zero => simp [forLoop_zero_zero]
  | succ h ih =>
    rw [forLoop_zero_succ, ih, Nat.succ_mul, forLoop_add]
    apply forLoop_congr
    intro i t hi'
    have hw : 0 < w := by omega
    have e1 : (h * w + i) / w = h := by
      rw [Nat.mul_comm, Nat.mul_add_div hw, Nat.div_eq_of_lt hi', Nat.add_zero]
    have e2 : (h * w + i) % w = i := by
      rw [Nat.mul_comm, Nat.mul_add_mod, Nat.mod_eq_of_lt hi']
    rw [e1, e2]

/-- Nested loops with arbitrary lower bounds, flattened. -/
theorem forLoop_nested_from {σ : Type} (y0 y1 x0 x1 : Nat) (body : Nat → Nat → σ → σ)
    (s : σ) :
    forLoop y0 y1 (fun y t => forLoop x0 x1 (fun x u => body y x u) t) s
      = forLoop 0 ((y1 - y0) * (x1 - x0))
          (fun k t => body (y0 + k / (x1 - x0)) (x0 + k % (x1 - x0)) t) s := by
  rw [forLoop_shift y0 y1]
  have : (fun i t => forLoop x0 x1 (fun x u => body (y0 + i) x u) t)
      = (fun i t => forLoop 0 (x1 - x0) (fun x u => body (y0 + i) (x0 + x) u) t) := by
    funext i t
    rw [forLoop_shift x0 x1]
  rw [this]
  exact forLoop_nested (y1 - y0) (x1 - x0) (fun y x u => body (y0 + y) (x0 + x) u) s

attribute [irreducible] forLoop

/-! ## Buffers -/

@[simp] theorem size_wr (a : Array Nat) (i v : Nat) : (wr a i v).size = a.size := by
  simp [wr]

theorem rd_of_lt (a : Array Nat) (i : Nat) (h : i < a.size) : rd a i = a[i] := by
  simp [rd, Array.getD, h]

theorem rd_of_ge (a : Array Nat) (i : Nat) (h : a.size ≤ i) : rd a i = 0 := by
  simp [rd, Array.getD, Nat.not_lt.mpr h]

theorem rd_wr (a : Array Nat) (i v j : Nat) :
    rd (wr a i v) j = if i = j ∧ i < a.size then v else rd a j := by
  by_cases hj : j < a.size
  · rw [rd_of_lt _ _ (by simpa using hj), rd_of_lt _ _ hj]
    by_cases hi : i < a.size
    · simp only [wr, Array.setD, hi, dite_true, Array.getElem_set]
      by_cases hij : i = j <;> simp [hij]
    · have : i ≠ j := by omega
      simp [wr, Array.setD, hi, this]
  · have hj' : a.size ≤ j := Nat.le_of_not_lt hj
    rw [rd_of_ge _ _ (by simpa using hj'), rd_of_ge _ _ hj']
    by_cases hij : i = j
    · subst hij; simp [hj]
    · simp [hij]

theorem rd_wr_same (a : Array Nat) (i v : Nat) (h : i < a.size) : rd (wr a i v) i = v := by
  simp [rd_wr, h]

theorem rd_wr_other (a : Array Nat) (i v j : Nat) (h : i ≠ j) : rd (wr a i v) j = rd a j := by
  simp [rd_wr, h]

/-- Two buffers of the same size with the same words are equal. -/
theorem buf_ext (a b : Array Nat) (hs : a.size = b.size)
    (h : ∀ i, i < a.size → rd a i = rd b i) : a = b := by
  apply Array.ext _ _ hs
  intro i h1 h2
  have := h i h1
  rwa [rd_of_lt _ _ h1, rd_of_lt _ _ h2] at this

@[simp] theorem size_frame_of (f : Nat → Nat) : (frame_of f).size = DISPLAY_SIZE := by
  simp [frame_of]

theorem rd_frame_of (f : Nat → Nat) (i : Nat) :
    rd (frame_of f) i = if i < DISPLAY_SIZE then f i else 0 := by
  by_cases h : i < DISPLAY_SIZE
  · rw [rd_of_lt _ _ (by simpa using h)]
    simp [frame_of, h]
  · rw [rd_of_ge _ _ (by simpa using Nat.le_of_not_lt h)]
    simp [h]

@[simp] theorem size_fresh_block (bytes : Nat) (g : Nat → Nat) :
    (fresh_block bytes g).size = bytes / 2 := by
  simp [fresh_block]

/-! ## Binary32 rounding -/

theorem roundHalfEven_intCast (n : ℤ) : roundHalfEven (n : ℚ) = n := by
  simp [roundHalfEven]

theorem roundHalfEven_ge_floor (q : ℚ) : ⌊q⌋ ≤ roundHalfEven q := by
  unfold roundHalfEven
  simp only
  split_ifs <;> omega

theorem roundHalfEven_le_floor_succ (q : ℚ) : roundHalfEven q ≤ ⌊q⌋ + 1 := by
  unfold roundHalfEven
  simp only
  split_ifs <;> omega

theorem roundHalfEven_mono {x y : ℚ} (h : x ≤ y) : roundHalfEven x ≤ roundHalfEven y := by
  have hf : ⌊x⌋ ≤ ⌊y⌋ := Int.floor_mono h
  rcases lt_or_eq_of_le hf with hlt | heq
  · calc roundHalfEven x ≤ ⌊x⌋ + 1 := roundHalfEven_le_floor_succ x
      _ ≤ ⌊y⌋ := hlt
      _ ≤ roundHalfEven y := roundHalfEven_ge_floor y
  · unfold roundHalfEven
    simp only
    rw [heq]
    split_ifs <;> first | omega | (exfalso; linarith)

theorem f32_of_pos {q : ℚ} (hq : 0 < q) :
    f32 q = (roundHalfEven (q * 2 ^ (23 - Int.log 2 q)) : ℚ) * 2 ^ (Int.log 2 q - 23) := by
  unfold f32
  rw [if_neg hq.ne', if_neg (not_lt.mpr hq.le), abs_of_pos hq]
  simp

theorem two_zpow_pos (k : ℤ) : (0 : ℚ) < 2 ^ k := zpow_pos (by norm_num) k

theorem scaled_bounds {q : ℚ} (hq : 0 < q) :
    (2 : ℚ) ^ (23 : ℤ) ≤ q * 2 ^ (23 - Int.log 2 q) ∧ q * 2 ^ (23 - Int.log 2 q) < 2 ^ (24 : ℤ) := by
  have h1 : ((2 : ℕ) : ℚ) ^ Int.log 2 q ≤ q := Int.zpow_log_le_self (by norm_num) hq
  have h2 : q < ((2 : ℕ) : ℚ) ^ (Int.log 2 q + 1) := Int.lt_zpow_succ_log_self (by norm_num) q
  have hp := two_zpow_pos (23 - Int.log 2 q)
  push_cast at h1 h2
  constructor
  · have : (2 : ℚ) ^ (23 : ℤ) = 2 ^ Int.log 2 q * 2 ^ (23 - Int.log 2 q) := by
      rw [← zpow_add₀ (by norm_num : (2 : ℚ) ≠ 0)]; congr 1; ring
    rw [this]
    exact mul_le_mul_of_nonneg_right h1 hp.le
  · have : (2 : ℚ) ^ (24 : ℤ) = 2 ^ (Int.log 2 q + 1) * 2 ^ (23 - Int.log 2 q) := by
      rw [← zpow_add₀ (by norm_num : (2 : ℚ) ≠ 0)]; congr 1; ring
    rw [this]
    exact mul_lt_mul_of_pos_right h2 hp

theorem f32_bounds {q : ℚ} (hq : 0 < q) :
    (2 : ℚ) ^ Int.log 2 q ≤ f32 q ∧ f32 q ≤ 2 ^ (Int.log 2 q + 1) := by
  obtain ⟨h1, h2⟩ := scaled_bounds hq
  rw [f32_of_pos hq]
  have hp := two_zpow_pos (Int.log 2 q - 23)
  have e1 : ((2 : ℚ) ^ (23 : ℤ)) = (((2 ^ 23 : ℤ)) : ℚ) := by norm_num
  have e2 : ((2 : ℚ) ^ (24 : ℤ)) = (((2 ^ 24 : ℤ)) : ℚ) := by norm_num
  have r1 : (2 ^ 23 : ℤ) ≤ roundHalfEven (q * 2 ^ (23 - Int.log 2 q)) := by
    have := roundHalfEven_mono (e1 ▸ h1)
    rwa [roundHalfEven_intCast] at this
  have r2 : roundHalfEven (q * 2 ^ (23 - Int.log 2 q)) ≤ (2 ^ 24 : ℤ) := by
    have := roundHalfEven_mono (e2 ▸ h2.le)
    rwa [roundHalfEven_intCast] at this
  have r1q : ((2 : ℚ) ^ (23 : ℤ)) ≤ (roundHalfEven (q * 2 ^ (23 - Int.log 2 q)) : ℚ) := by
    rw [e1]; exact_mod_cast r1
  have r2q : (roundHalfEven (q * 2 ^ (23 - Int.log 2 q)) : ℚ) ≤ ((2 : ℚ) ^ (24 : ℤ)) := by
    rw [e2]; exact_mod_cast r2
  constructor
  · have : (2 : ℚ) ^ Int.log 2 q = 2 ^ (23 : ℤ) * 2 ^ (Int.log 2 q - 23) := by
      rw [← zpow_add₀ (by norm_num : (2 : ℚ) ≠ 0)]; congr 1; ring
    rw [this]
    exact mul_le_mul_of_nonneg_right r1q hp.le
  · have : (2 : ℚ) ^ (Int.log 2 q + 1) = 2 ^ (24 : ℤ) * 2 ^ (Int.log 2 q - 23) := by
      rw [← zpow_add₀ (by norm_num : (2 : ℚ) ≠ 0)]; congr 1; ring
    rw [this]
    exact mul_le_mul_of_nonneg_right r2q hp.le

theorem f32_mono_pos {x y : ℚ} (hx : 0 < x) (h : x ≤ y) : f32 x ≤ f32 y := by
  have hy : 0 < y := lt_of_lt_of_le hx h
  have hl : Int.log 2 x ≤ Int.log 2 y := Int.log_mono_right hx h
  rcases lt_or_eq_of_le hl with hlt | heq
  · calc f32 x ≤ 2 ^ (Int.log 2 x + 1) := (f32_bounds hx).2
      _ ≤ 2 ^ Int.log 2 y := zpow_le_zpow_right₀ (by norm_num) hlt
      _ ≤ f32 y := (f32_bounds hy).1
  · rw [f32_of_pos hx, f32_of_pos hy, heq]
    apply mul_le_mul_of_nonneg_right _ (two_zpow_pos _).le
    have : x * 2 ^ (23 - Int.log 2 y) ≤ y * 2 ^ (23 - Int.log 2 y) :=
      mul_le_mul_of_nonneg_right h (two_zpow_pos _).le
    exact_mod_cast roundHalfEven_mono this

theorem f32_exact {q : ℚ} (hq : 0 < q) (n : ℤ) (h : q * 2 ^ (23 - Int.log 2 q) = n) :
    f32 q = q := by
  rw [f32_of_pos hq, h, roundHalfEven_intCast, ← h, mul_assoc,
    ← zpow_add₀ (by norm_num : (2 : ℚ) ≠ 0)]
  simp

theorem f32_natCast (n : ℕ) (h : n < 2 ^ 24) : f32 (n : ℚ) = n := by
  rcases Nat.eq_zero_or_pos n with h0 | hpos
  · subst h0; simp [f32]
  · have hq : (0 : ℚ) < n := by exact_mod_cast hpos
    have hlog : Int.log 2 (n : ℚ) < 24 := by
      rw [← Int.lt_zpow_iff_log_lt (by norm_num) hq]
      have : ((n : ℕ) : ℚ) < ((2 ^ 24 : ℕ) : ℚ) := by exact_mod_cast h
      norm_num at this ⊢
      exact this
    obtain ⟨k, hk⟩ : ∃ k : ℕ, 23 - Int.log 2 (n : ℚ) = k :=
      ⟨(23 - Int.log 2 (n : ℚ)).toNat, by omega⟩
    apply f32_exact hq ((n : ℤ) * 2 ^ k)
    rw [hk]
    push_cast
    rw [zpow_natCast]

theorem log_eq_two {q : ℚ} (h1 : 4 ≤ q) (h2 : q < 8) : Int.log 2 q = 2 := by
  have hq : 0 < q := by linarith
  have a : (2 : ℤ) ≤ Int.log 2 q := by
    rw [← Int.zpow_le_iff_le_log (by norm_num) hq]
    norm_num; exact h1
  have b : Int.log 2 q < 3 := by
    rw [← Int.lt_zpow_iff_log_lt (by norm_num) hq]
    norm_num; exact h2
  omega

theorem f32_five_eps : f32 (5121 / 1024) = 5121 / 1024 := by
  have hl : Int.log 2 (5121 / 1024 : ℚ) = 2 := log_eq_two (by norm_num) (by norm_num)
  apply f32_exact (by norm_num) (5121 * 2048)
  rw [hl]
  norm_num

theorem change_percent_gt_iff (c : ℕ) (hc : c ≤ DISPLAY_SIZE) :
    change_percent c > f32_of_int CHANGE_THRESHOLD ↔ 2720 < c := by
  have hD : DISPLAY_SIZE = 54400 := rfl
  have h5 : f32_of_int CHANGE_THRESHOLD = 5 := by
    have := f32_natCast 5 (by norm_num)
    simpa [f32_of_int, CHANGE_THRESHOLD] using this
  have hcq : f32_of_int (c : ℤ) = c := by
    have := f32_natCast c (by omega)
    simpa [f32_of_int] using this
  have hmul : f32_mul (c : ℚ) 100 = ((c * 100 : ℕ) : ℚ) := by
    have := f32_natCast (c * 100) (by omega)
    simpa [f32_mul] using this
  have hden : f32_of_int (DISPLAY_SIZE : ℤ) = 54400 := by
    have := f32_natCast 54400 (by norm_num)
    simpa [f32_of_int, hD] using this
  unfold change_percent
  rw [h5, hcq, hmul, hden, f32_div]
  constructor
  · intro h
    by_contra hle
    have hle : c ≤ 2720 := by omega
    rcases Nat.eq_zero_or_pos c with h0 | hpos
    · subst h0; simp [f32] at h; linarith
    · have hpos' : (0 : ℚ) < ((c * 100 : ℕ) : ℚ) / 54400 := by
        apply div_pos _ (by norm_num)
        exact_mod_cast (by omega : 0 < c * 100)
      have hq : ((c * 100 : ℕ) : ℚ) / 54400 ≤ 5 := by
        rw [div_le_iff₀ (by norm_num)]
        exact_mod_cast (by omega : c * 100 ≤ 5 * 54400)
      have := f32_mono_pos hpos' hq
      have h5' : f32 (5 : ℚ) = 5 := by
        have := f32_natCast 5 (by norm_num)
        simpa using this
      rw [h5'] at this
      linarith
  · intro h
    have hq : (5121 / 1024 : ℚ) ≤ ((c * 100 : ℕ) : ℚ) / 54400 := by
      rw [le_div_iff₀ (by norm_num)]
      have : (2721 : ℚ) ≤ c := by exact_mod_cast h
      push_cast
      linarith
    have := f32_mono_pos (by norm_num) hq
    rw [f32_five_eps] at this
    have : (5 : ℚ) < 5121 / 1024 := by norm_num
    linarith

/-! ## The diff loop -/

theorem display_size_eq : DISPLAY_SIZE = 54400 := rfl

theorem filter_range_succ (p : Nat → Prop) [DecidablePred p] (n : Nat) :
    ((Finset.range (n + 1)).filter p).card
      = ((Finset.range n).filter p).card + (if p n then 1 else 0) := by
  rw [Finset.range_succ, Finset.filter_insert]
  by_cases h : p n
  · simp [h]
  · simp [h]

theorem detect_loop_spec (prev cur mask : Array Nat) (hm : mask.size = DISPLAY_SIZE) :
    (detect_loop prev cur mask).1.size = DISPLAY_SIZE
    ∧ (∀ i, i < DISPLAY_SIZE →
        rd (detect_loop prev cur mask).1 i = if rd cur i ≠ rd prev i then 1 else 0)
    ∧ (detect_loop prev cur mask).2 = changed_pixel_count prev cur := by
  have key := forLoop_invariant
    (fun n (s : Array Nat × Nat) =>
      s.1.size = DISPLAY_SIZE
      ∧ (∀ i, i < n → rd s.1 i = if rd cur i ≠ rd prev i then 1 else 0)
      ∧ s.2 = ((Finset.range n).filter (fun i => rd cur i ≠ rd prev i)).card)
    DISPLAY_SIZE
    (fun i s =>
      if rd cur i ≠ rd prev i then (wr s.1 i 1, s.2 + 1) else (wr s.1 i 0, s.2))
    (mask, 0) (by simp [hm]) (by
      intro n t hn ⟨h1, h2, h3⟩
      have hstep := filter_range_succ (fun i => rd cur i ≠ rd prev i) n
      by_cases hd : rd cur n ≠ rd prev n
      · rw [if_pos hd] at hstep
        dsimp only
        rw [if_pos hd]
        refine ⟨by simpa using h1, ?_, by simp only; omega⟩
        intro i hi
        simp only [rd_wr]
        by_cases hin : n = i
        · subst hin; simp [h1, hn, hd]
        · rw [if_neg (by simp [hin])]
          exact h2 i (by omega)
      · rw [if_neg hd] at hstep
        dsimp only
        rw [if_neg hd]
        refine ⟨by simpa using h1, ?_, by simp only; omega⟩
        intro i hi
        simp only [rd_wr]
        by_cases hin : n = i
        · subst hin; simp [h1, hn, hd]
        · rw [if_neg (by simp [hin])]
          exact h2 i (by omega))
  exact key

theorem changed_pixel_count_le (prev cur : Array Nat) :
    changed_pixel_count prev cur ≤ DISPLAY_SIZE := by
  have h := Finset.card_filter_le (Finset.range DISPLAY_SIZE)
    (fun i => rd cur i ≠ rd prev i)
  rw [Finset.card_range] at h
  exact h

theorem detect_eq (prev cur mask : Array Nat) :
    detect_changed_regions prev cur mask
      = if change_percent (detect_loop prev cur mask).2 > f32_of_int CHANGE_THRESHOLD then
          ((detect_loop prev cur mask).1, 1)
        else ((detect_loop prev cur mask).1, 0) := by
  rw [detect_changed_regions]

theorem fst_ite {α β : Type} (c : Prop) [Decidable c] (a : α) (x y : β) :
    (if c then (a, x) else (a, y)).1 = a := by
  split_ifs <;> rfl

theorem snd_ite {α β : Type} (c : Prop) [Decidable c] (a : α) (x y : β) :
    (if c then (a, x) else (a, y)).2 = if c then x else y := by
  split_ifs <;> rfl

theorem detect_mask (prev cur mask : Array Nat) :
    (detect_changed_regions prev cur mask).1 = (detect_loop prev cur mask).1 := by
  rw [detect_eq, fst_ite]

theorem detect_result (prev cur mask : Array Nat) (hm : mask.size = DISPLAY_SIZE) :
    (detect_changed_regions prev cur mask).2
      = if 2720 < changed_pixel_count prev cur then 1 else 0 := by
  have hc := (detect_loop_spec prev cur mask hm).2.2
  have hiff := change_percent_gt_iff (changed_pixel_count prev cur)
    (changed_pixel_count_le prev cur)
  rw [detect_eq, snd_ite, hc]
  by_cases h : 2720 < changed_pixel_count prev cur
  · rw [if_pos (hiff.mpr h), if_pos h]
  · rw [if_neg (fun h' => h (hiff.mp h')), if_neg h]

theorem changed_pixel_count_eq_zero (prev cur : Array Nat) :
    changed_pixel_count prev cur = 0 ↔ ∀ i, i < DISPLAY_SIZE → rd cur i = rd prev i := by
  unfold changed_pixel_count
  rw [Finset.card_eq_zero, Finset.filter_eq_empty_iff]
  simp

theorem changed_pixel_count_pos (prev cur : Array Nat) :
    0 < changed_pixel_count prev cur ↔ ∃ i, i < DISPLAY_SIZE ∧ rd cur i ≠ rd prev i := by
  rw [Nat.pos_iff_ne_zero, Ne, changed_pixel_count_eq_zero]
  push_neg
  rfl

/-! ## The bounding-box scan -/

theorem bbox_step_eq (mask : Array Nat) (y x : Nat) (b : BBox) :
    bbox_step mask y x b
      = if rd mask (y * WIDTH + x) ≠ 0 then
          { min_x := min x b.min_x, max_x := max x b.max_x, min_y := min y b.min_y,
            max_y := max y b.max_y, changed_areas := b.changed_areas + 1 }
        else b := by
  unfold bbox_step
  by_cases h : rd mask (y * WIDTH + x) ≠ 0
  · simp only [h, if_true]
    rcases b with ⟨a1, a2, a3, a4, a5⟩
    dsimp only
    split_ifs <;> dsimp only at * <;> simp only [BBox.mk.injEq] <;>
      refine ⟨?_, ?_, ?_, ?_, trivial⟩ <;> omega
  · simp only [h, if_false]

theorem find_bounding_box_flat (mask : Array Nat) :
    find_bounding_box mask
      = forLoop 0 (HEIGHT * WIDTH) (fun k b => bbox_step mask (k / WIDTH) (k % WIDTH) b)
          { min_x := WIDTH, max_x := 0, min_y := HEIGHT, max_y := 0, changed_areas := 0 } := by
  rw [find_bounding_box, forLoop_nested]

theorem scanInv_step (mask : Array Nat) (k : Nat) (b : BBox) (hk : k < 54400)
    (h : ScanInv mask k b) :
    ScanInv mask (k + 1) (bbox_step mask (k / 320) (k % 320) b) := by
  obtain ⟨h1, h2, h3, h4⟩ := h
  have hidx : k / 320 * WIDTH + k % 320 = k := by
    show k / 320 * 320 + k % 320 = k
    omega
  have hcount := filter_range_succ (fun i => rd mask i ≠ 0) k
  rw [bbox_step_eq, hidx]
  by_cases hm : rd mask k ≠ 0
  · rw [if_pos hm] at hcount ⊢
    refine ⟨?_, ?_, ?_, ?_⟩
    · show b.changed_areas + 1 = _
      omega
    · intro i hi hmi
      show min (k % 320) b.min_x ≤ i % 320 ∧ i % 320 ≤ max (k % 320) b.max_x
        ∧ min (k / 320) b.min_y ≤ i / 320 ∧ i / 320 ≤ max (k / 320) b.max_y
      rcases Nat.lt_succ_iff_lt_or_eq.mp hi with hlt | heq
      · have := h2 i hlt hmi
        omega
      · subst heq
        omega
    · intro h0
      exact absurd h0 (Nat.succ_ne_zero _)
    · intro _
      show (∃ i, i < k + 1 ∧ rd mask i ≠ 0 ∧ i % 320 = min (k % 320) b.min_x)
        ∧ (∃ i, i < k + 1 ∧ rd mask i ≠ 0 ∧ i % 320 = max (k % 320) b.max_x)
        ∧ (∃ i, i < k + 1 ∧ rd mask i ≠ 0 ∧ i / 320 = min (k / 320) b.min_y)
        ∧ (∃ i, i < k + 1 ∧ rd mask i ≠ 0 ∧ i / 320 = max (k / 320) b.max_y)
      rcases Nat.eq_zero_or_pos b.changed_areas with hz | hp
      · obtain ⟨e1, e2, e3, e4⟩ := h3 hz
        refine ⟨⟨k, by omega, hm, by omega⟩, ⟨k, by omega, hm, by omega⟩,
          ⟨k, by omega, hm, by omega⟩, ⟨k, by omega, hm, by omega⟩⟩
      · obtain ⟨⟨i1, l1, m1, e1⟩, ⟨i2, l2, m2, e2⟩, ⟨i3, l3, m3, e3⟩, ⟨i4, l4, m4, e4⟩⟩ := h4 hp
        refine ⟨?_, ?_, ?_, ?_⟩
        · rcases Nat.le_total (k % 320) b.min_x with hle | hle
          · exact ⟨k, by omega, hm, by omega⟩
          · exact ⟨i1, by omega, m1, by omega⟩
        · rcases Nat.le_total (k % 320) b.max_x with hle | hle
          · exact ⟨i2, by omega, m2, by omega⟩
          · exact ⟨k, by omega, hm, by omega⟩
        · rcases Nat.le_total (k / 320) b.min_y with hle | hle
          · exact ⟨k, by omega, hm, by omega⟩
          · exact ⟨i3, by omega, m3, by omega⟩
        · rcases Nat.le_total (k / 320) b.max_y with hle | hle
          · exact ⟨i4, by omega, m4, by omega⟩
          · exact ⟨k, by omega, hm, by omega⟩
  · rw [if_neg hm] at hcount ⊢
    refine ⟨by omega, ?_, h3, ?_⟩
    · intro i hi hmi
      rcases Nat.lt_succ_iff_lt_or_eq.mp hi with hlt | heq
      · exact h2 i hlt hmi
      · subst heq
        exact absurd hmi hm
    · intro hp
      obtain ⟨⟨i1, l1, m1, e1⟩, ⟨i2, l2, m2, e2⟩, ⟨i3, l3, m3, e3⟩, ⟨i4, l4, m4, e4⟩⟩ := h4 hp
      exact ⟨⟨i1, by omega, m1, e1⟩, ⟨i2, by omega, m2, e2⟩, ⟨i3, by omega, m3, e3⟩,
        ⟨i4, by omega, m4, e4⟩⟩

theorem find_bounding_box_inv (mask : Array Nat) :
    ScanInv mask 54400 (find_bounding_box mask) := by
  rw [find_bounding_box_flat]
  exact forLoop_invariant (ScanInv mask) 54400
    (fun k b => bbox_step mask (k / 320) (k % 320) b)
    { min_x := 320, max_x := 0, min_y := 170, max_y := 0, changed_areas := 0 }
    ⟨by simp, by intro i hi; omega, by intro _; exact ⟨rfl, rfl, rfl, rfl⟩,
      by intro h; exact absurd h (Nat.lt_irrefl 0)⟩
    (fun k b hk h => scanInv_step mask k b hk h)

/-! ## Loops that fill a buffer -/

/-- A loop whose `k`-th pass stores `val k` at `idx k`, for pairwise distinct
in-range indices: the size is kept, each `idx k` ends up holding `val k`, and
the other words are untouched. -/
theorem forLoop_wr (n : Nat) (idx val : Nat → Nat) (buf : Array Nat)
    (hinj : ∀ i j, i < n → j < n → idx i = idx j → i = j)
    (hlt : ∀ i, i < n → idx i < buf.size) :
    (forLoop 0 n (fun k b => wr b (idx k) (val k)) buf).size = buf.size
    ∧ (∀ k, k < n → rd (forLoop 0 n (fun k b => wr b (idx k) (val k)) buf) (idx k) = val k)
    ∧ (∀ j, (∀ k, k < n → idx k ≠ j) →
        rd (forLoop 0 n (fun k b => wr b (idx k) (val k)) buf) j = rd buf j) := by
  have key := forLoop_invariant
    (fun m (b : Array Nat) =>
      b.size = buf.size
      ∧ (∀ k, k < m → rd b (idx k) = val k)
      ∧ (∀ j, (∀ k, k < m → idx k ≠ j) → rd b j = rd buf j))
    n (fun k b => wr b (idx k) (val k)) buf
    ⟨rfl, by intro k hk; omega, by intro j _; rfl⟩
    (by
      intro m b hm ⟨h1, h2, h3⟩
      refine ⟨by simpa using h1, ?_, ?_⟩
      · intro k hk
        dsimp only
        rw [rd_wr]
        by_cases hkm : idx m = idx k
        · rw [if_pos ⟨hkm, by rw [h1]; exact hlt m hm⟩]
          have : m = k := hinj m k hm (by omega) hkm
          rw [this]
        · rw [if_neg (fun h => hkm h.1)]
          have hne : k ≠ m := fun h => hkm (by rw [h])
          exact h2 k (by omega)
      · intro j hj
        dsimp only
        rw [rd_wr, if_neg (fun h => hj m (Nat.lt_succ_self m) h.1)]
        exact h3 j (fun k hk => hj k (Nat.lt_succ_of_lt hk)))
  exact key

theorem div_mod_of_lt (a b w : Nat) (hb : b < w) :
    (a * w + b) / w = a ∧ (a * w + b) % w = b := by
  have hw : 0 < w := by omega
  constructor
  · rw [Nat.add_comm, Nat.add_mul_div_right _ _ hw, Nat.div_eq_of_lt hb, Nat.zero_add]
  · rw [Nat.add_comm, Nat.add_mul_mod_self_right, Nat.mod_eq_of_lt hb]

/-- The copy loop, flattened: pass `k` stores pixel
`(min_x + k % w, min_y + k / w)` at word `k`. -/
theorem copy_region_flat (cur : Array Nat) (x0 x1 y0 y1 : Nat) (buf : Array Nat)
    (hx : x0 ≤ x1) :
    copy_region cur x0 x1 y0 y1 buf
      = forLoop 0 ((y1 + 1 - y0) * (x1 - x0 + 1))
          (fun k b => wr b k
            (rd cur ((y0 + k / (x1 - x0 + 1)) * WIDTH + (x0 + k % (x1 - x0 + 1))))) buf := by
  have hw : x1 + 1 - x0 = x1 - x0 + 1 := by omega
  rw [copy_region]
  dsimp only
  rw [forLoop_nested_from, hw]
  apply forLoop_congr
  intro k b _
  have e : (y0 + k / (x1 - x0 + 1) - y0) * (x1 - x0 + 1) + (x0 + k % (x1 - x0 + 1) - x0) = k := by
    rw [Nat.add_sub_cancel_left, Nat.add_sub_cancel_left]
    exact Nat.div_add_mod' k (x1 - x0 + 1)
  rw [e]

theorem copy_region_spec (cur : Array Nat) (x0 x1 y0 y1 : Nat) (buf : Array Nat)
    (hx : x0 ≤ x1) (hy : y0 ≤ y1) (hs : buf.size = (x1 - x0 + 1) * (y1 - y0 + 1)) :
    (copy_region cur x0 x1 y0 y1 buf).size = (x1 - x0 + 1) * (y1 - y0 + 1)
    ∧ ∀ k, k < (x1 - x0 + 1) * (y1 - y0 + 1) →
        rd (copy_region cur x0 x1 y0 y1 buf) k
          = rd cur ((y0 + k / (x1 - x0 + 1)) * WIDTH + (x0 + k % (x1 - x0 + 1))) := by
  have hh : y1 + 1 - y0 = y1 - y0 + 1 := by omega
  have hn : (y1 + 1 - y0) * (x1 - x0 + 1) = (x1 - x0 + 1) * (y1 - y0 + 1) := by
    rw [hh, Nat.mul_comm]
  rw [copy_region_flat cur x0 x1 y0 y1 buf hx, hn]
  have key := forLoop_wr ((x1 - x0 + 1) * (y1 - y0 + 1)) (fun k => k)
    (fun k => rd cur ((y0 + k / (x1 - x0 + 1)) * WIDTH + (x0 + k % (x1 - x0 + 1)))) buf
    (fun i j _ _ h => h) (fun i hi => by rw [hs]; exact hi)
  exact ⟨key.1.trans hs, key.2.1⟩

theorem memcpy_spec (dst src : Array Nat) (n : Nat) (hd : dst.size = n) (hsrc : src.size = n) :
    memcpy dst src (n * 2) = src := by
  have hn : n * 2 / 2 = n := by omega
  rw [memcpy, hn]
  have key := forLoop_wr n (fun k => k) (fun k => rd src k) dst
    (fun i j _ _ h => h) (fun i hi => by rw [hd]; exact hi)
  apply buf_ext _ _ (by rw [key.1, hd, hsrc])
  intro i hi
  rw [key.1, hd] at hi
  exact key.2.1 i hi

/-! ## The panel -/

theorem set_window_eq (x0 y0 x1 y1 : Nat) :
    set_window x0 y0 x1 y1 =
      [Ev.cmd 0x2A,
       Ev.data ((((x0 % 65536 + COL_OFFSET) % 65536) >>> 8) % 256),
       Ev.data ((((x0 % 65536 + COL_OFFSET) % 65536) &&& 0xFF) % 256),
       Ev.data ((((x1 % 65536 + COL_OFFSET) % 65536) >>> 8) % 256),
       Ev.data ((((x1 % 65536 + COL_OFFSET) % 65536) &&& 0xFF) % 256),
       Ev.cmd 0x2B,
       Ev.data ((((y0 % 65536 + ROW_OFFSET) % 65536) >>> 8) % 256),
       Ev.data ((((y0 % 65536 + ROW_OFFSET) % 65536) &&& 0xFF) % 256),
       Ev.data ((((y1 % 65536 + ROW_OFFSET) % 65536) >>> 8) % 256),
       Ev.data ((((y1 % 65536 + ROW_OFFSET) % 65536) &&& 0xFF) % 256),
       Ev.cmd 0x2C] := by
  rfl

theorem panel_latch_columns (p : Panel) (a b c d : Nat) (rest : List Ev) :
    panel_run (Ev.cmd 0x2A :: Ev.data a :: Ev.data b :: Ev.data c :: Ev.data d :: rest) p
      = panel_run rest { p with command := 0x2A, args := [a, b, c, d],
                                xs := a * 256 + b, xe := c * 256 + d } := by
  simp [panel_run, panel_step]

theorem panel_latch_rows (p : Panel) (a b c d : Nat) (rest : List Ev) :
    panel_run (Ev.cmd 0x2B :: Ev.data a :: Ev.data b :: Ev.data c :: Ev.data d :: rest) p
      = panel_run rest { p with command := 0x2B, args := [a, b, c, d],
                                ys := a * 256 + b, ye := c * 256 + d } := by
  simp [panel_run, panel_step]


theorem byte_split (v : Nat) (h : v < 65536) :
    (v >>> 8) % 256 * 256 + (v &&& 0xFF) % 256 = v := by
  have e1 : v >>> 8 = v / 256 := by rw [Nat.shiftRight_eq_div_pow]
  have e2 : v &&& 0xFF = v % 256 := Nat.and_pow_two_sub_one_eq_mod v 8
  rw [e1, e2]
  omega

theorem panel_run_append (a b : List Ev) (p : Panel) :
    panel_run (a ++ b) p = panel_run b (panel_run a p) := by
  simp [panel_run, List.foldl_append]

theorem panel_run_set_window (p : Panel) (x0 y0 x1 y1 : Nat)
    (hx0 : x0 < 65536) (hx1 : x1 < 65536) (hy0 : y0 < 65500) (hy1 : y1 < 65500) :
    panel_run (set_window x0 y0 x1 y1) p
      = { command := 0x2C, args := [], xs := x0 + COL_OFFSET, xe := x1 + COL_OFFSET,
          ys := y0 + ROW_OFFSET, ye := y1 + ROW_OFFSET, mem := p.mem } := by
  have a0 : (x0 % 65536 + COL_OFFSET) % 65536 = x0 + COL_OFFSET := by
    show (x0 % 65536 + 0) % 65536 = x0 + 0
    omega
  have a1 : (x1 % 65536 + COL_OFFSET) % 65536 = x1 + COL_OFFSET := by
    show (x1 % 65536 + 0) % 65536 = x1 + 0
    omega
  have b0 : (y0 % 65536 + ROW_OFFSET) % 65536 = y0 + ROW_OFFSET := by
    show (y0 % 65536 + 35) % 65536 = y0 + 35
    omega
  have b1 : (y1 % 65536 + ROW_OFFSET) % 65536 = y1 + ROW_OFFSET := by
    show (y1 % 65536 + 35) % 65536 = y1 + 35
    omega
  have c0 := byte_split (x0 + COL_OFFSET) (by show x0 + 0 < 65536; omega)
  have c1 := byte_split (x1 + COL_OFFSET) (by show x1 + 0 < 65536; omega)
  have d0 := byte_split (y0 + ROW_OFFSET) (by show y0 + 35 < 65536; omega)
  have d1 := byte_split (y1 + ROW_OFFSET) (by show y1 + 35 < 65536; omega)
  rw [set_window_eq, a0, a1, b0, b1, panel_latch_columns, panel_latch_rows, c0, c1, d0, d1]
  rfl

theorem panel_run_burst (p : Panel) (words : List Nat) (len : Nat) (h : p.command = 0x2C) :
    (panel_run [Ev.data_len words len] p).mem
      = insert_region p.mem
          { min_x := p.xs - COL_OFFSET, max_x := p.xe - COL_OFFSET,
            min_y := p.ys - ROW_OFFSET, max_y := p.ye - ROW_OFFSET } words := by
  simp [panel_run, panel_step, h]

/-- What a window command followed by one burst does to the panel memory. -/
theorem panel_run_window_burst (p : Panel) (r : Rect) (words : List Nat) (len : Nat)
    (hx : r.max_x < WIDTH) (hy : r.max_y < HEIGHT) (hx0 : r.min_x ≤ r.max_x)
    (hy0 : r.min_y ≤ r.max_y) :
    (panel_run (set_window r.min_x r.min_y r.max_x r.max_y ++ [Ev.data_len words len]) p).mem
      = insert_region p.mem r words := by
  have hW : WIDTH = 320 := rfl
  have hH : HEIGHT = 170 := rfl
  rw [panel_run_append, panel_run_set_window p _ _ _ _ (by omega) (by omega) (by omega) (by omega),
    panel_run_burst _ _ _ rfl]
  simp

/-! ## Re-insertion of a region -/

theorem insert_region_flat (frame : Array Nat) (r : Rect) (words : List Nat)
    (hx : r.min_x ≤ r.max_x) :
    insert_region frame r words
      = forLoop 0 ((r.max_y + 1 - r.min_y) * r.width)
          (fun k f => wr f ((r.min_y + k / r.width) * WIDTH + (r.min_x + k % r.width))
            (words.getD k 0)) frame := by
  have hw : r.max_x + 1 - r.min_x = r.width := by
    unfold Rect.width
    omega
  rw [insert_region, forLoop_nested_from, hw]
  apply forLoop_congr
  intro k b _
  have e : (r.min_y + k / r.width - r.min_y) * r.width + (r.min_x + k % r.width - r.min_x)
      = k := by
    rw [Nat.add_sub_cancel_left, Nat.add_sub_cancel_left]
    exact Nat.div_add_mod' k r.width
  rw [e]

theorem insert_region_spec (frame : Array Nat) (r : Rect) (words : List Nat)
    (hr : r.valid) (hs : frame.size = DISPLAY_SIZE) :
    (insert_region frame r words).size = DISPLAY_SIZE
    ∧ ∀ y x, y < HEIGHT → x < WIDTH →
        rd (insert_region frame r words) (y * WIDTH + x)
          = if r.min_x ≤ x ∧ x ≤ r.max_x ∧ r.min_y ≤ y ∧ y ≤ r.max_y then
              words.getD ((y - r.min_y) * r.width + (x - r.min_x)) 0
            else rd frame (y * WIDTH + x) := by
  obtain ⟨hx, hxW, hy, hyH⟩ := hr
  have hW : WIDTH = 320 := rfl
  have hH : HEIGHT = 170 := rfl
  have hD : DISPLAY_SIZE = 54400 := rfl
  have hwd : r.width = r.max_x - r.min_x + 1 := rfl
  have hwpos : 0 < r.width := by omega
  have hh : r.max_y + 1 - r.min_y = r.max_y - r.min_y + 1 := by omega
  rw [insert_region_flat frame r words hx, hh]
  have hdiv : ∀ k, k < (r.max_y - r.min_y + 1) * r.width → k / r.width ≤ r.max_y - r.min_y := by
    intro k hk
    have : k / r.width < r.max_y - r.min_y + 1 := (Nat.div_lt_iff_lt_mul hwpos).mpr hk
    omega
  have hmod : ∀ k, k % r.width ≤ r.max_x - r.min_x := by
    intro k
    have := Nat.mod_lt k hwpos
    omega
  have key := forLoop_wr ((r.max_y - r.min_y + 1) * r.width)
    (fun k => (r.min_y + k / r.width) * WIDTH + (r.min_x + k % r.width))
    (fun k => words.getD k 0) frame
    (by
      intro i j hi hj hij
      have hi1 := hdiv i hi
      have hj1 := hdiv j hj
      have hi2 := hmod i
      have hj2 := hmod j
      dsimp only at hij
      rw [hW] at hij
      have e1 : i / r.width = j / r.width := by omega
      have e2 : i % r.width = j % r.width := by omega
      rw [← Nat.div_add_mod i r.width, ← Nat.div_add_mod j r.width, e1, e2])
    (by
      intro i hi
      have hi1 := hdiv i hi
      have hi2 := hmod i
      dsimp only
      rw [hs, hD, hW]
      omega)
  refine ⟨key.1.trans hs, ?_⟩
  intro y x hyl hxl
  by_cases hin : r.min_x ≤ x ∧ x ≤ r.max_x ∧ r.min_y ≤ y ∧ y ≤ r.max_y
  · rw [if_pos hin]
    obtain ⟨h1, h2, h3, h4⟩ := hin
    have hb : x - r.min_x < r.width := by omega
    obtain ⟨q1, q2⟩ := div_mod_of_lt (y - r.min_y) (x - r.min_x) r.width hb
    have hk : (y - r.min_y) * r.width + (x - r.min_x) < (r.max_y - r.min_y + 1) * r.width := by
      calc (y - r.min_y) * r.width + (x - r.min_x)
          < (y - r.min_y) * r.width + r.width := by omega
        _ = (y - r.min_y + 1) * r.width := by rw [Nat.succ_mul]
        _ ≤ (r.max_y - r.min_y + 1) * r.width := Nat.mul_le_mul_right _ (by omega)
    have := key.2.1 _ hk
    dsimp only at this
    rw [q1, q2] at this
    have ey : r.min_y + (y - r.min_y) = y := by omega
    have ex : r.min_x + (x - r.min_x) = x := by omega
    rw [ey, ex] at this
    exact this
  · rw [if_neg hin]
    apply key.2.2
    intro k hk heq
    have hk1 := hdiv k hk
    have hk2 := hmod k
    apply hin
    dsimp only at heq
    rw [hW] at heq hxl
    generalize k / r.width = a at hk1 heq
    generalize k % r.width = b at hk2 heq
    omega

theorem getD_region_words (frame : Array Nat) (r : Rect) (k : Nat)
    (hk : k < r.width * r.height) :
    (region_words frame r).getD k 0
      = rd frame ((r.min_y + k / r.width) * WIDTH + (r.min_x + k % r.width)) := by
  simp [region_words, List.getD_eq_getElem?_getD, List.getElem?_map, List.getElem?_range, hk]

/-- Writing the packed words of `F` at `r` into a frame that agrees with `F`
outside `r` gives back `F`. -/
theorem insert_region_words (F G : Array Nat) (r : Rect) (hr : r.valid)
    (hF : F.size = DISPLAY_SIZE) (hG : G.size = DISPLAY_SIZE)
    (hout : ∀ y x, y < HEIGHT → x < WIDTH →
      ¬ (r.min_x ≤ x ∧ x ≤ r.max_x ∧ r.min_y ≤ y ∧ y ≤ r.max_y) →
      rd G (y * WIDTH + x) = rd F (y * WIDTH + x)) :
    insert_region G r (region_words F r) = F := by
  obtain ⟨h1, h2⟩ := insert_region_spec G r (region_words F r) hr hG
  have hW : WIDTH = 320 := rfl
  have hH : HEIGHT = 170 := rfl
  have hD : DISPLAY_SIZE = 54400 := rfl
  apply buf_ext _ _ (by rw [h1, hF])
  intro i hi
  rw [h1, hD] at hi
  have hi_eq : i / 320 * WIDTH + i % 320 = i := by rw [hW]; omega
  have := h2 (i / 320) (i % 320) (by rw [hH]; omega) (by rw [hW]; omega)
  rw [hi_eq] at this
  rw [this]
  by_cases hin : r.min_x ≤ i % 320 ∧ i % 320 ≤ r.max_x ∧ r.min_y ≤ i / 320 ∧ i / 320 ≤ r.max_y
  · rw [if_pos hin]
    obtain ⟨a1, a2, a3, a4⟩ := hin
    have hwd : r.width = r.max_x - r.min_x + 1 := rfl
    have hhd : r.height = r.max_y - r.min_y + 1 := rfl
    have hb : i % 320 - r.min_x < r.width := by omega
    obtain ⟨q1, q2⟩ := div_mod_of_lt (i / 320 - r.min_y) (i % 320 - r.min_x) r.width hb
    have hk : (i / 320 - r.min_y) * r.width + (i % 320 - r.min_x) < r.width * r.height := by
      calc (i / 320 - r.min_y) * r.width + (i % 320 - r.min_x)
          < (i / 320 - r.min_y) * r.width + r.width := by omega
        _ = (i / 320 - r.min_y + 1) * r.width := by rw [Nat.succ_mul]
        _ ≤ r.height * r.width := Nat.mul_le_mul_right _ (by omega)
        _ = r.width * r.height := Nat.mul_comm _ _
    rw [getD_region_words F r _ hk, q1, q2]
    have ey : r.min_y + (i / 320 - r.min_y) = i / 320 := by omega
    have ex : r.min_x + (i % 320 - r.min_x) = i % 320 := by omega
    rw [ey, ex, hi_eq]
  · rw [if_neg hin]
    have := hout (i / 320) (i % 320) (by rw [hH]; omega) (by rw [hW]; omega) hin
    rwa [hi_eq] at this

/-! ## Bounding rectangles -/

theorem isBoundingRect_congr (p q : Nat → Nat → Prop) (r : Rect)
    (h : ∀ y x, y < HEIGHT → x < WIDTH → (p x y ↔ q x y)) (hp : IsBoundingRect p r) :
    IsBoundingRect q r := by
  obtain ⟨hv, henc, ⟨y1, l1, m1⟩, ⟨y2, l2, m2⟩, ⟨x3, l3, m3⟩, ⟨x4, l4, m4⟩⟩ := hp
  obtain ⟨v1, v2, v3, v4⟩ := hv
  refine ⟨⟨v1, v2, v3, v4⟩, ?_, ⟨y1, l1, ?_⟩, ⟨y2, l2, ?_⟩, ⟨x3, l3, ?_⟩, ⟨x4, l4, ?_⟩⟩
  · intro y hy x hx hq
    exact henc y hy x hx ((h y x hy hx).mpr hq)
  · exact (h y1 r.min_x l1 (by omega)).mp m1
  · exact (h y2 r.max_x l2 v2).mp m2
  · exact (h r.min_y x3 (by omega) l3).mp m3
  · exact (h r.max_y x4 v4 l4).mp m4

theorem isBoundingRect_unique (p : Nat → Nat → Prop) (r s : Rect)
    (hr : IsBoundingRect p r) (hs : IsBoundingRect p s) : r = s := by
  obtain ⟨⟨a1, a2, a3, a4⟩, henc, ⟨y1, l1, m1⟩, ⟨y2, l2, m2⟩, ⟨x3, l3, m3⟩, ⟨x4, l4, m4⟩⟩ := hr
  obtain ⟨⟨b1, b2, b3, b4⟩, genc, ⟨v1, k1, n1⟩, ⟨v2, k2, n2⟩, ⟨u3, k3, n3⟩, ⟨u4, k4, n4⟩⟩ := hs
  have c1 := genc y1 l1 r.min_x (by omega) m1
  have c2 := genc y2 l2 r.max_x a2 m2
  have c3 := genc r.min_y (by omega) x3 l3 m3
  have c4 := genc r.max_y a4 x4 l4 m4
  have d1 := henc v1 k1 s.min_x (by omega) n1
  have d2 := henc v2 k2 s.max_x b2 n2
  have d3 := henc s.min_y (by omega) u3 k3 n3
  have d4 := henc s.max_y b4 u4 k4 n4
  rcases r with ⟨r1, r2, r3, r4⟩
  rcases s with ⟨s1, s2, s3, s4⟩
  simp only [Rect.mk.injEq]
  dsimp only at *
  omega

theorem marked_count (mask : Array Nat) :
    (find_bounding_box mask).changed_areas
      = ((Finset.range 54400).filter (fun i => rd mask i ≠ 0)).card :=
  (find_bounding_box_inv mask).1

theorem find_bounding_box_encloses (mask : Array Nat) (x y : Nat) (hx : x < WIDTH)
    (hy : y < HEIGHT) (hm : marked mask x y) :
    (find_bounding_box mask).min_x ≤ x ∧ x ≤ (find_bounding_box mask).max_x
    ∧ (find_bounding_box mask).min_y ≤ y ∧ y ≤ (find_bounding_box mask).max_y := by
  have hW : WIDTH = 320 := rfl
  have hH : HEIGHT = 170 := rfl
  have h := (find_bounding_box_inv mask).2.1 (y * 320 + x) (by omega) hm
  have e1 : (y * 320 + x) % 320 = x := by omega
  have e2 : (y * 320 + x) / 320 = y := by omega
  rw [e1, e2] at h
  exact h

theorem marked_of_index (mask : Array Nat) (i : Nat) (h : rd mask i ≠ 0) :
    marked mask (i % 320) (i / 320) := by
  have e : i / 320 * WIDTH + i % 320 = i := by
    show i / 320 * 320 + i % 320 = i
    omega
  unfold marked
  rw [e]
  exact h

theorem find_bounding_box_rect (mask : Array Nat)
    (h : 0 < (find_bounding_box mask).changed_areas) :
    IsBoundingRect (marked mask) (find_bounding_box mask).rect := by
  have hW : WIDTH = 320 := rfl
  have hH : HEIGHT = 170 := rfl
  obtain ⟨⟨i1, l1, m1, e1⟩, ⟨i2, l2, m2, e2⟩, ⟨i3, l3, m3, e3⟩, ⟨i4, l4, m4, e4⟩⟩ :=
    (find_bounding_box_inv mask).2.2.2 h
  have q1 := (find_bounding_box_inv mask).2.1 i1 l1 m1
  have q3 := (find_bounding_box_inv mask).2.1 i3 l3 m3
  refine ⟨⟨?_, ?_, ?_, ?_⟩, ?_, ⟨i1 / 320, ?_, ?_⟩, ⟨i2 / 320, ?_, ?_⟩, ⟨i3 % 320, ?_, ?_⟩,
    ⟨i4 % 320, ?_, ?_⟩⟩
  · show (find_bounding_box mask).min_x ≤ (find_bounding_box mask).max_x
    omega
  · show (find_bounding_box mask).max_x < WIDTH
    omega
  · show (find_bounding_box mask).min_y ≤ (find_bounding_box mask).max_y
    omega
  · show (find_bounding_box mask).max_y < HEIGHT
    omega
  · intro y hy x hx hm
    exact find_bounding_box_encloses mask x y hx hy hm
  · omega
  · show marked mask (find_bounding_box mask).min_x (i1 / 320)
    rw [← e1]
    exact marked_of_index mask i1 m1
  · omega
  · show marked mask (find_bounding_box mask).max_x (i2 / 320)
    rw [← e2]
    exact marked_of_index mask i2 m2
  · omega
  · show marked mask (i3 % 320) (find_bounding_box mask).min_y
    rw [← e3]
    exact marked_of_index mask i3 m3
  · omega
  · show marked mask (i4 % 320) (find_bounding_box mask).max_y
    rw [← e4]
    exact marked_of_index mask i4 m4

theorem find_bounding_box_empty (mask : Array Nat)
    (h : (find_bounding_box mask).changed_areas = 0) :
    (find_bounding_box mask).min_x = 320 ∧ (find_bounding_box mask).max_x = 0
    ∧ (find_bounding_box mask).min_y = 170 ∧ (find_bounding_box mask).max_y = 0 :=
  (find_bounding_box_inv mask).2.2.1 h

/-! ## The mask of a pass and its box -/

theorem detect_mask_rd (prev cur mask : Array Nat) (hm : mask.size = DISPLAY_SIZE) (i : Nat)
    (hi : i < 54400) :
    rd (detect_changed_regions prev cur mask).1 i ≠ 0 ↔ rd cur i ≠ rd prev i := by
  rw [detect_mask, (detect_loop_spec prev cur mask hm).2.1 i hi]
  by_cases h : rd cur i ≠ rd prev i
  · simp [h]
  · simp [h]

theorem detect_marked (prev cur mask : Array Nat) (hm : mask.size = DISPLAY_SIZE) (x y : Nat)
    (hx : x < WIDTH) (hy : y < HEIGHT) :
    marked (detect_changed_regions prev cur mask).1 x y ↔ differs prev cur x y := by
  have hW : WIDTH = 320 := rfl
  have hH : HEIGHT = 170 := rfl
  unfold marked differs
  exact detect_mask_rd prev cur mask hm (y * WIDTH + x) (by rw [hW]; omega)

theorem cycle_box_count (prev cur mask : Array Nat) (hm : mask.size = DISPLAY_SIZE) :
    (find_bounding_box (detect_changed_regions prev cur mask).1).changed_areas
      = changed_pixel_count prev cur := by
  rw [marked_count, changed_pixel_count]
  apply congrArg
  apply Finset.filter_congr
  intro i hi
  exact detect_mask_rd prev cur mask hm i (Finset.mem_range.mp hi)

theorem cycle_box_rect (prev cur mask : Array Nat) (hm : mask.size = DISPLAY_SIZE)
    (h : 0 < changed_pixel_count prev cur) :
    IsBoundingRect (differs prev cur)
      (find_bounding_box (detect_changed_regions prev cur mask).1).rect := by
  apply isBoundingRect_congr (marked (detect_changed_regions prev cur mask).1)
  · intro y x hy hx
    exact detect_marked prev cur mask hm x y hx hy
  · apply find_bounding_box_rect
    rw [cycle_box_count prev cur mask hm]
    exact h

/-! ## What a pass sends -/

theorem full_transmit_eq (cur : Array Nat) :
    set_window 0 0 (WIDTH - 1) (HEIGHT - 1) ++ write_data_len cur DISPLAY_BYTES
      = full_transmit cur := by
  rfl

theorem update_interlaced_eq (malloc : Nat → Option (Nat → Nat)) (cur mask : Array Nat) :
    update_interlaced_regions malloc cur mask
      = send_bounding_box malloc cur (find_bounding_box mask) := by
  rw [update_interlaced_regions, update_changed_regions]
  rfl

theorem select_transmit_eq (malloc : Nat → Option (Nat → Nat)) (cur mask : Array Nat)
    (full_update : Nat) :
    select_transmit malloc cur mask full_update
      = if full_update ≠ 0 then full_transmit cur
        else send_bounding_box malloc cur (find_bounding_box mask) := by
  rw [select_transmit, full_transmit_eq, update_interlaced_eq]

theorem cycle_traffic_eq (malloc : Nat → Option (Nat → Nat)) (prev cur mask : Array Nat)
    (hm : mask.size = DISPLAY_SIZE) :
    cycle_traffic malloc prev cur mask
      = if 2720 < changed_pixel_count prev cur then full_transmit cur
        else send_bounding_box malloc cur
          (find_bounding_box (detect_changed_regions prev cur mask).1) := by
  rw [cycle_traffic, select_transmit_eq, detect_result prev cur mask hm]
  by_cases h : 2720 < changed_pixel_count prev cur
  · rw [if_pos h, if_pos h, if_pos (by decide)]
  · rw [if_neg h, if_neg h, if_neg (by decide)]

theorem guard_bounds (b : BBox) (h : partial_guard b) :
    10 < b.changed_areas ∧ b.min_x + 2 < b.max_x ∧ b.min_y + 2 < b.max_y := by
  obtain ⟨h1, h2, h3⟩ := h
  have : MIN_UPDATE_REGION = 10 := rfl
  omega

theorem partial_guard_iff (b : BBox) :
    partial_guard b ↔ 10 < b.changed_areas ∧ b.min_x + 2 < b.max_x ∧ b.min_y + 2 < b.max_y := by
  constructor
  · exact guard_bounds b
  · intro ⟨h1, h2, h3⟩
    have : MIN_UPDATE_REGION = 10 := rfl
    refine ⟨by omega, by omega, by omega⟩

theorem send_bounding_box_region (malloc : Nat → Option (Nat → Nat)) (cur : Array Nat)
    (b : BBox) (g : Nat → Nat) (hg : partial_guard b)
    (hm : malloc (b.rect.width * b.rect.height * 2) = some g) :
    send_bounding_box malloc cur b = partial_transmit cur b.rect := by
  obtain ⟨_, hx, hy⟩ := guard_bounds b hg
  have hm' : malloc ((b.max_x - b.min_x + 1) * (b.max_y - b.min_y + 1) * 2) = some g := hm
  rw [send_bounding_box, if_pos hg]
  simp only [hm']
  rw [partial_transmit, write_data_len]
  have hn : (b.max_x - b.min_x + 1) * (b.max_y - b.min_y + 1) * 2 / 2
      = (b.max_x - b.min_x + 1) * (b.max_y - b.min_y + 1) := by omega
  obtain ⟨_, hcopy⟩ := copy_region_spec cur b.min_x b.max_x b.min_y b.max_y
    (fresh_block ((b.max_x - b.min_x + 1) * (b.max_y - b.min_y + 1) * 2) g)
    (by omega) (by omega) (by rw [size_fresh_block, hn])
  rw [hn]
  have hw : (List.range ((b.max_x - b.min_x + 1) * (b.max_y - b.min_y + 1))).map
      (rd (copy_region cur b.min_x b.max_x b.min_y b.max_y
        (fresh_block ((b.max_x - b.min_x + 1) * (b.max_y - b.min_y + 1) * 2) g)))
      = region_words cur b.rect := by
    unfold region_words
    apply List.map_congr_left
    intro k hk
    exact hcopy k (List.mem_range.mp hk)
  rw [hw]
  rfl

theorem send_bounding_box_null (malloc : Nat → Option (Nat → Nat)) (cur : Array Nat)
    (b : BBox) (hg : partial_guard b)
    (hm : malloc (b.rect.width * b.rect.height * 2) = none) :
    send_bounding_box malloc cur b
      = set_window b.min_x b.min_y b.max_x b.max_y ++ full_transmit cur := by
  have hm' : malloc ((b.max_x - b.min_x + 1) * (b.max_y - b.min_y + 1) * 2) = none := hm
  rw [send_bounding_box, if_pos hg]
  simp only [hm']
  rw [List.append_assoc, full_transmit_eq]

theorem send_bounding_box_small (malloc : Nat → Option (Nat → Nat)) (cur : Array Nat)
    (b : BBox) (hg : ¬ partial_guard b) (hc : 0 < b.changed_areas) :
    send_bounding_box malloc cur b = full_transmit cur := by
  rw [send_bounding_box, if_neg hg, if_pos hc, full_transmit_eq]

theorem send_bounding_box_none (malloc : Nat → Option (Nat → Nat)) (cur : Array Nat)
    (b : BBox) (hc : b.changed_areas = 0) :
    send_bounding_box malloc cur b = [] := by
  have hg : ¬ partial_guard b := fun h => by
    have := (guard_bounds b h).1
    omega
  rw [send_bounding_box, if_neg hg, if_neg (by omega)]

/-! ## Sample frames, counted -/

theorem changed_pixel_count_frame_of (f g : Nat → Nat) :
    changed_pixel_count (frame_of f) (frame_of g)
      = ((Finset.range 54400).filter (fun i => g i ≠ f i)).card := by
  rw [changed_pixel_count]
  apply congrArg
  apply Finset.filter_congr
  intro i hi
  have hi' : i < DISPLAY_SIZE := Finset.mem_range.mp hi
  rw [rd_frame_of, rd_frame_of, if_pos hi', if_pos hi']

theorem differs_frame_of (f g : Nat → Nat) (x y : Nat) (hx : x < 320) (hy : y < 170) :
    differs (frame_of f) (frame_of g) x y ↔ g (y * 320 + x) ≠ f (y * 320 + x) := by
  have hi : y * 320 + x < DISPLAY_SIZE := by
    rw [display_size_eq]
    omega
  unfold differs
  show rd (frame_of g) (y * 320 + x) ≠ rd (frame_of f) (y * 320 + x) ↔ _
  rw [rd_frame_of, rd_frame_of, if_pos hi, if_pos hi]

theorem count_first_3000 : changed_pixel_count zero_frame first_3000_frame = 3000 := by
  rw [zero_frame, first_3000_frame, changed_pixel_count_frame_of]
  have : (Finset.range 54400).filter (fun i => (if i < 3000 then 1 else 0) ≠ 0)
      = Finset.range 3000 := by
    ext i
    simp only [Finset.mem_filter, Finset.mem_range]
    by_cases h : i < 3000
    · simp [h]; omega
    · simp [h]
  rw [this, Finset.card_range]

theorem count_one_pixel : changed_pixel_count zero_frame one_pixel_frame = 1 := by
  rw [zero_frame, one_pixel_frame, changed_pixel_count_frame_of]
  have : (Finset.range 54400).filter (fun i => (if i = 1000 then 7 else 0) ≠ 0)
      = {1000} := by
    ext i
    simp only [Finset.mem_filter, Finset.mem_range, Finset.mem_singleton]
    by_cases h : i = 1000
    · simp [h]
    · simp [h]
  rw [this, Finset.card_singleton]

theorem count_rows_0_9 : changed_pixel_count zero_frame rows_0_9_frame = 20 := by
  rw [zero_frame, rows_0_9_frame, changed_pixel_count_frame_of]
  have : (Finset.range 54400).filter
        (fun i => (if i % 320 < 10 ∧ (i / 320 = 0 ∨ i / 320 = 9) then 1 else 0) ≠ 0)
      = Finset.range 10 ∪ Finset.Ico 2880 2890 := by
    ext i
    simp only [Finset.mem_filter, Finset.mem_range, Finset.mem_union, Finset.mem_Ico]
    by_cases h : i % 320 < 10 ∧ (i / 320 = 0 ∨ i / 320 = 9)
    · simp only [h, and_self, if_true]
      omega
    · simp only [h, if_false]
      omega
  rw [this]
  rfl

theorem count_rows_0_1 : changed_pixel_count zero_frame rows_0_1_frame = 20 := by
  rw [zero_frame, rows_0_1_frame, changed_pixel_count_frame_of]
  have : (Finset.range 54400).filter
        (fun i => (if i % 320 < 10 ∧ i / 320 < 2 then 1 else 0) ≠ 0)
      = Finset.range 10 ∪ Finset.Ico 320 330 := by
    ext i
    simp only [Finset.mem_filter, Finset.mem_range, Finset.mem_union, Finset.mem_Ico]
    by_cases h : i % 320 < 10 ∧ i / 320 < 2
    · simp only [h, and_self, if_true]
      omega
    · simp only [h, if_false]
      omega
  rw [this]
  rfl

theorem differs_zero_frame (f : Nat → Nat) (x y : Nat) (hx : x < WIDTH) (hy : y < HEIGHT) :
    differs zero_frame (frame_of f) x y ↔ f (y * 320 + x) ≠ 0 := by
  rw [zero_frame, differs_frame_of _ _ x y hx hy]

theorem rows_0_9_box :
    IsBoundingRect (differs zero_frame rows_0_9_frame)
      { min_x := 0, max_x := 9, min_y := 0, max_y := 9 } := by
  have hW : WIDTH = 320 := rfl
  have hH : HEIGHT = 170 := rfl
  have key : ∀ x y, x < WIDTH → y < HEIGHT →
      (differs zero_frame rows_0_9_frame x y ↔ x < 10 ∧ (y = 0 ∨ y = 9)) := by
    intro x y hx hy
    rw [rows_0_9_frame, differs_zero_frame _ x y hx hy]
    have e1 : (y * 320 + x) % 320 = x := by omega
    have e2 : (y * 320 + x) / 320 = y := by omega
    rw [e1, e2]
    by_cases h : x < 10 ∧ (y = 0 ∨ y = 9)
    · simp [h]
    · simp [h]
  refine ⟨⟨by decide, by decide, by decide, by decide⟩, ?_, ⟨0, by decide, ?_⟩,
    ⟨0, by decide, ?_⟩, ⟨0, by decide, ?_⟩, ⟨0, by decide, ?_⟩⟩
  · intro y hy x hx hd
    have := (key x y hx hy).mp hd
    dsimp only
    omega
  · exact (key 0 0 (by decide) (by decide)).mpr (by decide)
  · exact (key 9 0 (by decide) (by decide)).mpr (by decide)
  · exact (key 0 0 (by decide) (by decide)).mpr (by decide)
  · exact (key 0 9 (by decide) (by decide)).mpr (by decide)

theorem rows_0_1_box :
    IsBoundingRect (differs zero_frame rows_0_1_frame)
      { min_x := 0, max_x := 9, min_y := 0, max_y := 1 } := by
  have hW : WIDTH = 320 := rfl
  have hH : HEIGHT = 170 := rfl
  have key : ∀ x y, x < WIDTH → y < HEIGHT →
      (differs zero_frame rows_0_1_frame x y ↔ x < 10 ∧ y < 2) := by
    intro x y hx hy
    rw [rows_0_1_frame, differs_zero_frame _ x y hx hy]
    have e1 : (y * 320 + x) % 320 = x := by omega
    have e2 : (y * 320 + x) / 320 = y := by omega
    rw [e1, e2]
    by_cases h : x < 10 ∧ y < 2
    · simp [h]
    · simp [h]
  refine ⟨⟨by decide, by decide, by decide, by decide⟩, ?_, ⟨0, by decide, ?_⟩,
    ⟨0, by decide, ?_⟩, ⟨0, by decide, ?_⟩, ⟨0, by decide, ?_⟩⟩
  · intro y hy x hx hd
    have := (key x y hx hy).mp hd
    dsimp only
    omega
  · exact (key 0 0 (by decide) (by decide)).mpr (by decide)
  · exact (key 9 0 (by decide) (by decide)).mpr (by decide)
  · exact (key 0 0 (by decide) (by decide)).mpr (by decide)
  · exact (key 0 1 (by decide) (by decide)).mpr (by decide)

theorem one_pixel_box :
    IsBoundingRect (differs zero_frame one_pixel_frame)
      { min_x := 40, max_x := 40, min_y := 3, max_y := 3 } := by
  have hW : WIDTH = 320 := rfl
  have hH : HEIGHT = 170 := rfl
  have key : ∀ x y, x < WIDTH → y < HEIGHT →
      (differs zero_frame one_pixel_frame x y ↔ x = 40 ∧ y = 3) := by
    intro x y hx hy
    rw [one_pixel_frame, differs_zero_frame _ x y hx hy]
    by_cases h : y * 320 + x = 1000
    · simp [h]; omega
    · simp [h]; omega
  refine ⟨⟨by decide, by decide, by decide, by decide⟩, ?_, ⟨3, by decide, ?_⟩,
    ⟨3, by decide, ?_⟩, ⟨40, by decide, ?_⟩, ⟨40, by decide, ?_⟩⟩
  · intro y hy x hx hd
    have := (key x y hx hy).mp hd
    dsimp only
    omega
  · exact (key 40 3 (by decide) (by decide)).mpr (by decide)
  · exact (key 40 3 (by decide) (by decide)).mpr (by decide)
  · exact (key 40 3 (by decide) (by decide)).mpr (by decide)
  · exact (key 40 3 (by decide) (by decide)).mpr (by decide)

/-! ## The decision of one pass -/

theorem percent_le_iff (n : Nat) :
    (n : ℚ) * 100 / ((WIDTH * HEIGHT : Nat) : ℚ) ≤ (CHANGE_THRESHOLD : ℚ) ↔ n ≤ 2720 := by
  have e1 : ((WIDTH * HEIGHT : Nat) : ℚ) = 54400 := by
    show ((320 * 170 : Nat) : ℚ) = 54400
    norm_num
  have e2 : ((CHANGE_THRESHOLD : Nat) : ℚ) = 5 := by
    show ((5 : Nat) : ℚ) = 5
    norm_num
  rw [e1, e2, div_le_iff₀ (by norm_num)]
  constructor
  · intro h
    have : ((n * 100 : Nat) : ℚ) ≤ ((272000 : Nat) : ℚ) := by
      push_cast
      linarith
    have := Nat.cast_le.mp this
    omega
  · intro h
    have : ((n * 100 : Nat) : ℚ) ≤ ((272000 : Nat) : ℚ) := Nat.cast_le.mpr (by omega)
    push_cast at this
    linarith

theorem percent_gt_iff (n : Nat) :
    (n : ℚ) * 100 / ((WIDTH * HEIGHT : Nat) : ℚ) > (CHANGE_THRESHOLD : ℚ) ↔ 2720 < n := by
  rw [gt_iff_lt, ← not_le, percent_le_iff]
  omega

theorem set_window_ne_nil (a b c d : Nat) : set_window a b c d ≠ [] := by
  rw [set_window_eq]
  exact List.cons_ne_nil _ _

theorem full_transmit_ne_nil (cur : Array Nat) : full_transmit cur ≠ [] := by
  rw [full_transmit]
  intro h
  exact set_window_ne_nil _ _ _ _ (List.append_eq_nil.mp h).1

theorem send_bounding_box_ne_nil (malloc : Nat → Option (Nat → Nat)) (cur : Array Nat)
    (b : BBox) (hc : 0 < b.changed_areas) : send_bounding_box malloc cur b ≠ [] := by
  by_cases hg : partial_guard b
  · rcases hmal : malloc (b.rect.width * b.rect.height * 2) with _ | g
    · rw [send_bounding_box_null malloc cur b hg hmal]
      intro h
      exact set_window_ne_nil _ _ _ _ (List.append_eq_nil.mp h).1
    · rw [send_bounding_box_region malloc cur b g hg hmal, partial_transmit]
      intro h
      exact set_window_ne_nil _ _ _ _ (List.append_eq_nil.mp h).1
  · rw [send_bounding_box_small malloc cur b hg hc]
    exact full_transmit_ne_nil cur

theorem partial_guard_rect (b : BBox) :
    partial_guard b ↔ b.changed_areas > MIN_UPDATE_REGION
      ∧ (b.rect.max_x : Int) - b.rect.min_x > 2 ∧ (b.rect.max_y : Int) - b.rect.min_y > 2 :=
  Iff.rfl

theorem cycle_traffic_of_zero (malloc : Nat → Option (Nat → Nat)) (prev cur mask : Array Nat)
    (h : (detect_changed_regions prev cur mask).2 = 0) :
    cycle_traffic malloc prev cur mask
      = update_changed_regions malloc cur (detect_changed_regions prev cur mask).1 := by
  rw [cycle_traffic, select_transmit_eq, h, if_neg (by decide), update_changed_regions]

/-- The partial arm is reached exactly when at most 2720 pixels differ and the
guard holds for the box of the differing pixels. -/
theorem reaches_partial_arm_iff (prev cur mask : Array Nat) (hm : mask.size = DISPLAY_SIZE) :
    reaches_partial_arm prev cur mask
      ↔ changed_pixel_count prev cur ≤ 2720
        ∧ partial_guard (find_bounding_box (detect_changed_regions prev cur mask).1) := by
  unfold reaches_partial_arm
  rw [detect_result prev cur mask hm]
  by_cases h : 2720 < changed_pixel_count prev cur
  · rw [if_pos h]
    constructor
    · intro ⟨h1, _⟩
      exact absurd h1 (by decide)
    · intro ⟨h1, _⟩
      omega
  · rw [if_neg h]
    constructor
    · intro ⟨_, h2⟩
      exact ⟨by omega, h2⟩
    · intro ⟨_, h2⟩
      exact ⟨rfl, h2⟩

theorem box_rect_eq (prev cur mask : Array Nat) (hm : mask.size = DISPLAY_SIZE) (r : Rect)
    (hr : IsBoundingRect (differs prev cur) r) :
    (find_bounding_box (detect_changed_regions prev cur mask).1).rect = r
    ∧ 0 < changed_pixel_count prev cur := by
  have hW : WIDTH = 320 := rfl
  have hH : HEIGHT = 170 := rfl
  have hpos : 0 < changed_pixel_count prev cur := by
    rw [changed_pixel_count_pos]
    obtain ⟨⟨v1, v2, v3, v4⟩, henc, ⟨y1, l1, m1⟩, hrest⟩ := hr
    clear henc hrest
    unfold differs at m1
    refine ⟨y1 * WIDTH + r.min_x, ?_, m1⟩
    have hlt : y1 * 320 + r.min_x < 54400 := by omega
    exact hlt
  exact ⟨isBoundingRect_unique _ _ _ (cycle_box_rect prev cur mask hm hpos) hr, hpos⟩

/-! ## Telling the traces apart -/

theorem length_set_window (a b c d : Nat) : (set_window a b c d).length = 11 := by
  rw [set_window_eq]
  rfl

theorem length_region_transmit (cur : Array Nat) (r : Rect) :
    (partial_transmit cur r).length = 12 := by
  rw [partial_transmit, List.length_append, length_set_window]
  rfl

theorem length_full_transmit (cur : Array Nat) : (full_transmit cur).length = 12 := by
  rw [full_transmit, List.length_append, length_set_window]
  rfl

theorem length_null_trace (cur : Array Nat) (a b c d : Nat) :
    (set_window a b c d ++ full_transmit cur).length = 23 := by
  rw [List.length_append, length_set_window, length_full_transmit]

theorem null_trace_ne_region (cur : Array Nat) (a b c d : Nat) (r : Rect) :
    set_window a b c d ++ full_transmit cur ≠ partial_transmit cur r := by
  intro h
  have h1 := congrArg List.length h
  rw [length_null_trace, length_region_transmit] at h1
  exact absurd h1 (by decide)

theorem region_eq_full_words (cur : Array Nat) (r : Rect)
    (h : partial_transmit cur r = full_transmit cur) : r.width * r.height * 2 = 108800 := by
  rw [partial_transmit, full_transmit] at h
  have h2 := (List.append_inj' h (Eq.refl 1)).2
  have h3 := (List.cons.inj h2).1
  exact (Ev.data_len.inj h3).2

theorem valid_full_size (r : Rect) (hv : r.valid) (h : r.width * r.height * 2 = 108800) :
    r = { min_x := 0, max_x := WIDTH - 1, min_y := 0, max_y := HEIGHT - 1 } := by
  have hW : WIDTH = 320 := rfl
  have hH : HEIGHT = 170 := rfl
  obtain ⟨v1, v2, v3, v4⟩ := hv
  have hw : r.width = r.max_x - r.min_x + 1 := rfl
  have hh : r.height = r.max_y - r.min_y + 1 := rfl
  have w1 : r.width ≤ 320 := by omega
  have w2 : r.height ≤ 170 := by omega
  have w3 : r.width = 320 := by
    by_contra hne
    have : r.width * r.height ≤ 319 * 170 := Nat.mul_le_mul (by omega) w2
    omega
  have w4 : r.height = 170 := by
    by_contra hne
    have : r.width * r.height ≤ 320 * 169 := Nat.mul_le_mul w1 (by omega)
    omega
  obtain ⟨a, b, c, d⟩ := r
  dsimp only at *
  have e1 : a = 0 := by omega
  have e2 : b = 319 := by omega
  have e3 : c = 0 := by omega
  have e4 : d = 169 := by omega
  subst e1 e2 e3 e4
  rfl

/-- The partial transmit of the whole screen is the full transmit: the two
cannot be told apart on the bus. -/
theorem full_screen_region (cur : Array Nat) :
    partial_transmit cur { min_x := 0, max_x := WIDTH - 1, min_y := 0, max_y := HEIGHT - 1 }
      = full_transmit cur := by
  have hw : ({ min_x := 0, max_x := WIDTH - 1, min_y := 0, max_y := HEIGHT - 1 } : Rect).width
      = 320 := rfl
  have hh : ({ min_x := 0, max_x := WIDTH - 1, min_y := 0, max_y := HEIGHT - 1 } : Rect).height
      = 170 := rfl
  have hW : WIDTH = 320 := rfl
  have hH : HEIGHT = 170 := rfl
  have hn : 320 * 170 = 54400 := by norm_num
  have hwords : region_words cur
      { min_x := 0, max_x := WIDTH - 1, min_y := 0, max_y := HEIGHT - 1 }
      = (List.range 54400).map (rd cur) := by
    rw [region_words, hw, hh, hn]
    apply List.map_congr_left
    intro k _
    have e : (0 + k / 320) * WIDTH + (0 + k % 320) = k := by
      rw [hW]
      omega
    exact congrArg (rd cur) e
  rw [partial_transmit, full_transmit, hwords, hw, hh]
  rfl

theorem malloc_null_eq (n : Nat) : malloc_null n = none :=
  Eq.trans rfl rfl

theorem rows_0_9_guard :
    partial_guard
      (find_bounding_box (detect_changed_regions zero_frame rows_0_9_frame zero_frame).1) := by
  have hm : zero_frame.size = DISPLAY_SIZE := size_frame_of _
  obtain ⟨hb, _⟩ := box_rect_eq zero_frame rows_0_9_frame zero_frame hm _ rows_0_9_box
  have hcnt := cycle_box_count zero_frame rows_0_9_frame zero_frame hm
  rw [partial_guard_rect, hb, hcnt, count_rows_0_9]
  exact ⟨by decide, by decide, by decide⟩

theorem rows_0_9_reaches : reaches_partial_arm zero_frame rows_0_9_frame zero_frame :=
  (reaches_partial_arm_iff zero_frame rows_0_9_frame zero_frame (size_frame_of _)).mpr
    ⟨by rw [count_rows_0_9]; decide, rows_0_9_guard⟩

theorem rect_fields (b : BBox) :
    b.rect.min_x = b.min_x ∧ b.rect.max_x = b.max_x ∧ b.rect.min_y = b.min_y
    ∧ b.rect.max_y = b.max_y :=
  ⟨rfl, rfl, rfl, rfl⟩

/-- In the partial arm the pass sends the window of the box and then, according
to the result of `malloc`, the packed region or the full-screen transmit. -/
theorem arm_traffic (malloc : Nat → Option (Nat → Nat)) (prev cur mask : Array Nat)
    (hm : mask.size = DISPLAY_SIZE) (r : Rect) (hr : IsBoundingRect (differs prev cur) r)
    (htake : reaches_partial_arm prev cur mask) :
    (∀ g, malloc (r.width * r.height * 2) = some g →
      cycle_traffic malloc prev cur mask = partial_transmit cur r)
    ∧ (malloc (r.width * r.height * 2) = none →
      cycle_traffic malloc prev cur mask
        = set_window r.min_x r.min_y r.max_x r.max_y ++ full_transmit cur) := by
  obtain ⟨hb, _⟩ := box_rect_eq prev cur mask hm r hr
  obtain ⟨h1, h2⟩ := (reaches_partial_arm_iff prev cur mask hm).mp htake
  constructor
  · intro g hmal
    rw [cycle_traffic_eq malloc prev cur mask hm, if_neg (by omega)]
    rw [← hb] at hmal ⊢
    exact send_bounding_box_region malloc cur _ g h2 hmal
  · intro hmal
    obtain ⟨f1, f2, f3, f4⟩ :=
      rect_fields (find_bounding_box (detect_changed_regions prev cur mask).1)
    rw [cycle_traffic_eq malloc prev cur mask hm, if_neg (by omega)]
    rw [← hb] at hmal ⊢
    rw [send_bounding_box_null malloc cur _ h2 hmal, f1, f2, f3, f4]

/-- C1 (amended). One diff cycle (lines 482-493: `detect_changed_regions`,
followed when it returns 0 by `update_changed_regions` and otherwise by the
full-screen transmit of lines 487-488) reaches the partial arm if and only if
the differing pixels have a bounding rectangle `r` with
`changed_pixel_count * 100 / (W*H) ≤ 5`, `changed_pixel_count > 10`,
`max_x - min_x > 2` and `max_y - min_y > 2`.  In that arm the traffic depends on
the `malloc` of the region buffer: if it succeeds the traffic is the window `r`
followed by the packed pixels of `r`; if it returns `NULL` the traffic is the
window `r` followed by the full-frame transmit, which is the traffic of no
partial rectangle.  So for a bounding rectangle `r` other than the whole screen
the cycle transmits the partial rectangle `r` if and only if the four
conditions hold and the allocation succeeds.  Outside the partial arm the
traffic is the full frame if some pixel differs and nothing if none does. -/
theorem diff_cycle_decision (malloc : Nat → Option (Nat → Nat))
    (prev cur mask : Array Nat) (hm : mask.size = DISPLAY_SIZE) :
    (reaches_partial_arm prev cur mask ↔
      ∃ r, IsBoundingRect (differs prev cur) r
        ∧ (changed_pixel_count prev cur : ℚ) * 100 / ((WIDTH * HEIGHT : Nat) : ℚ)
            ≤ (CHANGE_THRESHOLD : ℚ)
        ∧ changed_pixel_count prev cur > MIN_UPDATE_REGION
        ∧ (r.max_x : Int) - r.min_x > 2 ∧ (r.max_y : Int) - r.min_y > 2)
    ∧ (∀ r g, IsBoundingRect (differs prev cur) r → reaches_partial_arm prev cur mask →
        malloc (r.width * r.height * 2) = some g →
        cycle_traffic malloc prev cur mask = partial_transmit cur r)
    ∧ (∀ r, IsBoundingRect (differs prev cur) r → reaches_partial_arm prev cur mask →
        malloc (r.width * r.height * 2) = none →
        cycle_traffic malloc prev cur mask
            = set_window r.min_x r.min_y r.max_x r.max_y ++ full_transmit cur
        ∧ ∀ s, cycle_traffic malloc prev cur mask ≠ partial_transmit cur s)
    ∧ (∀ r, IsBoundingRect (differs prev cur) r →
        r ≠ { min_x := 0, max_x := WIDTH - 1, min_y := 0, max_y := HEIGHT - 1 } →
        (cycle_traffic malloc prev cur mask = partial_transmit cur r ↔
          ((changed_pixel_count prev cur : ℚ) * 100 / ((WIDTH * HEIGHT : Nat) : ℚ)
              ≤ (CHANGE_THRESHOLD : ℚ)
            ∧ changed_pixel_count prev cur > MIN_UPDATE_REGION
            ∧ (r.max_x : Int) - r.min_x > 2 ∧ (r.max_y : Int) - r.min_y > 2)
          ∧ ∃ g, malloc (r.width * r.height * 2) = some g))
    ∧ (¬ reaches_partial_arm prev cur mask → 0 < changed_pixel_count prev cur →
        cycle_traffic malloc prev cur mask = full_transmit cur)
    ∧ (changed_pixel_count prev cur = 0 → cycle_traffic malloc prev cur mask = [])
    ∧ ((detect_changed_regions prev cur mask).2 = 0 →
        cycle_traffic malloc prev cur mask
          = update_changed_regions malloc cur (detect_changed_regions prev cur mask).1) := by
  have hcnt := cycle_box_count prev cur mask hm
  have htp := reaches_partial_arm_iff prev cur mask hm
  have hM : MIN_UPDATE_REGION = 10 := rfl
  have harm : reaches_partial_arm prev cur mask ↔
      ∃ r, IsBoundingRect (differs prev cur) r
        ∧ (changed_pixel_count prev cur : ℚ) * 100 / ((WIDTH * HEIGHT : Nat) : ℚ)
            ≤ (CHANGE_THRESHOLD : ℚ)
        ∧ changed_pixel_count prev cur > MIN_UPDATE_REGION
        ∧ (r.max_x : Int) - r.min_x > 2 ∧ (r.max_y : Int) - r.min_y > 2 := by
    constructor
    · intro h
      obtain ⟨h1, h2⟩ := htp.mp h
      obtain ⟨g1, g2, g3⟩ := (partial_guard_rect _).mp h2
      rw [hcnt] at g1
      have hpos : 0 < changed_pixel_count prev cur := by omega
      exact ⟨_, cycle_box_rect prev cur mask hm hpos, (percent_le_iff _).mpr h1, g1, g2, g3⟩
    · intro ⟨r, hr, h1, h2, h3, h4⟩
      obtain ⟨hb, _⟩ := box_rect_eq prev cur mask hm r hr
      rw [htp, partial_guard_rect, hb, hcnt]
      exact ⟨(percent_le_iff _).mp h1, h2, h3, h4⟩
  have hfull : ¬ reaches_partial_arm prev cur mask → 0 < changed_pixel_count prev cur →
      cycle_traffic malloc prev cur mask = full_transmit cur := by
    intro hnot hpos
    rw [cycle_traffic_eq malloc prev cur mask hm]
    by_cases h : 2720 < changed_pixel_count prev cur
    · rw [if_pos h]
    · rw [if_neg h]
      apply send_bounding_box_small
      · intro hg
        exact hnot (htp.mpr ⟨by omega, hg⟩)
      · rw [hcnt]
        exact hpos
  refine ⟨harm, ?_, ?_, ?_, hfull, ?_, cycle_traffic_of_zero malloc prev cur mask⟩
  · intro r g hr htake hmal
    exact (arm_traffic malloc prev cur mask hm r hr htake).1 g hmal
  · intro r hr htake hmal
    have e := (arm_traffic malloc prev cur mask hm r hr htake).2 hmal
    refine ⟨e, ?_⟩
    intro s
    rw [e]
    exact null_trace_ne_region cur _ _ _ _ s
  · intro r hr hne
    constructor
    · intro hsent
      by_cases htake : reaches_partial_arm prev cur mask
      · obtain ⟨s, hs, c1, c2, c3, c4⟩ := harm.mp htake
        have es : s = r := isBoundingRect_unique _ _ _ hs hr
        rw [es] at c3 c4
        refine ⟨⟨c1, c2, c3, c4⟩, ?_⟩
        rcases hmal : malloc (r.width * r.height * 2) with _ | g
        · have e := (arm_traffic malloc prev cur mask hm r hr htake).2 hmal
          rw [e] at hsent
          exact absurd hsent (null_trace_ne_region cur _ _ _ _ r)
        · exact ⟨g, rfl⟩
      · have hpos := (box_rect_eq prev cur mask hm r hr).2
        rw [hfull htake hpos] at hsent
        exact absurd (valid_full_size r hr.1 (region_eq_full_words cur r hsent.symm)) hne
    · intro ⟨⟨c1, c2, c3, c4⟩, g, hmal⟩
      exact (arm_traffic malloc prev cur mask hm r hr (harm.mpr ⟨r, hr, c1, c2, c3, c4⟩)).1 g hmal
  · intro h0
    rw [cycle_traffic_eq malloc prev cur mask hm, if_neg (by omega)]
    apply send_bounding_box_none
    rw [hcnt]
    exact h0

/-- Witness for C1: against a black previous frame, the frame with twenty lit
pixels on rows 0 and 9 of the block at the origin is sent as the partial
rectangle `(0, 0)-(9, 9)` when the allocation succeeds. -/
theorem diff_cycle_decision_witness :
    zero_frame.size = DISPLAY_SIZE
    ∧ cycle_traffic malloc_ok zero_frame rows_0_9_frame zero_frame
        = partial_transmit rows_0_9_frame { min_x := 0, max_x := 9, min_y := 0, max_y := 9 } :=
  ⟨size_frame_of _,
    (diff_cycle_decision malloc_ok zero_frame rows_0_9_frame zero_frame (size_frame_of _)).2.1
      _ (fun _ => 0) rows_0_9_box
      ((diff_cycle_decision malloc_ok zero_frame rows_0_9_frame zero_frame
        (size_frame_of _)).1.mpr
        ⟨_, rows_0_9_box, by rw [percent_le_iff, count_rows_0_9]; decide,
          by rw [count_rows_0_9]; decide, by decide, by decide⟩)
      rfl⟩

/-- Counterexample to C1 as worded: against a black previous frame, the frame
with twenty lit pixels on rows 0 and 9 of the block at the origin meets all four
conditions (20 pixels, 0.04 percent, box `(0, 0)-(9, 9)`), yet when `malloc`
returns `NULL` the pass sends the window of the box and then the full frame:
23 transfers, where a partial rectangle is always 12. -/
theorem region_alloc_null_sends_full :
    IsBoundingRect (differs zero_frame rows_0_9_frame)
      { min_x := 0, max_x := 9, min_y := 0, max_y := 9 }
    ∧ (changed_pixel_count zero_frame rows_0_9_frame : ℚ) * 100 / ((WIDTH * HEIGHT : Nat) : ℚ)
        ≤ (CHANGE_THRESHOLD : ℚ)
    ∧ changed_pixel_count zero_frame rows_0_9_frame > MIN_UPDATE_REGION
    ∧ ((9 : Nat) : Int) - (0 : Nat) > 2
    ∧ cycle_traffic malloc_null zero_frame rows_0_9_frame zero_frame
        = set_window 0 0 9 9 ++ full_transmit rows_0_9_frame
    ∧ (cycle_traffic malloc_null zero_frame rows_0_9_frame zero_frame).length = 23
    ∧ (∀ r, (partial_transmit rows_0_9_frame r).length = 12)
    ∧ ∀ r, cycle_traffic malloc_null zero_frame rows_0_9_frame zero_frame
        ≠ partial_transmit rows_0_9_frame r := by
  have e : cycle_traffic malloc_null zero_frame rows_0_9_frame zero_frame
      = set_window 0 0 9 9 ++ full_transmit rows_0_9_frame :=
    (arm_traffic malloc_null zero_frame rows_0_9_frame zero_frame (size_frame_of _) _
      rows_0_9_box rows_0_9_reaches).2 (malloc_null_eq _)
  refine ⟨rows_0_9_box, by rw [percent_le_iff, count_rows_0_9]; decide,
    by rw [count_rows_0_9]; decide, by decide, e, ?_, length_region_transmit _, ?_⟩
  · rw [e, length_null_trace]
  · intro r
    rw [e]
    exact null_trace_ne_region _ _ _ _ _ r

/-- C2. With `n` the number of differing pixels, `detect_changed_regions` returns
1 if and only if `n * 100 / (W*H) > CHANGE_THRESHOLD`, that is if and only if
`n > 2720`; so 2720 differing pixels give 0 and 3000 give 1; and when it
returns 1 the pass sends window `(0, 0, 319, 169)` followed by all 54400 pixels
of the current frame. -/
theorem threshold_full (malloc : Nat → Option (Nat → Nat)) (prev cur mask : Array Nat)
    (hm : mask.size = DISPLAY_SIZE) :
    ((detect_changed_regions prev cur mask).2 = 1 ↔
      (changed_pixel_count prev cur : ℚ) * 100 / ((WIDTH * HEIGHT : Nat) : ℚ)
        > (CHANGE_THRESHOLD : ℚ))
    ∧ ((detect_changed_regions prev cur mask).2 = 1 ↔ 2720 < changed_pixel_count prev cur)
    ∧ ((detect_changed_regions prev cur mask).2 ≠ 1 →
        (detect_changed_regions prev cur mask).2 = 0)
    ∧ (changed_pixel_count prev cur = 2720 → (detect_changed_regions prev cur mask).2 = 0)
    ∧ (changed_pixel_count prev cur = 3000 → (detect_changed_regions prev cur mask).2 = 1)
    ∧ ((detect_changed_regions prev cur mask).2 = 1 →
        cycle_traffic malloc prev cur mask
          = set_window 0 0 319 169
            ++ [Ev.data_len ((List.range 54400).map (rd cur)) 108800]) := by
  have hres := detect_result prev cur mask hm
  have hiff : (detect_changed_regions prev cur mask).2 = 1
      ↔ 2720 < changed_pixel_count prev cur := by
    rw [hres]
    by_cases h : 2720 < changed_pixel_count prev cur
    · simp [h]
    · simp [h]
  refine ⟨?_, hiff, ?_, ?_, ?_, ?_⟩
  · rw [percent_gt_iff]
    exact hiff
  · intro h
    rw [hres] at h ⊢
    by_cases h' : 2720 < changed_pixel_count prev cur
    · rw [if_pos h'] at h
      exact absurd rfl h
    · rw [if_neg h']
  · intro h
    rw [hres, h]
    rfl
  · intro h
    rw [hres, h]
    rfl
  · intro h
    rw [cycle_traffic_eq malloc prev cur mask hm, if_pos (hiff.mp h)]
    rfl

/-- Witness for C2: 3000 differing pixels make the diff return 1. -/
theorem threshold_full_witness :
    zero_frame.size = DISPLAY_SIZE
    ∧ (detect_changed_regions zero_frame first_3000_frame zero_frame).2 = 1 :=
  ⟨size_frame_of _,
    (threshold_full malloc_ok zero_frame first_3000_frame zero_frame
      (size_frame_of _)).2.2.2.2.1 count_first_3000⟩

/-- C3. If the current frame equals the previous one at every pixel, the diff counts
0 changed pixels, leaves every mask entry 0 and returns 0, and
`update_changed_regions` sends nothing, so the pass sends nothing.  Conversely,
if some pixel differs the pass sends something. -/
theorem unchanged_frame_noop (malloc : Nat → Option (Nat → Nat))
    (prev cur mask : Array Nat) (hm : mask.size = DISPLAY_SIZE) :
    ((∀ i, i < DISPLAY_SIZE → rd cur i = rd prev i) →
      changed_pixel_count prev cur = 0
      ∧ (detect_loop prev cur mask).2 = 0
      ∧ (∀ i, i < DISPLAY_SIZE → rd (detect_changed_regions prev cur mask).1 i = 0)
      ∧ (detect_changed_regions prev cur mask).2 = 0
      ∧ update_changed_regions malloc cur (detect_changed_regions prev cur mask).1 = []
      ∧ cycle_traffic malloc prev cur mask = [])
    ∧ ((∃ i, i < DISPLAY_SIZE ∧ rd cur i ≠ rd prev i) →
      cycle_traffic malloc prev cur mask ≠ []) := by
  have hcnt := cycle_box_count prev cur mask hm
  constructor
  · intro heq
    have h0 : changed_pixel_count prev cur = 0 := (changed_pixel_count_eq_zero prev cur).mpr heq
    refine ⟨h0, ?_, ?_, ?_, ?_, ?_⟩
    · rw [(detect_loop_spec prev cur mask hm).2.2, h0]
    · intro i hi
      rw [detect_mask, (detect_loop_spec prev cur mask hm).2.1 i hi, heq i hi]
      simp
    · rw [detect_result prev cur mask hm, h0]
      rfl
    · rw [update_changed_regions]
      apply send_bounding_box_none
      rw [hcnt, h0]
    · rw [cycle_traffic_eq malloc prev cur mask hm, h0, if_neg (by decide)]
      apply send_bounding_box_none
      rw [hcnt, h0]
  · intro hne
    have hpos : 0 < changed_pixel_count prev cur := (changed_pixel_count_pos prev cur).mpr hne
    rw [cycle_traffic_eq malloc prev cur mask hm]
    by_cases h : 2720 < changed_pixel_count prev cur
    · rw [if_pos h]
      exact full_transmit_ne_nil cur
    · rw [if_neg h]
      apply send_bounding_box_ne_nil
      rw [hcnt]
      exact hpos

/-- Witness for C3: a black frame after a black frame sends nothing. -/
theorem unchanged_frame_noop_witness :
    zero_frame.size = DISPLAY_SIZE
    ∧ cycle_traffic malloc_ok zero_frame zero_frame zero_frame = [] :=
  ⟨size_frame_of _,
    ((unchanged_frame_noop malloc_ok zero_frame zero_frame zero_frame (size_frame_of _)).1
      (fun _ _ => rfl)).2.2.2.2.2⟩

/-- C4. If the differing pixels have bounding rectangle `r` (so at least one pixel
differs) and the change is small or degenerate (`changed_pixel_count ≤ 10`, or
`max_x - min_x ≤ 2`, or `max_y - min_y ≤ 2`), then the pass does not reach the
partial arm and sends, whatever the allocator does, window `(0, 0, 319, 169)`
followed by all 54400 pixels of the current frame; in particular it sends
something. -/
theorem small_change_full (malloc : Nat → Option (Nat → Nat)) (prev cur mask : Array Nat)
    (hm : mask.size = DISPLAY_SIZE) (r : Rect) (hr : IsBoundingRect (differs prev cur) r)
    (hsmall : changed_pixel_count prev cur ≤ MIN_UPDATE_REGION
      ∨ (r.max_x : Int) - r.min_x ≤ 2 ∨ (r.max_y : Int) - r.min_y ≤ 2) :
    0 < changed_pixel_count prev cur
    ∧ ¬ reaches_partial_arm prev cur mask
    ∧ cycle_traffic malloc prev cur mask
        = set_window 0 0 319 169 ++ [Ev.data_len ((List.range 54400).map (rd cur)) 108800]
    ∧ cycle_traffic malloc prev cur mask ≠ [] := by
  obtain ⟨hb, hpos⟩ := box_rect_eq prev cur mask hm r hr
  have hcnt := cycle_box_count prev cur mask hm
  have hnot : ¬ partial_guard (find_bounding_box (detect_changed_regions prev cur mask).1) := by
    rw [partial_guard_rect, hb, hcnt]
    intro ⟨g1, g2, g3⟩
    rcases hsmall with h | h | h <;> omega
  have hfull : cycle_traffic malloc prev cur mask = full_transmit cur := by
    rw [cycle_traffic_eq malloc prev cur mask hm]
    by_cases h : 2720 < changed_pixel_count prev cur
    · rw [if_pos h]
    · rw [if_neg h]
      apply send_bounding_box_small _ _ _ hnot
      rw [hcnt]
      exact hpos
  refine ⟨hpos, ?_, ?_, ?_⟩
  · intro h
    exact hnot ((reaches_partial_arm_iff prev cur mask hm).mp h).2
  · rw [hfull]
    rfl
  · rw [hfull]
    exact full_transmit_ne_nil cur

/-- Witness for C4: a single differing pixel is sent as a full frame. -/
theorem small_change_full_witness :
    zero_frame.size = DISPLAY_SIZE
    ∧ IsBoundingRect (differs zero_frame one_pixel_frame)
        { min_x := 40, max_x := 40, min_y := 3, max_y := 3 }
    ∧ changed_pixel_count zero_frame one_pixel_frame = 1
    ∧ cycle_traffic malloc_ok zero_frame one_pixel_frame zero_frame
        = set_window 0 0 319 169
          ++ [Ev.data_len ((List.range 54400).map (rd one_pixel_frame)) 108800] :=
  ⟨size_frame_of _, one_pixel_box, count_one_pixel,
    (small_change_full malloc_ok zero_frame one_pixel_frame zero_frame (size_frame_of _) _
      one_pixel_box (Or.inl (by rw [count_one_pixel]; decide))).2.2.1⟩

/-! ## Small changes inside a block -/

theorem region_payload_eq (frame : Array Nat) (r : Rect) (g : Nat → Nat)
    (hx : r.min_x ≤ r.max_x) (hy : r.min_y ≤ r.max_y) :
    region_payload frame r g = region_words frame r := by
  have hn : r.width * r.height * 2 / 2 = r.width * r.height := by omega
  obtain ⟨_, hcopy⟩ := copy_region_spec frame r.min_x r.max_x r.min_y r.max_y
    (fresh_block (r.width * r.height * 2) g) hx hy (by rw [size_fresh_block, hn]; rfl)
  unfold region_payload region_words
  apply List.map_congr_left
  intro k hk
  exact hcopy k (List.mem_range.mp hk)

theorem full_ne_region_0_9 (frame : Array Nat) :
    full_transmit frame
      ≠ partial_transmit frame { min_x := 0, max_x := 9, min_y := 0, max_y := 9 } := by
  intro h
  rw [full_transmit, partial_transmit] at h
  have h2 := (List.append_inj' h (by rw [List.length_singleton, List.length_singleton])).2
  rw [List.cons.injEq, Ev.data_len.injEq] at h2
  exact absurd h2.1.2 (by decide)

/-- C5, counterexample. The frame whose twenty lit pixels fill columns 0-9 of rows
0 and 1 differs from the black frame in exactly 20 pixels, all inside the 10×10
block at the origin, yet the pass does not reach the partial arm: it sends the
full frame, not the rectangle `(0, 0)-(9, 9)`. -/
theorem clustered_block_sent_full :
    changed_pixel_count zero_frame rows_0_1_frame = 20
    ∧ (∀ x y, x < WIDTH → y < HEIGHT → differs zero_frame rows_0_1_frame x y →
        x ≤ 9 ∧ y ≤ 9)
    ∧ ¬ reaches_partial_arm zero_frame rows_0_1_frame zero_frame
    ∧ cycle_traffic malloc_ok zero_frame rows_0_1_frame zero_frame
        = full_transmit rows_0_1_frame
    ∧ cycle_traffic malloc_ok zero_frame rows_0_1_frame zero_frame
        ≠ partial_transmit rows_0_1_frame { min_x := 0, max_x := 9, min_y := 0, max_y := 9 } := by
  have hm : zero_frame.size = DISPLAY_SIZE := size_frame_of _
  obtain ⟨hb, hpos⟩ := box_rect_eq zero_frame rows_0_1_frame zero_frame hm _ rows_0_1_box
  have hcnt := cycle_box_count zero_frame rows_0_1_frame zero_frame hm
  have hnot : ¬ partial_guard
      (find_bounding_box (detect_changed_regions zero_frame rows_0_1_frame zero_frame).1) := by
    rw [partial_guard_rect, hb]
    intro ⟨_, _, g3⟩
    exact absurd g3 (by decide)
  have hfull : cycle_traffic malloc_ok zero_frame rows_0_1_frame zero_frame
      = full_transmit rows_0_1_frame := by
    rw [cycle_traffic_eq malloc_ok zero_frame rows_0_1_frame zero_frame hm, count_rows_0_1,
      if_neg (by decide)]
    apply send_bounding_box_small _ _ _ hnot
    rw [hcnt]
    exact hpos
  refine ⟨count_rows_0_1, ?_, ?_, hfull, ?_⟩
  · intro x y hx hy hd
    have := rows_0_1_box.2.1 y hy x hx hd
    dsimp only at this
    omega
  · intro h
    exact hnot ((reaches_partial_arm_iff zero_frame rows_0_1_frame zero_frame hm).mp h).2
  · rw [hfull]
    exact full_ne_region_0_9 _

/-- C5, amended. If the two frames differ in exactly 20 pixels and the bounding
rectangle of the differing pixels is the 10×10 block with corner `(x0, y0)`
(they lie inside the block and reach its four sides), the pass reaches the
partial arm, the scanned box is that block, and with the region buffer
allocated the traffic is the window of the block followed by its 100 packed
pixels. -/
theorem clustered_block_sent_as_region (malloc : Nat → Option (Nat → Nat))
    (prev cur mask : Array Nat) (hm : mask.size = DISPLAY_SIZE) (x0 y0 : Nat)
    (hn : changed_pixel_count prev cur = 20)
    (hr : IsBoundingRect (differs prev cur)
      { min_x := x0, max_x := x0 + 9, min_y := y0, max_y := y0 + 9 }) :
    reaches_partial_arm prev cur mask
    ∧ (find_bounding_box (detect_changed_regions prev cur mask).1).rect
        = { min_x := x0, max_x := x0 + 9, min_y := y0, max_y := y0 + 9 }
    ∧ (∀ g, malloc 200 = some g →
        cycle_traffic malloc prev cur mask
          = partial_transmit cur { min_x := x0, max_x := x0 + 9, min_y := y0, max_y := y0 + 9 }) := by
  obtain ⟨hb, _⟩ := box_rect_eq prev cur mask hm _ hr
  have hcnt := cycle_box_count prev cur mask hm
  have hM : MIN_UPDATE_REGION = 10 := rfl
  have hg : partial_guard (find_bounding_box (detect_changed_regions prev cur mask).1) := by
    rw [partial_guard_rect, hb, hcnt, hn, hM]
    dsimp only
    refine ⟨by omega, by omega, by omega⟩
  have htake : reaches_partial_arm prev cur mask :=
    (reaches_partial_arm_iff prev cur mask hm).mpr ⟨by omega, hg⟩
  refine ⟨htake, hb, ?_⟩
  intro g hmal
  have hsize : ({ min_x := x0, max_x := x0 + 9, min_y := y0, max_y := y0 + 9 } : Rect).width
      * ({ min_x := x0, max_x := x0 + 9, min_y := y0, max_y := y0 + 9 } : Rect).height * 2
      = 200 := by
    show (x0 + 9 - x0 + 1) * (y0 + 9 - y0 + 1) * 2 = 200
    have e1 : x0 + 9 - x0 + 1 = 10 := by omega
    have e2 : y0 + 9 - y0 + 1 = 10 := by omega
    rw [e1, e2]
  rw [cycle_traffic_eq malloc prev cur mask hm, if_neg (by omega)]
  rw [← hb]
  apply send_bounding_box_region malloc cur _ g hg
  rw [hb, hsize]
  exact hmal

/-- Witness for the amended C5: twenty lit pixels on rows 0 and 9 of the block at
the origin are sent as the rectangle `(0, 0)-(9, 9)`. -/
theorem clustered_block_sent_as_region_witness :
    zero_frame.size = DISPLAY_SIZE
    ∧ changed_pixel_count zero_frame rows_0_9_frame = 20
    ∧ IsBoundingRect (differs zero_frame rows_0_9_frame)
        { min_x := 0, max_x := 0 + 9, min_y := 0, max_y := 0 + 9 }
    ∧ reaches_partial_arm zero_frame rows_0_9_frame zero_frame :=
  ⟨size_frame_of _, count_rows_0_9, rows_0_9_box,
    (clustered_block_sent_as_region malloc_ok zero_frame rows_0_9_frame zero_frame (size_frame_of _)
      0 0 count_rows_0_9 rows_0_9_box).1⟩

/-! ## The scanned box is the smallest enclosing rectangle -/

/-- C6. For a mask with at least one marked pixel, the rectangle computed by the
scan of `update_changed_regions` lies on the screen
(`0 ≤ min_x ≤ max_x < 320`, `0 ≤ min_y ≤ max_y < 170`), contains every marked
pixel, has a marked pixel on each of its four sides, and is contained in every
rectangle that contains all marked pixels; `changed_areas` is the number of
marked entries. -/
theorem bounding_box_smallest (mask : Array Nat)
    (h : ∃ x y, x < WIDTH ∧ y < HEIGHT ∧ marked mask x y) :
    IsBoundingRect (marked mask) (find_bounding_box mask).rect
    ∧ (0 ≤ (find_bounding_box mask).min_x
        ∧ (find_bounding_box mask).min_x ≤ (find_bounding_box mask).max_x
        ∧ (find_bounding_box mask).max_x < 320
        ∧ 0 ≤ (find_bounding_box mask).min_y
        ∧ (find_bounding_box mask).min_y ≤ (find_bounding_box mask).max_y
        ∧ (find_bounding_box mask).max_y < 170)
    ∧ (∀ r : Rect,
        (∀ x y, x < WIDTH → y < HEIGHT → marked mask x y →
          r.min_x ≤ x ∧ x ≤ r.max_x ∧ r.min_y ≤ y ∧ y ≤ r.max_y) →
        r.min_x ≤ (find_bounding_box mask).min_x ∧ (find_bounding_box mask).max_x ≤ r.max_x
        ∧ r.min_y ≤ (find_bounding_box mask).min_y
        ∧ (find_bounding_box mask).max_y ≤ r.max_y)
    ∧ (find_bounding_box mask).changed_areas
        = ((Finset.range (WIDTH * HEIGHT)).filter (fun i => rd mask i ≠ 0)).card := by
  have hW : WIDTH = 320 := rfl
  have hH : HEIGHT = 170 := rfl
  obtain ⟨x, y, hx, hy, hxy⟩ := h
  have hpos : 0 < (find_bounding_box mask).changed_areas := by
    rw [marked_count, Finset.card_pos]
    refine ⟨y * WIDTH + x, Finset.mem_filter.mpr ⟨Finset.mem_range.mpr ?_, hxy⟩⟩
    have hlt : y * 320 + x < 54400 := by omega
    exact hlt
  have hbr := find_bounding_box_rect mask hpos
  obtain ⟨f1, f2, f3, f4⟩ := rect_fields (find_bounding_box mask)
  obtain ⟨⟨v1, v2, v3, v4⟩, henc, ⟨y1, l1, m1⟩, ⟨y2, l2, m2⟩, ⟨x3, l3, m3⟩, ⟨x4, l4, m4⟩⟩ := hbr
  rw [f1] at v1 m1
  rw [f2] at v1 v2 m2
  rw [f3] at v3 m3
  rw [f4] at v3 v4 m4
  refine ⟨find_bounding_box_rect mask hpos, ?_, ?_, marked_count mask⟩
  · clear henc
    rw [hW] at v2
    rw [hH] at v4
    exact ⟨Nat.zero_le _, v1, v2, Nat.zero_le _, v3, v4⟩
  · intro r hr
    have c1 := hr _ y1 (by clear henc hr; omega) l1 m1
    have c2 := hr _ y2 v2 l2 m2
    have c3 := hr x3 _ l3 (by clear henc hr; omega) m3
    have c4 := hr x4 _ l4 v4 m4
    exact ⟨c1.1, c2.2.1, c3.2.2.1, c4.2.2.2⟩

/-- Witness for C6: the mask with the single mark `(40, 3)`. -/
theorem bounding_box_smallest_witness :
    (∃ x y, x < WIDTH ∧ y < HEIGHT ∧ marked one_mark_mask x y)
    ∧ IsBoundingRect (marked one_mark_mask) (find_bounding_box one_mark_mask).rect :=
  have hmark : ∃ x y, x < WIDTH ∧ y < HEIGHT ∧ marked one_mark_mask x y :=
    ⟨40, 3, by decide, by decide, by
      unfold marked one_mark_mask
      rw [rd_frame_of]
      decide⟩
  ⟨hmark, (bounding_box_smallest one_mark_mask hmark).1⟩

/-! ## The region copy -/

/-- C7. For every frame and every rectangle with `min_x ≤ max_x < W` and
`min_y ≤ max_y < H`, the buffer that the copy loop fills (a fresh block of
`region_size * 2` bytes, whatever it held) has exactly
`(max_x-min_x+1) * (max_y-min_y+1)` words and holds the rectangle row-major:
word `(y-min_y) * region_width + (x-min_x)` is pixel `(x, y)` of the frame, so
row 0 of the region is row `min_y` of the frame; the words sent are those of
the row-major packed copy. -/
theorem region_copy_packed (frame : Array Nat) (r : Rect) (garbage : Nat → Nat)
    (hr : r.valid) :
    (copy_region frame r.min_x r.max_x r.min_y r.max_y
        (fresh_block (r.width * r.height * 2) garbage)).size
      = (r.max_x - r.min_x + 1) * (r.max_y - r.min_y + 1)
    ∧ (∀ x y, r.min_x ≤ x → x ≤ r.max_x → r.min_y ≤ y → y ≤ r.max_y →
        rd (copy_region frame r.min_x r.max_x r.min_y r.max_y
            (fresh_block (r.width * r.height * 2) garbage))
          ((y - r.min_y) * (r.max_x - r.min_x + 1) + (x - r.min_x))
        = rd frame (y * WIDTH + x))
    ∧ (∀ x, r.min_x ≤ x → x ≤ r.max_x →
        rd (copy_region frame r.min_x r.max_x r.min_y r.max_y
            (fresh_block (r.width * r.height * 2) garbage)) (x - r.min_x)
        = rd frame (r.min_y * WIDTH + x))
    ∧ write_data_len (copy_region frame r.min_x r.max_x r.min_y r.max_y
          (fresh_block (r.width * r.height * 2) garbage)) (r.width * r.height * 2)
        = [Ev.data_len (region_words frame r) (r.width * r.height * 2)] := by
  obtain ⟨hx, _, hy, _⟩ := hr
  have hn : r.width * r.height * 2 / 2 = r.width * r.height := by omega
  obtain ⟨hsz, hcopy⟩ := copy_region_spec frame r.min_x r.max_x r.min_y r.max_y
    (fresh_block (r.width * r.height * 2) garbage) hx hy (by rw [size_fresh_block, hn]; rfl)
  have hpix : ∀ x y, r.min_x ≤ x → x ≤ r.max_x → r.min_y ≤ y → y ≤ r.max_y →
      rd (copy_region frame r.min_x r.max_x r.min_y r.max_y
          (fresh_block (r.width * r.height * 2) garbage))
        ((y - r.min_y) * (r.max_x - r.min_x + 1) + (x - r.min_x))
      = rd frame (y * WIDTH + x) := by
    intro x y h1 h2 h3 h4
    have hb : x - r.min_x < r.max_x - r.min_x + 1 := by omega
    obtain ⟨q1, q2⟩ := div_mod_of_lt (y - r.min_y) (x - r.min_x) (r.max_x - r.min_x + 1) hb
    have hk : (y - r.min_y) * (r.max_x - r.min_x + 1) + (x - r.min_x)
        < (r.max_x - r.min_x + 1) * (r.max_y - r.min_y + 1) := by
      calc (y - r.min_y) * (r.max_x - r.min_x + 1) + (x - r.min_x)
          < (y - r.min_y) * (r.max_x - r.min_x + 1) + (r.max_x - r.min_x + 1) := by omega
        _ = (y - r.min_y + 1) * (r.max_x - r.min_x + 1) := by rw [Nat.succ_mul]
        _ ≤ (r.max_y - r.min_y + 1) * (r.max_x - r.min_x + 1) :=
            Nat.mul_le_mul_right _ (by omega)
        _ = (r.max_x - r.min_x + 1) * (r.max_y - r.min_y + 1) := Nat.mul_comm _ _
    rw [hcopy _ hk, q1, q2]
    have ey : r.min_y + (y - r.min_y) = y := by omega
    have ex : r.min_x + (x - r.min_x) = x := by omega
    rw [ey, ex]
  refine ⟨hsz, hpix, ?_, ?_⟩
  · intro x h1 h2
    have := hpix x r.min_y h1 h2 (Nat.le_refl _) hy
    rw [Nat.sub_self, Nat.zero_mul, Nat.zero_add] at this
    exact this
  · rw [write_data_len, hn]
    have := region_payload_eq frame r garbage hx hy
    rw [region_payload] at this
    rw [this]

/-- Witness for C7: the 10×10 block at the origin of the frame with lit rows 0
and 9. -/
theorem region_copy_packed_witness :
    ({ min_x := 0, max_x := 9, min_y := 0, max_y := 9 } : Rect).valid
    ∧ write_data_len (copy_region rows_0_9_frame 0 9 0 9 (fresh_block (10 * 10 * 2) (fun _ => 0)))
          (10 * 10 * 2)
        = [Ev.data_len (region_words rows_0_9_frame
            { min_x := 0, max_x := 9, min_y := 0, max_y := 9 }) (10 * 10 * 2)] :=
  ⟨by decide,
    (region_copy_packed rows_0_9_frame { min_x := 0, max_x := 9, min_y := 0, max_y := 9 }
      (fun _ => 0) (by decide)).2.2.2⟩

/-- C8. Round trip of the region extractor: for every frame `F` and every valid
rectangle, writing the extracted words back row-major at the same rectangle
into `F` gives `F`, and writing them into any frame that agrees with `F`
outside the rectangle gives `F` as well. -/
theorem region_round_trip (F : Array Nat) (r : Rect) (garbage : Nat → Nat) (hr : r.valid)
    (hF : F.size = DISPLAY_SIZE) :
    insert_region F r (region_payload F r garbage) = F
    ∧ ∀ G : Array Nat, G.size = DISPLAY_SIZE →
        (∀ y x, y < HEIGHT → x < WIDTH →
          ¬ (r.min_x ≤ x ∧ x ≤ r.max_x ∧ r.min_y ≤ y ∧ y ≤ r.max_y) →
          rd G (y * WIDTH + x) = rd F (y * WIDTH + x)) →
        insert_region G r (region_payload F r garbage) = F := by
  rw [region_payload_eq F r garbage hr.1 hr.2.2.1]
  exact ⟨insert_region_words F F r hr hF hF (fun _ _ _ _ _ => rfl),
    fun G hG hout => insert_region_words F G r hr hF hG hout⟩

/-- Witness for C8: extracting the block at the origin of the frame with lit rows
0 and 9 and writing it back. -/
theorem region_round_trip_witness :
    ({ min_x := 0, max_x := 9, min_y := 0, max_y := 9 } : Rect).valid
    ∧ rows_0_9_frame.size = DISPLAY_SIZE
    ∧ insert_region rows_0_9_frame { min_x := 0, max_x := 9, min_y := 0, max_y := 9 }
        (region_payload rows_0_9_frame { min_x := 0, max_x := 9, min_y := 0, max_y := 9 }
          (fun _ => 0))
      = rows_0_9_frame :=
  ⟨by decide, size_frame_of _,
    (region_round_trip rows_0_9_frame { min_x := 0, max_x := 9, min_y := 0, max_y := 9 }
      (fun _ => 0) (by decide) (size_frame_of _)).1⟩

/-! ## The loop body: panel and cache -/

theorem apply_interlacing_eq (frame : Array Nat) : apply_interlacing frame = frame := by
  rw [apply_interlacing, apply_interlacing_with]
  rfl

theorem size_prepare_frame (raw : Array Nat) : (prepare_frame raw).size = raw.size := by
  rw [prepare_frame, apply_interlacing_eq]
  exact forLoop_invariant (fun _ (f : Array Nat) => f.size = raw.size) DISPLAY_SIZE
    (fun i f => wr f i (fix_color_format (rd f i))) raw rfl
    (fun i f _ h => by
      show (wr f i (fix_color_format (rd f i))).size = raw.size
      rw [size_wr]
      exact h)

theorem loop_body_ok (malloc : Nat → Option (Nat → Nat)) (cap : Capture) (st : Engine)
    (h1 : cap.snapshot = 0) (h2 : cap.read_data = 0) :
    loop_body malloc cap st = some (commit (diff_and_transmit malloc (load_frame cap st))) := by
  rw [loop_body, if_neg (by rw [h1]; decide), if_neg (by rw [h2]; decide)]

theorem loop_body_some (malloc : Nat → Option (Nat → Nat)) (cap : Capture) (st st' : Engine)
    (h : loop_body malloc cap st = some st') :
    st' = commit (diff_and_transmit malloc (load_frame cap st)) := by
  rw [loop_body] at h
  by_cases h1 : cap.snapshot ≠ 0
  · rw [if_pos h1] at h
    exact absurd h (by simp)
  · rw [if_neg h1] at h
    by_cases h2 : cap.read_data ≠ 0
    · rw [if_pos h2] at h
      exact absurd h (by simp)
    · rw [if_neg h2] at h
      exact (Option.some.inj h).symm

theorem mk_prev_frame (a b c : Array Nat) (d : List Ev) :
    (Engine.mk a b c d).prev_frame = a :=
  Eq.trans rfl rfl

theorem mk_current_frame (a b c : Array Nat) (d : List Ev) :
    (Engine.mk a b c d).current_frame = b :=
  Eq.trans rfl rfl

theorem mk_update_mask (a b c : Array Nat) (d : List Ev) :
    (Engine.mk a b c d).update_mask = c :=
  Eq.trans rfl rfl

theorem mk_spi (a b c : Array Nat) (d : List Ev) : (Engine.mk a b c d).spi = d :=
  Eq.trans rfl rfl

theorem diff_and_transmit_eq (malloc : Nat → Option (Nat → Nat)) (st : Engine) :
    diff_and_transmit malloc st
      = Engine.mk st.prev_frame st.current_frame
          (detect_changed_regions st.prev_frame st.current_frame st.update_mask).1
          (st.spi ++ cycle_traffic malloc st.prev_frame st.current_frame st.update_mask) := by
  rw [diff_and_transmit]

theorem commit_eq (st : Engine) :
    commit st = Engine.mk (memcpy st.prev_frame st.current_frame DISPLAY_BYTES)
      st.current_frame st.update_mask st.spi := by
  rw [commit]

theorem load_frame_eq (cap : Capture) (st : Engine) :
    load_frame cap st
      = Engine.mk st.prev_frame (prepare_frame cap.pixels) st.update_mask st.spi := by
  rw [load_frame]

/-- The four buffers after the transmit step and after the whole pass. -/
theorem step_fields (malloc : Nat → Option (Nat → Nat)) (cap : Capture) (st : Engine) :
    (diff_and_transmit malloc (load_frame cap st)).prev_frame = st.prev_frame
    ∧ (diff_and_transmit malloc (load_frame cap st)).spi
      = st.spi ++ cycle_traffic malloc st.prev_frame (prepare_frame cap.pixels) st.update_mask
    ∧ (commit (diff_and_transmit malloc (load_frame cap st))).prev_frame
      = memcpy st.prev_frame (prepare_frame cap.pixels) DISPLAY_BYTES
    ∧ (commit (diff_and_transmit malloc (load_frame cap st))).current_frame
      = prepare_frame cap.pixels
    ∧ (commit (diff_and_transmit malloc (load_frame cap st))).update_mask
      = (detect_changed_regions st.prev_frame (prepare_frame cap.pixels) st.update_mask).1
    ∧ (commit (diff_and_transmit malloc (load_frame cap st))).spi
      = st.spi ++ cycle_traffic malloc st.prev_frame (prepare_frame cap.pixels)
          st.update_mask := by
  refine ⟨?_, ?_, ?_, ?_, ?_, ?_⟩
  · rw [diff_and_transmit_eq, mk_prev_frame, load_frame_eq, mk_prev_frame]
  · rw [diff_and_transmit_eq, mk_spi, load_frame_eq, mk_spi, mk_prev_frame, mk_current_frame,
      mk_update_mask]
  · rw [commit_eq, mk_prev_frame, diff_and_transmit_eq, mk_prev_frame, mk_current_frame,
      load_frame_eq, mk_prev_frame, mk_current_frame]
  · rw [commit_eq, mk_current_frame, diff_and_transmit_eq, mk_current_frame, load_frame_eq,
      mk_current_frame]
  · rw [commit_eq, mk_update_mask, diff_and_transmit_eq, mk_update_mask, load_frame_eq,
      mk_prev_frame, mk_current_frame, mk_update_mask]
  · rw [commit_eq, mk_spi, diff_and_transmit_eq, mk_spi, load_frame_eq, mk_spi, mk_prev_frame,
      mk_current_frame, mk_update_mask]

theorem init_engine_eq (c m : Array Nat) :
    init_engine c m = Engine.mk (Array.mkArray DISPLAY_SIZE 0) c m [] := by
  rw [init_engine]

theorem panel_run_nil (p : Panel) : panel_run [] p = p :=
  Eq.trans rfl rfl

theorem panel_init_mem : panel_init.mem = Array.mkArray DISPLAY_SIZE 0 :=
  Eq.trans rfl rfl

theorem init_panel_inv (c m : Array Nat) :
    (panel_run (init_engine c m).spi panel_init).mem = (init_engine c m).prev_frame := by
  rw [init_engine_eq, mk_spi, mk_prev_frame, panel_run_nil, panel_init_mem]

theorem init_mask_size (c m : Array Nat) (h : m.size = DISPLAY_SIZE) :
    (init_engine c m).update_mask.size = DISPLAY_SIZE := by
  rw [init_engine_eq, mk_update_mask]
  exact h

theorem mk_capture_fields (a b : Nat) (c : Array Nat) :
    (Capture.mk a b c).snapshot = a ∧ (Capture.mk a b c).read_data = b
    ∧ (Capture.mk a b c).pixels = c :=
  ⟨Eq.trans rfl rfl, Eq.trans rfl rfl, Eq.trans rfl rfl⟩

theorem sample_capture_fields :
    sample_capture.snapshot = 0 ∧ sample_capture.read_data = 0
    ∧ sample_capture.pixels.size = DISPLAY_SIZE := by
  rw [sample_capture]
  obtain ⟨h1, h2, h3⟩ := mk_capture_fields 0 0 rows_0_9_frame
  rw [h1, h2, h3]
  exact ⟨Eq.refl 0, Eq.refl 0, size_frame_of _⟩

theorem init_prev_size (c m : Array Nat) : (init_engine c m).prev_frame.size = DISPLAY_SIZE := by
  rw [init_engine_eq, mk_prev_frame, Array.size_mkArray]

theorem memcpy_frame (dst src : Array Nat) (hd : dst.size = DISPLAY_SIZE)
    (hs : src.size = DISPLAY_SIZE) : memcpy dst src DISPLAY_BYTES = src :=
  memcpy_spec dst src DISPLAY_SIZE hd hs

theorem full_words (cur : Array Nat) :
    (List.range 54400).map (rd cur)
      = region_words cur { min_x := 0, max_x := 319, min_y := 0, max_y := 169 } := by
  unfold region_words
  show (List.range 54400).map (rd cur)
    = (List.range 54400).map (fun k => rd cur ((0 + k / 320) * 320 + (0 + k % 320)))
  apply List.map_congr_left
  intro k _
  have : (0 + k / 320) * 320 + (0 + k % 320) = k := by omega
  rw [this]

theorem panel_full (p : Panel) (cur : Array Nat) (hp : p.mem.size = DISPLAY_SIZE)
    (hc : cur.size = DISPLAY_SIZE) : (panel_run (full_transmit cur) p).mem = cur := by
  rw [full_transmit, full_words,
    panel_run_window_burst p { min_x := 0, max_x := 319, min_y := 0, max_y := 169 } _ _
      (by decide) (by decide) (by decide) (by decide)]
  apply insert_region_words cur p.mem _ (by decide) hc hp
  intro y x hy hx hnot
  have hW : WIDTH = 320 := rfl
  have hH : HEIGHT = 170 := rfl
  exfalso
  apply hnot
  dsimp only
  omega

/-- After the traffic of one pass the panel shows the current frame, whichever
arm was taken. -/
theorem panel_after_traffic (malloc : Nat → Option (Nat → Nat)) (prev cur mask : Array Nat)
    (p : Panel) (hm : mask.size = DISPLAY_SIZE) (hprev : prev.size = DISPLAY_SIZE)
    (hcur : cur.size = DISPLAY_SIZE) (hp : p.mem = prev) :
    (panel_run (cycle_traffic malloc prev cur mask) p).mem = cur := by
  have hW : WIDTH = 320 := rfl
  have hH : HEIGHT = 170 := rfl
  have hpsz : p.mem.size = DISPLAY_SIZE := by rw [hp, hprev]
  have hcnt := cycle_box_count prev cur mask hm
  rw [cycle_traffic_eq malloc prev cur mask hm]
  by_cases hbig : 2720 < changed_pixel_count prev cur
  · rw [if_pos hbig]
    exact panel_full p cur hpsz hcur
  · rw [if_neg hbig]
    rcases Nat.eq_zero_or_pos (changed_pixel_count prev cur) with h0 | hpos
    · rw [send_bounding_box_none malloc cur _ (by rw [hcnt, h0])]
      show p.mem = cur
      rw [hp]
      apply buf_ext _ _ (by rw [hprev, hcur])
      intro i hi
      rw [hprev] at hi
      exact ((changed_pixel_count_eq_zero prev cur).mp h0 i hi).symm
    · have hrect := cycle_box_rect prev cur mask hm hpos
      by_cases hg : partial_guard
          (find_bounding_box (detect_changed_regions prev cur mask).1)
      · obtain ⟨hv, henc, hatt⟩ := hrect
        clear hatt
        rcases hmal : malloc
            ((find_bounding_box (detect_changed_regions prev cur mask).1).rect.width
              * (find_bounding_box (detect_changed_regions prev cur mask).1).rect.height * 2)
          with _ | g
        · rw [send_bounding_box_null malloc cur _ hg hmal, panel_run_append]
          apply panel_full _ cur _ hcur
          obtain ⟨f1, f2, f3, f4⟩ :=
            rect_fields (find_bounding_box (detect_changed_regions prev cur mask).1)
          obtain ⟨v1, v2, v3, v4⟩ := hv
          rw [f1, f2] at v1
          rw [f2] at v2
          rw [f3, f4] at v3
          rw [f4] at v4
          clear henc
          rw [panel_run_set_window p _ _ _ _ (by omega) (by omega) (by omega) (by omega)]
          exact hpsz
        · rw [send_bounding_box_region malloc cur _ g hg hmal, partial_transmit,
            panel_run_window_burst p _ _ _ hv.2.1 hv.2.2.2 hv.1 hv.2.2.1]
          apply insert_region_words cur p.mem _ hv hcur hpsz
          intro y x hy hx hnot
          rw [hp]
          by_contra hne
          exact hnot (henc y hy x hx (fun h => hne h.symm))
      · rw [send_bounding_box_small malloc cur _ hg (by rw [hcnt]; exact hpos)]
        exact panel_full p cur hpsz hcur

/-- C9. Panel/cache consistency of the loop: the panel (a 320x170 pixel array
that reacts to the SPI traffic, a window command followed by a burst overwriting
the window row-major) and `prev_frame` are both all zero at the start, and if
the panel equals `prev_frame` before a pass that completes, then after the
pass `prev_frame` again equals the panel at every position, whichever arm was
taken (threshold full, partial rectangle, fallback full, allocation failure,
or nothing sent) and whatever the allocator returned. -/
theorem panel_matches_prev_frame (malloc : Nat → Option (Nat → Nat)) (cap : Capture)
    (st st' : Engine) (current_frame0 update_mask0 : Array Nat)
    (hprev : st.prev_frame.size = DISPLAY_SIZE) (hmask : st.update_mask.size = DISPLAY_SIZE)
    (hpix : cap.pixels.size = DISPLAY_SIZE)
    (hinv : (panel_run st.spi panel_init).mem = st.prev_frame)
    (hstep : loop_body malloc cap st = some st') :
    (panel_run (init_engine current_frame0 update_mask0).spi panel_init).mem
      = (init_engine current_frame0 update_mask0).prev_frame
    ∧ (∀ i, i < DISPLAY_SIZE → rd (init_engine current_frame0 update_mask0).prev_frame i = 0)
    ∧ (panel_run st'.spi panel_init).mem = st'.prev_frame
    ∧ st'.prev_frame.size = DISPLAY_SIZE ∧ st'.update_mask.size = DISPLAY_SIZE := by
  have hst := loop_body_some malloc cap st st' hstep
  obtain ⟨_, _, e1, _, e3, e4⟩ := step_fields malloc cap st
  have hcur : (prepare_frame cap.pixels).size = DISPLAY_SIZE := by
    rw [size_prepare_frame, hpix]
  have hcommit := memcpy_frame st.prev_frame (prepare_frame cap.pixels) hprev hcur
  rw [hcommit] at e1
  refine ⟨init_panel_inv _ _, ?_, ?_, ?_, ?_⟩
  · intro i hi
    rw [init_engine_eq, mk_prev_frame, rd_of_lt _ _ (by rw [Array.size_mkArray]; exact hi)]
    exact Array.getElem_mkArray _ _ _
  · rw [hst, e4, e1, panel_run_append]
    exact panel_after_traffic malloc st.prev_frame (prepare_frame cap.pixels) st.update_mask
      _ hmask hprev hcur hinv
  · rw [hst, e1]
    exact hcur
  · rw [hst, e3, detect_mask]
    exact (detect_loop_spec st.prev_frame (prepare_frame cap.pixels) st.update_mask hmask).1

/-- Witness for C9: the first pass after start-up, capturing the frame with lit
rows 0 and 9. -/
theorem panel_matches_prev_frame_witness :
    (init_engine zero_frame zero_frame).prev_frame.size = DISPLAY_SIZE
    ∧ (panel_run (init_engine zero_frame zero_frame).spi panel_init).mem
        = (init_engine zero_frame zero_frame).prev_frame
    ∧ (panel_run (commit (diff_and_transmit malloc_ok
          (load_frame sample_capture (init_engine zero_frame zero_frame)))).spi panel_init).mem
        = (commit (diff_and_transmit malloc_ok
          (load_frame sample_capture (init_engine zero_frame zero_frame)))).prev_frame :=
  ⟨init_prev_size _ _, init_panel_inv _ _,
    (panel_matches_prev_frame malloc_ok sample_capture (init_engine zero_frame zero_frame) _
      zero_frame zero_frame (init_prev_size _ _) (init_mask_size _ _ (size_frame_of _))
      sample_capture_fields.2.2 (init_panel_inv _ _)
      (loop_body_ok malloc_ok sample_capture _ sample_capture_fields.1
        sample_capture_fields.2.1)).2.2.1⟩

/-- C10. Every pass whose capture succeeds completes, and after its commit
`prev_frame` equals the current frame of that pass (the captured pixels after
colour correction and interlacing) at all `W*H` positions, whatever was sent;
the commit comes after the transmit: the state left by the transmit step still
holds the old `prev_frame`, and the commit adds no SPI traffic. -/
theorem commit_equals_current (malloc : Nat → Option (Nat → Nat)) (cap : Capture)
    (st : Engine) (hprev : st.prev_frame.size = DISPLAY_SIZE)
    (hpix : cap.pixels.size = DISPLAY_SIZE) (hs : cap.snapshot = 0)
    (hrd : cap.read_data = 0) :
    ∃ st', loop_body malloc cap st = some st'
      ∧ st'.current_frame = prepare_frame cap.pixels
      ∧ st'.prev_frame = st'.current_frame
      ∧ (∀ i, i < WIDTH * HEIGHT → rd st'.prev_frame i = rd st'.current_frame i)
      ∧ st' = commit (diff_and_transmit malloc (load_frame cap st))
      ∧ (diff_and_transmit malloc (load_frame cap st)).prev_frame = st.prev_frame
      ∧ (diff_and_transmit malloc (load_frame cap st)).spi
          = st.spi ++ cycle_traffic malloc st.prev_frame (prepare_frame cap.pixels)
              st.update_mask
      ∧ st'.spi = (diff_and_transmit malloc (load_frame cap st)).spi := by
  obtain ⟨e5, e6, e1, e2, _, e4⟩ := step_fields malloc cap st
  have hcur : (prepare_frame cap.pixels).size = DISPLAY_SIZE := by
    rw [size_prepare_frame, hpix]
  have hcommit := memcpy_frame st.prev_frame (prepare_frame cap.pixels) hprev hcur
  rw [hcommit] at e1
  refine ⟨_, loop_body_ok malloc cap st hs hrd, e2, ?_, ?_, Eq.refl _, e5, e6, ?_⟩
  · rw [e1, e2]
  · intro i _
    rw [e1, e2]
  · rw [e4, e6]

/-- Witness for C10: the first pass after start-up. -/
theorem commit_equals_current_witness :
    (init_engine zero_frame zero_frame).prev_frame.size = DISPLAY_SIZE
    ∧ sample_capture.pixels.size = DISPLAY_SIZE
    ∧ ∃ st', loop_body malloc_ok sample_capture (init_engine zero_frame zero_frame) = some st'
        ∧ st'.prev_frame = prepare_frame sample_capture.pixels :=
  ⟨init_prev_size _ _, sample_capture_fields.2.2,
    match commit_equals_current malloc_ok sample_capture (init_engine zero_frame zero_frame)
        (init_prev_size _ _) sample_capture_fields.2.2 sample_capture_fields.1
        sample_capture_fields.2.1 with
    | ⟨st', h1, h2, h3, _⟩ => ⟨st', h1, h3.trans h2⟩⟩

/-! ## The interlace filter -/

theorem interlace_on_eq (every : Nat) (frame : Array Nat) :
    apply_interlacing_with true every frame
      = forLoop 0 HEIGHT (fun y frame =>
          if y % every = 1 then
            forLoop 0 WIDTH (fun x frame => wr frame (y * WIDTH + x) 0x0000) frame
          else frame) frame := by
  rw [apply_interlacing_with, if_pos (Eq.refl true)]

theorem interlace_off_eq (every : Nat) (frame : Array Nat) :
    apply_interlacing_with false every frame = frame := by
  rw [apply_interlacing_with, if_neg Bool.false_ne_true]

/-- Blanking one row: the inner loop of `apply_interlacing`. -/
theorem blank_row (f : Array Nat) (y : Nat) (hy : y < 170) (hs : f.size = 54400) :
    (forLoop 0 WIDTH (fun x frame => wr frame (y * WIDTH + x) 0x0000) f).size = 54400
    ∧ ∀ v x, x < 320 →
        rd (forLoop 0 WIDTH (fun x frame => wr frame (y * WIDTH + x) 0x0000) f) (v * 320 + x)
          = if v = y then 0 else rd f (v * 320 + x) := by
  have hW : WIDTH = 320 := rfl
  have key := forLoop_wr WIDTH (fun x => y * WIDTH + x) (fun _ => 0) f
    (by
      intro i j _ _ h
      dsimp only at h
      omega)
    (by
      intro i hi
      dsimp only
      rw [hs, hW]
      rw [hW] at hi
      omega)
  refine ⟨key.1.trans hs, ?_⟩
  intro v x hx
  by_cases hv : v = y
  · rw [if_pos hv, hv]
    have := key.2.1 x (by rw [hW]; exact hx)
    dsimp only at this
    rw [hW] at this
    exact this
  · rw [if_neg hv]
    apply key.2.2
    intro k hk heq
    dsimp only at heq
    rw [hW] at heq hk
    apply hv
    omega

/-- What the enabled filter does to every on-screen pixel. -/
theorem interlace_rows (every : Nat) (frame : Array Nat) (hs : frame.size = DISPLAY_SIZE) :
    (apply_interlacing_with true every frame).size = DISPLAY_SIZE
    ∧ ∀ y x, y < HEIGHT → x < WIDTH →
        rd (apply_interlacing_with true every frame) (y * WIDTH + x)
          = if y % every = 1 then 0 else rd frame (y * WIDTH + x) := by
  have hW : WIDTH = 320 := rfl
  have hH : HEIGHT = 170 := rfl
  have hD : DISPLAY_SIZE = 54400 := rfl
  rw [interlace_on_eq]
  have key := forLoop_invariant
    (fun n (f : Array Nat) =>
      f.size = 54400
      ∧ ∀ y x, x < 320 →
          rd f (y * 320 + x) = if y < n ∧ y % every = 1 then 0 else rd frame (y * 320 + x))
    HEIGHT
    (fun y frame =>
      if y % every = 1 then
        forLoop 0 WIDTH (fun x frame => wr frame (y * WIDTH + x) 0x0000) frame
      else frame) frame
    ⟨hs.trans hD, by
      intro y x _
      rw [if_neg (by omega)]⟩
    (by
      intro n f hn ⟨h1, h2⟩
      rw [hH] at hn
      dsimp only
      by_cases hrow : n % every = 1
      · rw [if_pos hrow]
        obtain ⟨b1, b2⟩ := blank_row f n hn h1
        refine ⟨b1, ?_⟩
        intro y x hx
        rw [b2 y x hx]
        by_cases hy : y = n
        · rw [if_pos hy, if_pos ⟨by omega, by rw [hy]; exact hrow⟩]
        · rw [if_neg hy, h2 y x hx]
          by_cases hc : y < n ∧ y % every = 1
          · rw [if_pos hc, if_pos ⟨by omega, hc.2⟩]
          · rw [if_neg hc, if_neg (fun h => hc ⟨by omega, h.2⟩)]
      · rw [if_neg hrow]
        refine ⟨h1, ?_⟩
        intro y x hx
        rw [h2 y x hx]
        by_cases hc : y < n ∧ y % every = 1
        · rw [if_pos hc, if_pos ⟨by omega, hc.2⟩]
        · rw [if_neg hc]
          rw [if_neg]
          intro h
          apply hc
          refine ⟨?_, h.2⟩
          rcases Nat.lt_succ_iff_lt_or_eq.mp h.1 with hlt | heq
          · exact hlt
          · exact absurd (heq ▸ h.2) hrow)
  obtain ⟨k1, k2⟩ := key
  refine ⟨k1.trans hD.symm, ?_⟩
  intro y x hy hx
  have e : y * WIDTH + x = y * 320 + x := by rw [hW]
  rw [hW] at hx
  rw [e, k2 y x hx]
  by_cases hrow : y % every = 1
  · rw [if_pos ⟨hy, hrow⟩, if_pos hrow]
  · rw [if_neg (fun h => hrow h.2), if_neg hrow]

/-- C11. With interlacing enabled and a period of at least 1, `apply_interlacing`
sets every pixel of each row `y` with `y % period = 1` to 0 and leaves every
pixel of every other row unchanged (the frame keeps its size); with period 2
every odd row is zeroed and every even row is unchanged.  With interlacing
disabled, as compiled (`INTERLACE_ENABLED = 0`), it is the identity. -/
theorem interlace_filter_rows (every : Nat) (frame : Array Nat) (_hp : 1 ≤ every)
    (hs : frame.size = DISPLAY_SIZE) :
    (∀ y x, y < HEIGHT → x < WIDTH → y % every = 1 →
      rd (apply_interlacing_with true every frame) (y * WIDTH + x) = 0)
    ∧ (∀ y x, y < HEIGHT → x < WIDTH → y % every ≠ 1 →
      rd (apply_interlacing_with true every frame) (y * WIDTH + x)
        = rd frame (y * WIDTH + x))
    ∧ (apply_interlacing_with true every frame).size = frame.size
    ∧ (∀ y x, y < HEIGHT → x < WIDTH → y % 2 = 1 →
      rd (apply_interlacing_with true 2 frame) (y * WIDTH + x) = 0)
    ∧ (∀ y x, y < HEIGHT → x < WIDTH → y % 2 = 0 →
      rd (apply_interlacing_with true 2 frame) (y * WIDTH + x) = rd frame (y * WIDTH + x))
    ∧ apply_interlacing_with false every frame = frame
    ∧ apply_interlacing frame = frame := by
  obtain ⟨h1, h2⟩ := interlace_rows every frame hs
  obtain ⟨_, g2⟩ := interlace_rows 2 frame hs
  refine ⟨?_, ?_, h1.trans hs.symm, ?_, ?_, interlace_off_eq every frame,
    apply_interlacing_eq frame⟩
  · intro y x hy hx hrow
    rw [h2 y x hy hx, if_pos hrow]
  · intro y x hy hx hrow
    rw [h2 y x hy hx, if_neg hrow]
  · intro y x hy hx hrow
    rw [g2 y x hy hx, if_pos hrow]
  · intro y x hy hx hrow
    rw [g2 y x hy hx, if_neg (by omega)]

/-- Witness for C11: with period 2, row 1 of the ramp frame is blanked and row 2
is kept. -/
theorem interlace_filter_rows_witness :
    1 ≤ 2 ∧ ramp_frame.size = DISPLAY_SIZE
    ∧ rd (apply_interlacing_with true 2 ramp_frame) (1 * WIDTH + 5) = 0
    ∧ rd (apply_interlacing_with true 2 ramp_frame) (2 * WIDTH + 5)
        = rd ramp_frame (2 * WIDTH + 5) :=
  ⟨by decide, size_frame_of _,
    (interlace_filter_rows 2 ramp_frame (by decide) (size_frame_of _)).1 1 5 (by decide)
      (by decide) (by decide),
    (interlace_filter_rows 2 ramp_frame (by decide) (size_frame_of _)).2.1 2 5 (by decide)
      (by decide) (by decide)⟩

/-- C12. The interlace filter is idempotent: for every frame and every period of at
least 1, applying it twice gives the same frame as applying it once, with
interlacing enabled, with interlacing disabled, and as compiled. -/
theorem interlace_idempotent (every : Nat) (frame : Array Nat) (_hp : 1 ≤ every)
    (hs : frame.size = DISPLAY_SIZE) :
    apply_interlacing_with true every (apply_interlacing_with true every frame)
      = apply_interlacing_with true every frame
    ∧ apply_interlacing_with false every (apply_interlacing_with false every frame)
      = apply_interlacing_with false every frame
    ∧ apply_interlacing (apply_interlacing frame) = apply_interlacing frame := by
  have hD : DISPLAY_SIZE = 54400 := rfl
  obtain ⟨h1, h2⟩ := interlace_rows every frame hs
  obtain ⟨g1, g2⟩ := interlace_rows every (apply_interlacing_with true every frame) h1
  refine ⟨?_, ?_, ?_⟩
  · apply buf_ext _ _ (g1.trans h1.symm)
    intro i hi
    rw [g1, hD] at hi
    have e : i / 320 * WIDTH + i % 320 = i := by
      show i / 320 * 320 + i % 320 = i
      omega
    have hy : i / 320 < HEIGHT := by
      show i / 320 < 170
      omega
    have hx : i % 320 < WIDTH := by
      show i % 320 < 320
      omega
    have a := g2 (i / 320) (i % 320) hy hx
    have b := h2 (i / 320) (i % 320) hy hx
    rw [e] at a b
    rw [a]
    by_cases hrow : i / 320 % every = 1
    · rw [if_pos hrow, b, if_pos hrow]
    · rw [if_neg hrow]
  · rw [interlace_off_eq, interlace_off_eq]
  · rw [apply_interlacing_eq, apply_interlacing_eq]

/-- Witness for C12: the ramp frame with period 2. -/
theorem interlace_idempotent_witness :
    1 ≤ 2 ∧ ramp_frame.size = DISPLAY_SIZE
    ∧ apply_interlacing_with true 2 (apply_interlacing_with true 2 ramp_frame)
        = apply_interlacing_with true 2 ramp_frame :=
  ⟨by decide, size_frame_of _,
    (interlace_idempotent 2 ramp_frame (by decide) (size_frame_of _)).1⟩

/-! ## Allocation failure in the partial arm -/

theorem bursts_append (a b : List Ev) : bursts (a ++ b) = bursts a ++ bursts b := by
  rw [bursts, List.filter_append]
  rfl

theorem bursts_set_window (a b c d : Nat) : bursts (set_window a b c d) = [] := by
  rw [set_window_eq]
  rfl

theorem bursts_single (words : List Nat) (len : Nat) :
    bursts [Ev.data_len words len] = [Ev.data_len words len] :=
  Eq.trans rfl rfl

/-- C13. When a pass reaches the partial arm and `malloc` returns `NULL` for the
region buffer, `update_changed_regions` sends the window of the box, then the
window `(0, 0, W-1, H-1)`, then one burst of `DISPLAY_BYTES` bytes holding the
whole current frame: the last window before the pixel data is the full screen,
the only burst is the whole frame (no packed region is sent), and the pass
still commits the current frame to `prev_frame`. -/
theorem alloc_failure_full_fallback (malloc : Nat → Option (Nat → Nat))
    (prev cur mask : Array Nat) (spi : List Ev)
    (hprev : prev.size = DISPLAY_SIZE) (hcur : cur.size = DISPLAY_SIZE)
    (htake : reaches_partial_arm prev cur mask)
    (hnull : malloc
      ((find_bounding_box (detect_changed_regions prev cur mask).1).rect.width
        * (find_bounding_box (detect_changed_regions prev cur mask).1).rect.height * 2)
      = none) :
    update_changed_regions malloc cur (detect_changed_regions prev cur mask).1
      = set_window (find_bounding_box (detect_changed_regions prev cur mask).1).min_x
            (find_bounding_box (detect_changed_regions prev cur mask).1).min_y
            (find_bounding_box (detect_changed_regions prev cur mask).1).max_x
            (find_bounding_box (detect_changed_regions prev cur mask).1).max_y
          ++ (set_window 0 0 319 169
            ++ [Ev.data_len ((List.range 54400).map (rd cur)) 108800])
    ∧ (WIDTH - 1 = 319 ∧ HEIGHT - 1 = 169 ∧ DISPLAY_BYTES = 108800)
    ∧ bursts (update_changed_regions malloc cur (detect_changed_regions prev cur mask).1)
      = [Ev.data_len ((List.range 54400).map (rd cur)) 108800]
    ∧ cycle_traffic malloc prev cur mask
      = update_changed_regions malloc cur (detect_changed_regions prev cur mask).1
    ∧ (commit (diff_and_transmit malloc (Engine.mk prev cur mask spi))).prev_frame = cur
    ∧ (commit (diff_and_transmit malloc (Engine.mk prev cur mask spi))).spi
      = spi ++ update_changed_regions malloc cur (detect_changed_regions prev cur mask).1 := by
  obtain ⟨hzero, hg⟩ := htake
  have hsent : update_changed_regions malloc cur (detect_changed_regions prev cur mask).1
      = set_window (find_bounding_box (detect_changed_regions prev cur mask).1).min_x
            (find_bounding_box (detect_changed_regions prev cur mask).1).min_y
            (find_bounding_box (detect_changed_regions prev cur mask).1).max_x
            (find_bounding_box (detect_changed_regions prev cur mask).1).max_y
          ++ (set_window 0 0 319 169
            ++ [Ev.data_len ((List.range 54400).map (rd cur)) 108800]) := by
    rw [update_changed_regions, send_bounding_box_null malloc cur _ hg hnull, full_transmit]
  have htraffic := cycle_traffic_of_zero malloc prev cur mask hzero
  refine ⟨hsent, ⟨Eq.refl 319, Eq.refl 169, Eq.refl 108800⟩, ?_, htraffic, ?_, ?_⟩
  · rw [hsent, bursts_append, bursts_append, bursts_set_window, bursts_set_window, bursts_single,
      List.nil_append, List.nil_append]
  · rw [commit_eq, mk_prev_frame, diff_and_transmit_eq, mk_prev_frame, mk_current_frame,
      mk_prev_frame, mk_current_frame]
    exact memcpy_frame prev cur hprev hcur
  · rw [commit_eq, mk_spi, diff_and_transmit_eq, mk_spi, mk_spi, mk_prev_frame,
      mk_current_frame, mk_update_mask, htraffic]

/-- Witness for C13: the frame with lit rows 0 and 9 after a black frame, with an
allocator that always fails. -/
theorem alloc_failure_full_fallback_witness :
    zero_frame.size = DISPLAY_SIZE ∧ rows_0_9_frame.size = DISPLAY_SIZE
    ∧ reaches_partial_arm zero_frame rows_0_9_frame zero_frame
    ∧ bursts (update_changed_regions malloc_null rows_0_9_frame
          (detect_changed_regions zero_frame rows_0_9_frame zero_frame).1)
        = [Ev.data_len ((List.range 54400).map (rd rows_0_9_frame)) 108800]
    ∧ (commit (diff_and_transmit malloc_null
          (Engine.mk zero_frame rows_0_9_frame zero_frame []))).prev_frame = rows_0_9_frame :=
  ⟨size_frame_of _, size_frame_of _, rows_0_9_reaches,
    (alloc_failure_full_fallback malloc_null zero_frame rows_0_9_frame zero_frame []
      (size_frame_of _) (size_frame_of _) rows_0_9_reaches
      (malloc_null_eq _)).2.2.1,
    (alloc_failure_full_fallback malloc_null zero_frame rows_0_9_frame zero_frame []
      (size_frame_of _) (size_frame_of _) rows_0_9_reaches
      (malloc_null_eq _)).2.2.2.2.1⟩

/-! ## Index safety of the partial arm -/

theorem forLoop_collect {α : Type} (n : Nat) (f : Nat → α) :
    forLoop 0 n (fun k acc => acc ++ [f k]) [] = (List.range n).map f := by
  induction n with
  | zero => rw [forLoop_zero_zero]; rfl
  | succ n ih => rw [forLoop_zero_succ, ih, List.range_succ, List.map_append]; rfl

theorem forLoop_eq_foldl {σ : Type} (n : Nat) (body : Nat → σ → σ) (s : σ) :
    forLoop 0 n body s = (List.range n).foldl (fun acc k => body k acc) s := by
  induction n with
  | zero => rw [forLoop_zero_zero]; rfl
  | succ n ih => rw [forLoop_zero_succ, ih, List.range_succ, List.foldl_append]; rfl

theorem copy_accesses_flat (x0 x1 y0 y1 : Nat) (hx : x0 ≤ x1) :
    copy_accesses x0 x1 y0 y1
      = (List.range ((y1 + 1 - y0) * (x1 - x0 + 1))).map
          (fun k => ((y0 + k / (x1 - x0 + 1)) * WIDTH + (x0 + k % (x1 - x0 + 1)), k)) := by
  have hw : x1 + 1 - x0 = x1 - x0 + 1 := by omega
  rw [copy_accesses]
  dsimp only
  rw [forLoop_nested_from, hw, ← forLoop_collect]
  apply forLoop_congr
  intro k acc _
  have e : (y0 + k / (x1 - x0 + 1) - y0) * (x1 - x0 + 1) + (x0 + k % (x1 - x0 + 1) - x0) = k := by
    rw [Nat.add_sub_cancel_left, Nat.add_sub_cancel_left]
    exact Nat.div_add_mod' k (x1 - x0 + 1)
  rw [e]

/-- The copy loop performs exactly the accesses listed by `copy_accesses`. -/
theorem copy_region_replay (cur : Array Nat) (x0 x1 y0 y1 : Nat) (buf : Array Nat)
    (hx : x0 ≤ x1) :
    copy_region cur x0 x1 y0 y1 buf
      = (copy_accesses x0 x1 y0 y1).foldl (fun b a => wr b a.2 (rd cur a.1)) buf := by
  rw [copy_region_flat cur x0 x1 y0 y1 buf hx, copy_accesses_flat x0 x1 y0 y1 hx,
    forLoop_eq_foldl, List.foldl_map]

theorem guarded_box_bounds (mask : Array Nat) (b : BBox) (hb : find_bounding_box mask = b)
    (hg : partial_guard b) :
    b.min_x + 2 < b.max_x ∧ b.max_x < 320 ∧ b.min_y + 2 < b.max_y ∧ b.max_y < 170 := by
  obtain ⟨g1, g2, g3⟩ := guard_bounds b hg
  have hpos : 0 < (find_bounding_box mask).changed_areas := by
    rw [hb]
    omega
  have hrect := find_bounding_box_rect mask hpos
  rw [hb] at hrect
  obtain ⟨v1, v2, v3, v4⟩ := hrect.1
  have hW : WIDTH = 320 := rfl
  have hH : HEIGHT = 170 := rfl
  obtain ⟨f1, f2, f3, f4⟩ := rect_fields b
  rw [f2, hW] at v2
  rw [f4, hH] at v4
  exact ⟨g2, v2, g3, v4⟩

/-- C15. Index safety of the partial arm.  For every update mask whose scanned box
`b` passes the test of line 324 (`changed_areas > 10`, `max_x - min_x > 2`,
`max_y - min_y > 2`): `region_size = region_width * region_height` lies between
16 and `W*H = 54400`; every source index `y*W + x` of the copy loop is below
`W*H` and every destination index `(y-min_y)*region_width + (x-min_x)` is below
`region_size`; the destination indices, in loop order, are `0, 1, ..,
region_size - 1`, so each is written exactly once; and the four window
coordinates, converted to `uint16_t` and increased by `COL_OFFSET` or
`ROW_OFFSET`, are below 65536 and equal the exact sums (no wrap-around). -/
theorem partial_path_index_safety (mask : Array Nat) (b : BBox)
    (hb : find_bounding_box mask = b) (hg : partial_guard b) :
    (16 ≤ (b.max_x - b.min_x + 1) * (b.max_y - b.min_y + 1)
      ∧ (b.max_x - b.min_x + 1) * (b.max_y - b.min_y + 1) ≤ WIDTH * HEIGHT
      ∧ WIDTH * HEIGHT = 54400)
    ∧ (∀ a, a ∈ copy_accesses b.min_x b.max_x b.min_y b.max_y →
        a.1 < WIDTH * HEIGHT ∧ a.2 < (b.max_x - b.min_x + 1) * (b.max_y - b.min_y + 1))
    ∧ (copy_accesses b.min_x b.max_x b.min_y b.max_y).map Prod.snd
        = List.range ((b.max_x - b.min_x + 1) * (b.max_y - b.min_y + 1))
    ∧ (∀ d, d < (b.max_x - b.min_x + 1) * (b.max_y - b.min_y + 1) →
        ((copy_accesses b.min_x b.max_x b.min_y b.max_y).map Prod.snd).count d = 1)
    ∧ (∀ cur buf : Array Nat,
        copy_region cur b.min_x b.max_x b.min_y b.max_y buf
          = (copy_accesses b.min_x b.max_x b.min_y b.max_y).foldl
              (fun r a => wr r a.2 (rd cur a.1)) buf)
    ∧ ((b.min_x % 65536 + COL_OFFSET) % 65536 = b.min_x + COL_OFFSET
      ∧ (b.max_x % 65536 + COL_OFFSET) % 65536 = b.max_x + COL_OFFSET
      ∧ (b.min_y % 65536 + ROW_OFFSET) % 65536 = b.min_y + ROW_OFFSET
      ∧ (b.max_y % 65536 + ROW_OFFSET) % 65536 = b.max_y + ROW_OFFSET
      ∧ b.max_x + COL_OFFSET < 65536 ∧ b.max_y + ROW_OFFSET < 65536) := by
  obtain ⟨hx, hxW, hy, hyH⟩ := guarded_box_bounds mask b hb hg
  have hWH : WIDTH * HEIGHT = 54400 := rfl
  have hW : WIDTH = 320 := rfl
  have hC : COL_OFFSET = 0 := rfl
  have hR : ROW_OFFSET = 35 := rfl
  have hxle : b.min_x ≤ b.max_x := by omega
  have hwpos : 0 < b.max_x - b.min_x + 1 := by omega
  have hn : (b.max_y + 1 - b.min_y) * (b.max_x - b.min_x + 1)
      = (b.max_x - b.min_x + 1) * (b.max_y - b.min_y + 1) := by
    have : b.max_y + 1 - b.min_y = b.max_y - b.min_y + 1 := by omega
    rw [this, Nat.mul_comm]
  have hflat := copy_accesses_flat b.min_x b.max_x b.min_y b.max_y hxle
  rw [hn] at hflat
  have hdst : (copy_accesses b.min_x b.max_x b.min_y b.max_y).map Prod.snd
      = List.range ((b.max_x - b.min_x + 1) * (b.max_y - b.min_y + 1)) := by
    rw [hflat, List.map_map]
    exact List.map_id _
  refine ⟨⟨?_, ?_, hWH⟩, ?_, hdst, ?_, ?_, ?_⟩
  · calc 16 = 4 * 4 := rfl
      _ ≤ (b.max_x - b.min_x + 1) * (b.max_y - b.min_y + 1) :=
          Nat.mul_le_mul (by omega) (by omega)
  · calc (b.max_x - b.min_x + 1) * (b.max_y - b.min_y + 1)
        ≤ 320 * 170 := Nat.mul_le_mul (by omega) (by omega)
      _ = WIDTH * HEIGHT := rfl
  · intro a ha
    rw [hflat, List.mem_map] at ha
    obtain ⟨k, hk, rfl⟩ := ha
    have hk' : k < (b.max_x - b.min_x + 1) * (b.max_y - b.min_y + 1) := List.mem_range.mp hk
    have hq : k / (b.max_x - b.min_x + 1) < b.max_y - b.min_y + 1 := by
      rw [Nat.div_lt_iff_lt_mul hwpos, Nat.mul_comm]
      exact hk'
    have hr : k % (b.max_x - b.min_x + 1) < b.max_x - b.min_x + 1 := Nat.mod_lt k hwpos
    refine ⟨?_, hk'⟩
    show (b.min_y + k / (b.max_x - b.min_x + 1)) * WIDTH
        + (b.min_x + k % (b.max_x - b.min_x + 1)) < WIDTH * HEIGHT
    rw [hWH, hW]
    generalize k / (b.max_x - b.min_x + 1) = q at hq
    generalize k % (b.max_x - b.min_x + 1) = r at hr
    omega
  · intro d hd
    rw [hdst]
    exact List.count_eq_one_of_mem (List.nodup_range _) (List.mem_range.mpr hd)
  · intro cur buf
    exact copy_region_replay cur b.min_x b.max_x b.min_y b.max_y buf hxle
  · rw [hC, hR]
    refine ⟨by omega, by omega, by omega, by omega, by omega, by omega⟩

/-- Witness for C15: the mask that the diff computes for the frame with lit rows 0
and 9 after a black frame. -/
theorem partial_path_index_safety_witness :
    partial_guard
      (find_bounding_box (detect_changed_regions zero_frame rows_0_9_frame zero_frame).1)
    ∧ ∀ cur buf : Array Nat,
        copy_region cur
            (find_bounding_box
              (detect_changed_regions zero_frame rows_0_9_frame zero_frame).1).min_x
            (find_bounding_box
              (detect_changed_regions zero_frame rows_0_9_frame zero_frame).1).max_x
            (find_bounding_box
              (detect_changed_regions zero_frame rows_0_9_frame zero_frame).1).min_y
            (find_bounding_box
              (detect_changed_regions zero_frame rows_0_9_frame zero_frame).1).max_y buf
          = (copy_accesses
              (find_bounding_box
                (detect_changed_regions zero_frame rows_0_9_frame zero_frame).1).min_x
              (find_bounding_box
                (detect_changed_regions zero_frame rows_0_9_frame zero_frame).1).max_x
              (find_bounding_box
                (detect_changed_regions zero_frame rows_0_9_frame zero_frame).1).min_y
              (find_bounding_box
                (detect_changed_regions zero_frame rows_0_9_frame zero_frame).1).max_y).foldl
              (fun r a => wr r a.2 (rd cur a.1)) buf :=
  ⟨rows_0_9_guard,
    (partial_path_index_safety
      (detect_changed_regions zero_frame rows_0_9_frame zero_frame).1 _ (Eq.refl _)
      rows_0_9_guard).2.2.2.2.1⟩

/-! ## The loop and the outcome of a write -/

theorem smart_update_loop_cons (keep : Nat) (malloc : Nat → Option (Nat → Nat))
    (cap : Capture) (rest : List Pass) (st : Engine) :
    smart_update_loop (Pass.mk keep malloc cap :: rest) st
      = if keep = 0 then st
        else
          match loop_body malloc cap st with
          | none => st
          | some st' => smart_update_loop rest st' := by
  rw [smart_update_loop]

theorem smart_update_loop_step (keep : Nat) (malloc : Nat → Option (Nat → Nat))
    (cap : Capture) (rest : List Pass) (st st' : Engine) (hk : keep ≠ 0)
    (h : loop_body malloc cap st = some st') :
    smart_update_loop (Pass.mk keep malloc cap :: rest) st = smart_update_loop rest st' := by
  rw [smart_update_loop_cons, if_neg hk, h]

theorem smart_update_loop_stop (keep : Nat) (malloc : Nat → Option (Nat → Nat))
    (cap : Capture) (rest : List Pass) (st : Engine)
    (h : keep = 0 ∨ loop_body malloc cap st = none) :
    smart_update_loop (Pass.mk keep malloc cap :: rest) st = st := by
  rw [smart_update_loop_cons]
  by_cases hk : keep = 0
  · rw [if_pos hk]
  · rw [if_neg hk]
    rcases h with h | h
    · exact absurd h hk
    · rw [h]

theorem smart_update_loop_nil (st : Engine) : smart_update_loop [] st = st := by
  rw [smart_update_loop]

theorem loop_body_none_iff (malloc : Nat → Option (Nat → Nat)) (cap : Capture) (st : Engine) :
    loop_body malloc cap st = none ↔ cap.snapshot ≠ 0 ∨ cap.read_data ≠ 0 := by
  rw [loop_body]
  by_cases h1 : cap.snapshot ≠ 0
  · rw [if_pos h1]
    exact ⟨fun _ => Or.inl h1, fun _ => rfl⟩
  · rw [if_neg h1]
    by_cases h2 : cap.read_data ≠ 0
    · rw [if_pos h2]
      exact ⟨fun _ => Or.inr h2, fun _ => rfl⟩
    · rw [if_neg h2]
      constructor
      · intro h
        exact absurd h (by simp)
      · intro h
        rcases h with h | h
        · exact absurd h h1
        · exact absurd h h2

theorem panel_step_mem (p : Panel) (e : Ev) (h : ∀ w n, e ≠ Ev.data_len w n) :
    (panel_step p e).mem = p.mem := by
  cases e with
  | cmd c => rfl
  | data b =>
    unfold panel_step
    dsimp only
    split_ifs <;> rfl
  | data_len w n => exact absurd rfl (h w n)

theorem lossy_fold_mem (evs : List Ev) (p : Panel) (k : Nat) :
    (evs.foldl (panel_step_lossy (fun _ => false)) (p, k)).1.mem = p.mem := by
  induction evs generalizing p k with
  | nil => rfl
  | cons e rest ih =>
    rw [List.foldl_cons]
    cases e with
    | cmd c =>
      have : panel_step_lossy (fun _ => false) (p, k) (Ev.cmd c) = (panel_step p (Ev.cmd c), k) :=
        rfl
      rw [this, ih, panel_step_mem p _ (by intro w n h; cases h)]
    | data b =>
      have : panel_step_lossy (fun _ => false) (p, k) (Ev.data b)
          = (panel_step p (Ev.data b), k) := rfl
      rw [this, ih, panel_step_mem p _ (by intro w n h; cases h)]
    | data_len w n =>
      have : panel_step_lossy (fun _ => false) (p, k) (Ev.data_len w n) = (p, k + 1) := rfl
      rw [this, ih]

/-- If no burst is delivered the panel keeps its memory. -/
theorem panel_run_lossy_none (evs : List Ev) (p : Panel) :
    (panel_run_lossy (fun _ => false) evs p).mem = p.mem := by
  rw [panel_run_lossy]
  exact lossy_fold_mem evs p 0

theorem lossy_fold_all (evs : List Ev) (p : Panel) (k : Nat) :
    (evs.foldl (panel_step_lossy (fun _ => true)) (p, k)).1 = evs.foldl panel_step p := by
  induction evs generalizing p k with
  | nil => rfl
  | cons e rest ih =>
    rw [List.foldl_cons, List.foldl_cons]
    cases e with
    | cmd c =>
      have : panel_step_lossy (fun _ => true) (p, k) (Ev.cmd c) = (panel_step p (Ev.cmd c), k) :=
        rfl
      rw [this, ih]
    | data b =>
      have : panel_step_lossy (fun _ => true) (p, k) (Ev.data b)
          = (panel_step p (Ev.data b), k) := rfl
      rw [this, ih]
    | data_len w n =>
      have : panel_step_lossy (fun _ => true) (p, k) (Ev.data_len w n)
          = (panel_step p (Ev.data_len w n), k + 1) := rfl
      rw [this, ih]

/-- If every burst is delivered the lossy bus is the ordinary one. -/
theorem panel_run_lossy_all (evs : List Ev) (p : Panel) :
    panel_run_lossy (fun _ => true) evs p = panel_run evs p := by
  rw [panel_run_lossy, panel_run]
  exact lossy_fold_all evs p 0

theorem color_loop_spec (raw : Array Nat) (hs : raw.size = DISPLAY_SIZE) (i : Nat)
    (hi : i < DISPLAY_SIZE) :
    rd (forLoop 0 DISPLAY_SIZE (fun i f => wr f i (fix_color_format (rd f i))) raw) i
      = fix_color_format (rd raw i) := by
  have key := forLoop_invariant
    (fun m (b : Array Nat) =>
      b.size = raw.size
      ∧ (∀ k, k < m → rd b k = fix_color_format (rd raw k))
      ∧ (∀ k, m ≤ k → rd b k = rd raw k))
    DISPLAY_SIZE (fun i f => wr f i (fix_color_format (rd f i))) raw
    ⟨rfl, by intro k hk; omega, by intro k _; rfl⟩
    (by
      intro m b hm ⟨h1, h2, h3⟩
      dsimp only
      refine ⟨by rw [size_wr]; exact h1, ?_, ?_⟩
      · intro k hk
        by_cases hkm : m = k
        · rw [← hkm, rd_wr_same _ _ _ (by rw [h1, hs]; exact hm), h3 m (Nat.le_refl m)]
        · rw [rd_wr_other _ _ _ _ hkm]
          exact h2 k (by omega)
      · intro k hk
        rw [rd_wr_other _ _ _ _ (by omega)]
        exact h3 k (by omega))
  exact key.2.1 i hi

theorem prepare_frame_rd (raw : Array Nat) (hs : raw.size = DISPLAY_SIZE) (i : Nat)
    (hi : i < DISPLAY_SIZE) : rd (prepare_frame raw) i = fix_color_format (rd raw i) := by
  rw [prepare_frame, apply_interlacing_eq]
  exact color_loop_spec raw hs i hi

theorem sample_pixels : sample_capture.pixels = rows_0_9_frame := by
  rw [sample_capture]

theorem sample_first_pixel : rd (prepare_frame sample_capture.pixels) 0 = 256 := by
  rw [prepare_frame_rd _ sample_capture_fields.2.2 0 (by decide), sample_pixels, rows_0_9_frame,
    rd_frame_of]
  decide

theorem cycle_traffic_ne_nil (malloc : Nat → Option (Nat → Nat)) (prev cur mask : Array Nat)
    (hm : mask.size = DISPLAY_SIZE) (h : ∃ i, i < DISPLAY_SIZE ∧ rd cur i ≠ rd prev i) :
    cycle_traffic malloc prev cur mask ≠ [] := by
  have hpos : 0 < changed_pixel_count prev cur := (changed_pixel_count_pos prev cur).mpr h
  rw [cycle_traffic_eq malloc prev cur mask hm]
  by_cases hbig : 2720 < changed_pixel_count prev cur
  · rw [if_pos hbig]
    exact full_transmit_ne_nil cur
  · rw [if_neg hbig]
    apply send_bounding_box_ne_nil
    rw [cycle_box_count prev cur mask hm]
    exact hpos

theorem init_first_pixel (c m : Array Nat) : rd (init_engine c m).prev_frame 0 = 0 := by
  rw [init_engine_eq, mk_prev_frame, rd_of_lt _ _ (by rw [Array.size_mkArray]; decide)]
  exact Array.getElem_mkArray _ _ _

theorem init_spi (c m : Array Nat) : (init_engine c m).spi = [] := by
  rw [init_engine_eq, mk_spi]

/-- C14, counterexample. In the first pass after start-up a transmit takes place;
let every write on the bus fail, so that the panel keeps its all-zero memory.
The pass nevertheless completes and commits the current frame (pixel 0 of
`prev_frame` goes from 0 to 256 while the panel still shows 0), and the loop
goes on to perform the next pass. -/
theorem failed_write_commits_and_continues :
    ∃ st1 st2 : Engine,
      loop_body malloc_ok sample_capture (init_engine zero_frame zero_frame) = some st1
      ∧ st1.spi ≠ []
      ∧ (panel_run_lossy (fun _ => false) st1.spi panel_init).mem = panel_init.mem
      ∧ rd (panel_run_lossy (fun _ => false) st1.spi panel_init).mem 0 = 0
      ∧ rd (init_engine zero_frame zero_frame).prev_frame 0 = 0
      ∧ rd st1.prev_frame 0 = 256
      ∧ loop_body malloc_ok sample_capture st1 = some st2
      ∧ smart_update_loop
          [Pass.mk 1 malloc_ok sample_capture, Pass.mk 1 malloc_ok sample_capture]
          (init_engine zero_frame zero_frame) = st2 := by
  obtain ⟨_, _, e1, _, _, e4⟩ :=
    step_fields malloc_ok sample_capture (init_engine zero_frame zero_frame)
  have hcur : (prepare_frame sample_capture.pixels).size = DISPLAY_SIZE := by
    rw [size_prepare_frame]
    exact sample_capture_fields.2.2
  rw [memcpy_frame _ _ (init_prev_size _ _) hcur] at e1
  rw [init_spi, List.nil_append] at e4
  have h1 := loop_body_ok malloc_ok sample_capture (init_engine zero_frame zero_frame)
    sample_capture_fields.1 sample_capture_fields.2.1
  have h2 := loop_body_ok malloc_ok sample_capture
    (commit (diff_and_transmit malloc_ok
      (load_frame sample_capture (init_engine zero_frame zero_frame))))
    sample_capture_fields.1 sample_capture_fields.2.1
  refine ⟨_, _, h1, ?_, panel_run_lossy_none _ _, ?_, init_first_pixel _ _, ?_, h2, ?_⟩
  · rw [e4]
    apply cycle_traffic_ne_nil _ _ _ _ (init_mask_size _ _ (size_frame_of _))
    refine ⟨0, by decide, ?_⟩
    rw [sample_first_pixel, init_first_pixel]
    decide
  · rw [panel_run_lossy_none, panel_init_mem,
      rd_of_lt _ _ (by rw [Array.size_mkArray]; decide)]
    exact Array.getElem_mkArray _ _ _
  · rw [e1]
    exact sample_first_pixel
  · rw [smart_update_loop_step 1 malloc_ok sample_capture _ _ _ (by decide) h1,
      smart_update_loop_step 1 malloc_ok sample_capture _ _ _ (by decide) h2,
      smart_update_loop_nil]

/-- C14, amended. The loop has no transport-error path.  A pass entered with
`keep_running` set and whose two dispmanx calls succeed always completes: it
commits the current frame to `prev_frame` and the loop goes on with the next
pass, even when no burst reaches the panel (whose memory then stays as it
was).  The loop stops only when `keep_running` is 0 or a dispmanx call fails,
and then the state is left as it was: nothing is sent and `prev_frame` is not
touched. -/
theorem write_outcome_ignored (keep : Nat) (malloc : Nat → Option (Nat → Nat))
    (cap : Capture) (rest : List Pass) (st : Engine) (q : Panel)
    (hprev : st.prev_frame.size = DISPLAY_SIZE) (hpix : cap.pixels.size = DISPLAY_SIZE) :
    (keep ≠ 0 → cap.snapshot = 0 → cap.read_data = 0 →
      ∃ st', loop_body malloc cap st = some st'
        ∧ st'.prev_frame = prepare_frame cap.pixels
        ∧ (panel_run_lossy (fun _ => false) st'.spi q).mem = q.mem
        ∧ smart_update_loop (Pass.mk keep malloc cap :: rest) st
            = smart_update_loop rest st')
    ∧ (keep = 0 ∨ cap.snapshot ≠ 0 ∨ cap.read_data ≠ 0 →
        smart_update_loop (Pass.mk keep malloc cap :: rest) st = st)
    ∧ (loop_body malloc cap st = none ↔ cap.snapshot ≠ 0 ∨ cap.read_data ≠ 0) := by
  refine ⟨?_, ?_, loop_body_none_iff malloc cap st⟩
  · intro hk hs hrd
    obtain ⟨_, _, e1, _, _, _⟩ := step_fields malloc cap st
    have hcur : (prepare_frame cap.pixels).size = DISPLAY_SIZE := by
      rw [size_prepare_frame, hpix]
    rw [memcpy_frame _ _ hprev hcur] at e1
    have h1 := loop_body_ok malloc cap st hs hrd
    exact ⟨_, h1, e1, panel_run_lossy_none _ _,
      smart_update_loop_step keep malloc cap rest st _ hk h1⟩
  · intro h
    apply smart_update_loop_stop
    rcases h with h | h
    · exact Or.inl h
    · exact Or.inr ((loop_body_none_iff malloc cap st).mpr h)

/-- Witness for the amended C14: the first pass after start-up. -/
theorem write_outcome_ignored_witness :
    (init_engine zero_frame zero_frame).prev_frame.size = DISPLAY_SIZE
    ∧ sample_capture.pixels.size = DISPLAY_SIZE
    ∧ (loop_body malloc_ok sample_capture (init_engine zero_frame zero_frame) = none
        ↔ sample_capture.snapshot ≠ 0 ∨ sample_capture.read_data ≠ 0) :=
  ⟨init_prev_size _ _, sample_capture_fields.2.2,
    (write_outcome_ignored 1 malloc_ok sample_capture [] (init_engine zero_frame zero_frame)
      panel_init (init_prev_size _ _) sample_capture_fields.2.2).2.2⟩

end St7789
